import Mathlib

/-!
The contiguous frame pool of x86-Based-Kernel (`cont_frame_pool.C`).

A shallow embedding of `ContFramePool` and theorems about it.

* `unsigned long` / `unsigned int` are 32-bit words (the kernel targets 32-bit x86 with
  two-level paging); values are `Nat`, wrap-around is explicit (`u32`, `sub32`).
* The bitmap is byte-addressed memory, `Nat → Nat`; reading an `unsigned char` cell takes the
  stored value modulo 256, and every write stores a value below 256.  Indices past the pool's
  last frame are ordinary memory behind the bitmap, so out-of-range writes are representable.
* `assert(...)` failing halts the kernel: `Outcome.fatal st`, where `st` is the state at the
  moment of the halt.  A normal return is `Outcome.ok value st`.
* The global registry (`head` / `list` / `next`) is a `List ContFramePool` in link order.
-/

/-- Size of the 32-bit machine word: `unsigned long` values are below this. -/
def WORD : Nat := 4294967296

/-- Truncation of an arithmetic result to an `unsigned long`. -/
def u32 (x : Nat) : Nat := x % WORD

/-- Unsigned subtraction `a - b` on words: exact when there is no borrow, wrapping otherwise. -/
def sub32 (a b : Nat) : Nat := if b ≤ a then a - b else u32 (a + WORD - b)

/-- Modelled from the spec: the `assert` of `assert.H` (not among the sources); a failed
assertion is fatal, the kernel halts instead of returning.  `Outcome σ α` is the result of
running an operation on a state of type `σ`: a normal return with a value, or a fatal halt,
each with the state reached. -/
inductive Outcome (σ : Type) (α : Type) where
  | ok (val : α) (st : σ) : Outcome σ α
  | fatal (st : σ) : Outcome σ α

namespace Outcome

/-- The returned value, if the operation returned. -/
def value {σ α : Type} : Outcome σ α → Option α
  | ok v _ => some v
  | fatal _ => none

/-- The state reached, whether by return or by halt. -/
def state {σ α : Type} : Outcome σ α → σ
  | ok _ s => s
  | fatal s => s

/-- Whether the operation halted the kernel. -/
def isFatal {σ α : Type} : Outcome σ α → Bool
  | ok _ _ => false
  | fatal _ => true

end Outcome

/-- The enumeration `ContFramePool::FrameState`, encoded in the bitmap as 0, 1, 2, 3 in this
order (the `switch` of `get_state`). -/
inductive FrameState where
  | Free
  | Used
  | HoS
  | Inaccessible
  deriving DecidableEq, Repr

/-- The data members of a `ContFramePool` object; `bitmap` is the memory the `bitmap` pointer
points at, indexed by byte offset. -/
structure ContFramePool where
  base_frame_no : Nat
  n_frames : Nat
  n_free_frames : Nat
  info_frame_no : Nat
  bitmap : Nat → Nat

namespace ContFramePool

/-- The decoding done by `ContFramePool::get_state` on the byte `b` read from
`bitmap[bitmap_index]`: mask out the two bits of the frame, shift them down, switch. -/
def get_state_byte (b : Nat) (_frame_no : Nat) : FrameState :=
  let mask := (0x3 <<< ((_frame_no % 4) * 2)) % 256
  match (b &&& mask) >>> ((_frame_no % 4) * 2) with
  | 0 => FrameState.Free
  | 1 => FrameState.Used
  | 2 => FrameState.HoS
  | 3 => FrameState.Inaccessible
  | _ => FrameState.Free

/-- Source function `ContFramePool::get_state`: `bitmap_index = _frame_no / 4`. -/
def get_state (p : ContFramePool) (_frame_no : Nat) : FrameState :=
  get_state_byte (p.bitmap (_frame_no / 4) % 256) _frame_no

/-- The byte stored by `ContFramePool::set_state` into `bitmap[bitmap_index]`, given the byte
`b` read from it: `b &= ~mask`, then `b |= code << shift` for the three non-Free states. -/
def set_state_byte (b : Nat) (_frame_no : Nat) (_state : FrameState) : Nat :=
  let mask := (0x3 <<< ((_frame_no % 4) * 2)) % 256
  let cleared := (b &&& (4294967295 - mask)) % 256
  match _state with
  | FrameState.Free => cleared
  | FrameState.Used => (cleared ||| (0x1 <<< ((_frame_no % 4) * 2))) % 256
  | FrameState.HoS => (cleared ||| (0x2 <<< ((_frame_no % 4) * 2))) % 256
  | FrameState.Inaccessible => (cleared ||| (0x3 <<< ((_frame_no % 4) * 2))) % 256

/-- Source function `ContFramePool::set_state`: rewrites the one byte
`bitmap[_frame_no / 4]`. -/
def set_state (p : ContFramePool) (_frame_no : Nat) (_state : FrameState) : ContFramePool :=
  { p with
    bitmap := fun i =>
      if i = _frame_no / 4 then set_state_byte (p.bitmap (_frame_no / 4) % 256) _frame_no _state
      else p.bitmap i }

/-- The constructor's loop `for (fno = 0; fno < n_frames; ++fno) set_state(fno, Free)`,
with `k` iterations left. -/
def construct_loop : Nat → Nat → ContFramePool → ContFramePool
  | 0, _, p => p
  | k + 1, fno, p => construct_loop k (fno + 1) (set_state p fno FrameState.Free)

/-- Constructor `ContFramePool::ContFramePool(_base_frame_no, _n_frames, _info_frame_no)`, the object it
builds.  `mem` is what the memory at the bitmap address holds before the call. -/
def construct (mem : Nat → Nat) (_base_frame_no _n_frames _info_frame_no : Nat) :
    ContFramePool :=
  let p0 : ContFramePool :=
    { base_frame_no := _base_frame_no
      n_frames := _n_frames
      n_free_frames := _n_frames
      info_frame_no := _info_frame_no
      bitmap := mem }
  let p1 := construct_loop p0.n_frames 0 p0
  if _info_frame_no = 0 then
    { set_state p1 0 FrameState.Used with n_free_frames := sub32 p1.n_free_frames 1 }
  else p1

/-- The constructor's registry update: the new pool becomes the last node of the list. -/
def enlist (registry : List ContFramePool) (pool : ContFramePool) : List ContFramePool :=
  registry ++ [pool]

/-- The search loop of `ContFramePool::get_frames` with `k` iterations left, at index `n`,
with the locals `start` and `num`; returns the final `(start, num)`. -/
def get_frames_scan (p : ContFramePool) (_n_frames : Nat) :
    Nat → Nat → Nat → Nat → Nat × Nat
  | 0, _, start, num => (start, num)
  | k + 1, n, start, num =>
    if get_state p n = FrameState.Free then
      if num + 1 = _n_frames then (if num = 0 then n else start, num + 1)
      else get_frames_scan p _n_frames k (n + 1) (if num = 0 then n else start) (num + 1)
    else get_frames_scan p _n_frames k (n + 1) start 0

/-- The marking loop of `ContFramePool::get_frames` with `k` iterations left, at `id`. -/
def get_frames_mark (start : Nat) : Nat → Nat → ContFramePool → ContFramePool
  | 0, _, p => p
  | k + 1, id, p =>
    get_frames_mark start k (id + 1)
      (set_state p (id + start) (if id = 0 then FrameState.HoS else FrameState.Used))

/-- Source function `ContFramePool::get_frames(_n_frames)`.  The local `start` is declared without an
initialiser; `start0` is the value it happens to hold. -/
def get_frames (start0 : Nat) (p : ContFramePool) (_n_frames : Nat) :
    Outcome ContFramePool Nat :=
  if _n_frames ≤ p.n_free_frames then
    let r := get_frames_scan p _n_frames p.n_frames 0 start0 0
    if r.2 ≠ _n_frames then Outcome.ok 0 p
    else
      Outcome.ok (u32 (r.1 + p.base_frame_no))
        { get_frames_mark r.1 _n_frames 0 p with
          n_free_frames := sub32 p.n_free_frames _n_frames }
  else Outcome.fatal p

/-- The loop of `ContFramePool::mark_inaccessible` with `k` iterations left, at `fno`. -/
def mark_inaccessible_loop : Nat → Nat → ContFramePool → Outcome ContFramePool Unit
  | 0, _, p => Outcome.ok () p
  | k + 1, fno, p =>
    if fno ≤ u32 (p.base_frame_no + p.n_frames) ∧
        get_state p (fno - p.base_frame_no) = FrameState.Free then
      mark_inaccessible_loop k (fno + 1)
        { set_state p (fno - p.base_frame_no) FrameState.Inaccessible with
          n_free_frames := sub32 p.n_free_frames 1 }
    else Outcome.fatal p

/-- Source function `ContFramePool::mark_inaccessible(_base_frame_no, _n_frames)`.  The loop runs while
`fno < _base_frame_no + _n_frames`, the sum taken as a word. -/
def mark_inaccessible (p : ContFramePool) (_base_frame_no _n_frames : Nat) :
    Outcome ContFramePool Unit :=
  if _base_frame_no ≥ p.base_frame_no then
    mark_inaccessible_loop (u32 (_base_frame_no + _n_frames) - _base_frame_no) _base_frame_no p
  else Outcome.fatal p

/-- The inner loop of `ContFramePool::release_frames` on the node found, with `k` iterations
left, at `fno`. -/
def release_frames_loop : Nat → Nat → ContFramePool → ContFramePool
  | 0, _, node => node
  | k + 1, fno, node =>
    release_frames_loop k (fno + 1)
      { set_state node (fno - node.base_frame_no) FrameState.Free with
        n_free_frames := sub32 node.n_free_frames 1 }

/-- Source function `ContFramePool::release_frames(_first_frame_no)`, walking the registry
from `head`; a halt reports the registry as it is at that moment. -/
def release_frames : List ContFramePool → Nat → Outcome (List ContFramePool) Unit
  | [], _ => Outcome.fatal []
  | node :: rest, _first_frame_no =>
    if _first_frame_no ≥ node.base_frame_no ∧
        _first_frame_no < u32 (node.base_frame_no + node.n_frames) then
      if get_state node (_first_frame_no - node.base_frame_no) = FrameState.HoS then
        Outcome.ok ()
          (release_frames_loop (u32 (_first_frame_no + node.n_frames) - _first_frame_no)
            _first_frame_no node :: rest)
      else Outcome.fatal (node :: rest)
    else
      match release_frames rest _first_frame_no with
      | Outcome.ok u rest1 => Outcome.ok u (node :: rest1)
      | Outcome.fatal rest1 => Outcome.fatal (node :: rest1)

/-- Modelled from the spec: the constant `ContFramePool::FRAME_SIZE` (`cont_frame_pool.H`,
not among the sources), the size in bytes of a frame. -/
def FRAME_SIZE : Nat := 4096

/-- The address the constructor stores in the member `bitmap`:
`(info_frame_no ? info_frame_no : base_frame_no) * FRAME_SIZE`, a 32-bit product. -/
def bitmap_address (p : ContFramePool) : Nat :=
  u32 ((if p.info_frame_no ≠ 0 then p.info_frame_no else p.base_frame_no) * FRAME_SIZE)

/-- The word at the physical address `x` lies in none of the pages that hold the bits of the
frames `0, ..., frames - 1` in the bitmap of `p`, taken at the bitmap's own address. -/
def bitmap_apart (p : ContFramePool) (frames x : Nat) : Prop :=
  ∀ j, j < (frames + 16383) / 16384 →
    x < u32 (p.bitmap_address + FRAME_SIZE * j) ∨
      u32 (p.bitmap_address + FRAME_SIZE * j) + FRAME_SIZE ≤ x

instance (p : ContFramePool) (frames x : Nat) : Decidable (bitmap_apart p frames x) :=
  inferInstanceAs (Decidable (∀ j, j < (frames + 16383) / 16384 → _))

/-- The node at which the walk of `ContFramePool::release_frames` stops: the first one of
the registry whose range test `_first_frame_no` passes. -/
def release_frames_node : List ContFramePool → Nat → Option ContFramePool
  | [], _ => none
  | node :: rest, _first_frame_no =>
    if _first_frame_no ≥ node.base_frame_no ∧
        _first_frame_no < u32 (node.base_frame_no + node.n_frames) then some node
    else release_frames_node rest _first_frame_no

/-- Source function `ContFramePool::needed_info_frames(_n_frames)`.  In the source expression
`a / c + a % c ? 1 : 0` the conditional operator binds last, and `8 * 4 << 10` is
`(8 * 4) << 10`. -/
def needed_info_frames (_n_frames : Nat) : Nat :=
  if u32 (u32 (_n_frames * 2) / ((8 * 4) <<< 10) + u32 (_n_frames * 2) % ((8 * 4) <<< 10)) ≠ 0
  then 1 else 0

/-! ### Vocabulary of the statements -/

/-- Frames `i, i+1, .., i+n-1` (local indices) are all `Free`. -/
def all_free (p : ContFramePool) (i n : Nat) : Prop :=
  ∀ k, k < n → get_state p (i + k) = FrameState.Free

instance (p : ContFramePool) (i n : Nat) : Decidable (all_free p i n) :=
  inferInstanceAs (Decidable (∀ k, k < n → get_state p (i + k) = FrameState.Free))

/-- Number of frames of the pool, local indices `0 .. n_frames - 1`, in state `Free`. -/
def count_free (p : ContFramePool) : Nat :=
  ((List.range p.n_frames).filter (fun k => decide (get_state p k = FrameState.Free))).length

/-- Frame number `f` lies in the pool's range `[base_frame_no, base_frame_no + n_frames)`. -/
def in_range (p : ContFramePool) (f : Nat) : Prop :=
  p.base_frame_no ≤ f ∧ f < p.base_frame_no + p.n_frames

instance (p : ContFramePool) (f : Nat) : Decidable (in_range p f) :=
  inferInstanceAs (Decidable (p.base_frame_no ≤ f ∧ f < p.base_frame_no + p.n_frames))

/-- The pool's frame numbers are frame numbers of the 32-bit machine, with room to spare:
no sum of a frame number of the pool and the pool's length wraps around. -/
def in_word (p : ContFramePool) : Prop :=
  p.base_frame_no + 2 * p.n_frames < WORD

instance (p : ContFramePool) : Decidable (in_word p) :=
  inferInstanceAs (Decidable (p.base_frame_no + 2 * p.n_frames < WORD))

/-- The pool `release_frames` works on: the first one in the registry whose range holds `f`. -/
def owning_pool (registry : List ContFramePool) (f : Nat) : Option ContFramePool :=
  registry.find? (fun node => decide (in_range node f))

end ContFramePool

/-! ### Concrete pools used to evaluate the code -/

namespace ContFramePool

/-- Memory holding zero bytes. -/
def zero_mem : Nat → Nat := fun _ => 0

/-- The 8-frame pool at frame 0 with an external info frame (frame 8), freshly constructed
on zeroed memory: all 8 frames `Free`, `n_free_frames = 8`. -/
def pool8 : ContFramePool := construct zero_mem 0 8 8

/-- The pool `pool8` after `get_frames(3)`: states `[HoS, Used, Used, Free x 5]`. -/
def pool8_a : ContFramePool := (get_frames 0 pool8 3).state

/-- The pool `pool8_a` after `get_frames(2)`: states `[HoS, Used, Used, HoS, Used, Free x 3]`. -/
def pool8_b : ContFramePool := (get_frames 0 pool8_a 2).state

/-- A one-frame pool at frame 5 whose only frame is `Free`. -/
def pool_one : ContFramePool :=
  { base_frame_no := 5, n_frames := 1, n_free_frames := 1, info_frame_no := 9,
    bitmap := zero_mem }

/-- A fragmented pool at frame 16 with states `[Free, Used, Free]` and `n_free_frames = 2`. -/
def pool_frag : ContFramePool :=
  set_state { base_frame_no := 16, n_frames := 3, n_free_frames := 2, info_frame_no := 9,
              bitmap := zero_mem } 1 FrameState.Used

/-- A self-hosted pool (`info_frame_no = 0`) of 8 frames at frame 512, freshly constructed
on zeroed memory: local frame 0 holds the bitmap and is `Used`, `n_free_frames = 7`. -/
def pool_k : ContFramePool := construct zero_mem 512 8 0

/-- The pool `pool_k` after `mark_inaccessible(516, 2)`. -/
def pool_k1 : ContFramePool := (mark_inaccessible pool_k 516 2).state

/-- The pool `pool_k1` after `get_frames(1)`, which returns frame 513. -/
def pool_k2 : ContFramePool := (get_frames 0 pool_k1 1).state

/-- The pool `pool_k` after `get_frames(2)`, which returns frame 513. -/
def pool_k3 : ContFramePool := (get_frames 0 pool_k 2).state

/-- A self-hosted pool of 6 frames at frame 512, freshly constructed on zeroed memory. -/
def pool6 : ContFramePool := construct zero_mem 512 6 0

/-- A pool at frame 32 with states `[Free, HoS, Used]` and `n_free_frames = 1`: a two-frame
allocation with a free frame just below it. -/
def pool_gap : ContFramePool :=
  set_state (set_state { base_frame_no := 32, n_frames := 3, n_free_frames := 1,
                         info_frame_no := 9, bitmap := zero_mem } 1 FrameState.HoS)
    2 FrameState.Used

/-- A registry of two pools: the 8-frame pool with allocations `[0,3)` and `[3,5)`, and the
pool at frame 512 with the allocation `[513,515)`. -/
def registry2 : List ContFramePool := [pool8_b, pool_k3]

end ContFramePool

/-! ## The page-table manager (`page_table.C`) and the VM pool constructor (`vm_pool.C`)

* Physical memory is `mem : Nat → Nat`, the 32-bit word stored at each word-aligned physical
  address.
* The bitmap of a frame pool is memory at the address in its member `bitmap`; its content is
  kept in the `ContFramePool` object, which stands for that memory as long as the pages
  holding the bitmap are mapped to themselves (paging off, or the bitmap inside the
  identity-mapped region) and no other store of the kernel lands in them.  A call on a pool
  whose bitmap is not reachable in this way raises a page fault at its first access to the
  bitmap.  For the process pool the handler cannot serve it: it calls
  `process_mem_pool->get_frames` itself and raises the same fault again.  The model reports
  every call on an unreachable bitmap as a halt; it does not follow the kernel onto a frame
  that the handler would map in place of the bitmap of another pool.
* Every pointer dereference of the kernel goes through `translate`, the two-level walk of the
  paging hardware: physical while the paging bit of CR0 is clear, through the directory at
  CR3 once it is set.  A dereference that the walk cannot resolve raises a page fault.
* A page fault raised outside the handler runs the handler and retries the access once; a
  fault on the retry is a halt.  A page fault raised by one of the handler's own accesses
  re-enters the handler `d` levels deep (`handle_fault d`); at depth 0 it is a halt.
* Pointers to pool objects are positions in the frame-pool registry; the VM-pool registry is
  the list of the `VMPool` objects in link order.
-/

/-- Modelled from the spec: the constant `PageTable::PAGE_SIZE` (`page_table.H`, not among
the sources), the size in bytes of a page and of a frame. -/
def PAGE_SIZE : Nat := 4096

/-- The data member of a `PageTable` object. -/
structure PageTable where
  page_directory : Nat

/-- The data members of a `VMPool` object.  `vmpool_regions` is the address of the region
table; a record `RegionInfo` is two words, `base_addr` then `size`. -/
structure VMPool where
  base_address : Nat
  size : Nat
  frame_pool : Nat
  page_table : PageTable
  vmpool_regions : Nat
  allocated_regions : Nat
  free_memory : Nat

/-- The machine and the static variables of `ContFramePool` and `PageTable`: physical memory,
the control registers CR0 and CR3, the frame-pool registry, and `kernel_mem_pool`,
`process_mem_pool`, `shared_size`, `paging_enabled`, `current_page_table`, `vm_pool_list`. -/
structure Machine where
  mem : Nat → Nat
  cr0 : Nat
  cr3 : Nat
  frame_pools : List ContFramePool
  kernel_mem_pool : Nat
  process_mem_pool : Nat
  shared_size : Nat
  paging_enabled : Nat
  current_page_table : Option PageTable
  vm_pool_list : List VMPool

/-- What services a page fault: given the machine, the error code and the faulting address. -/
abbrev Handler : Type := Machine → Nat → Nat → Outcome Machine Unit

namespace Outcome

/-- Sequencing: run `k` on the value and state of a normal return, pass a halt on. -/
def bind {σ α β : Type} (o : Outcome σ α) (k : α → σ → Outcome σ β) : Outcome σ β :=
  match o with
  | ok v s => k v s
  | fatal s => fatal s

end Outcome

namespace Machine

/-- The machine with the word at physical address `pa` replaced by `val`. -/
def write (st : Machine) (pa val : Nat) : Machine :=
  { st with mem := fun a => if a = pa then val else st.mem a }

/-- Physical address of the directory entry the hardware reads for `vaddr`. -/
def pde_addr (st : Machine) (vaddr : Nat) : Nat :=
  (st.cr3 &&& 0xFFFFF000) ||| (((vaddr >>> 22) &&& 0x3FF) <<< 2)

/-- Physical address of the table entry the hardware reads for `vaddr`, given the directory
entry `pde`. -/
def pte_addr (pde vaddr : Nat) : Nat :=
  (pde &&& 0xFFFFF000) ||| (((vaddr >>> 12) &&& 0x3FF) <<< 2)

/-- Modelled from the spec: the address translation of the paging hardware (a directory of
1024 entries, each pointing to a table of 1024 entries; entries encode frame base and the
present bit).  With the paging bit of CR0 clear an address is physical; otherwise the walk
from CR3 yields the physical address, or `none` (page fault) at a non-present entry. -/
def translate (st : Machine) (vaddr : Nat) : Option Nat :=
  if st.cr0 &&& 0x80000000 = 0 then some vaddr
  else if st.mem (st.pde_addr vaddr) &&& 1 = 0 then none
  else if st.mem (pte_addr (st.mem (st.pde_addr vaddr)) vaddr) &&& 1 = 0 then none
  else some ((st.mem (pte_addr (st.mem (st.pde_addr vaddr)) vaddr) &&& 0xFFFFF000)
    ||| (vaddr &&& 0xFFF))

/-- A word read `*p` by kernel code, with `h` servicing a page fault (error code 0: read of a
non-present page in supervisor mode). -/
def load (h : Handler) (st : Machine) (vaddr : Nat) : Outcome Machine Nat :=
  match st.translate vaddr with
  | some pa => Outcome.ok (st.mem pa) st
  | none =>
    (h st 0 vaddr).bind fun _ st1 =>
      match st1.translate vaddr with
      | some pa => Outcome.ok (st1.mem pa) st1
      | none => Outcome.fatal st1

/-- A word write `*p = val` by kernel code, with `h` servicing a page fault (error code 2:
write to a non-present page in supervisor mode). -/
def store (h : Handler) (st : Machine) (vaddr val : Nat) : Outcome Machine Unit :=
  match st.translate vaddr with
  | some pa => Outcome.ok () (st.write pa val)
  | none =>
    (h st 2 vaddr).bind fun _ st1 =>
      match st1.translate vaddr with
      | some pa => Outcome.ok () (st1.write pa val)
      | none => Outcome.fatal st1

/-- The machine with the static variable `paging_enabled` set to `v`. -/
def set_paging_enabled (st : Machine) (v : Nat) : Machine :=
  { st with paging_enabled := v }

/-- The machine with the pool object at position `pool` of the registry replaced by `q`. -/
def set_pool (st : Machine) (pool : Nat) (q : ContFramePool) : Machine :=
  { st with frame_pools := st.frame_pools.set pool q }

/-- The bits of the frames `0, ..., frames - 1` in the bitmap of the pool object `p` are
reached by a dereference of the `bitmap` pointer: every page of the bitmap that holds one of
them (a page holds the bits of 16384 frames) is mapped to itself. -/
def bitmap_direct (st : Machine) (p : ContFramePool) (frames : Nat) : Prop :=
  ∀ j, j < (frames + 16383) / 16384 →
    st.translate (u32 (p.bitmap_address + PAGE_SIZE * j))
      = some (u32 (p.bitmap_address + PAGE_SIZE * j))

instance (st : Machine) (p : ContFramePool) (frames : Nat) :
    Decidable (bitmap_direct st p frames) :=
  inferInstanceAs (Decidable (∀ j, j < (frames + 16383) / 16384 → _))

/-- The call `pool->get_frames(n)` on the pool object at position `pool` of the registry; a
null or dangling pointer halts.  The uninitialised local `start` of `get_frames` is taken
as 0.  The search reads the bitmap from its first byte on; with the bitmap not reachable the
call is a halt (a page fault that the handler cannot serve). -/
def pool_get_frames (st : Machine) (pool n : Nat) : Outcome Machine Nat :=
  match st.frame_pools[pool]? with
  | none => Outcome.fatal st
  | some p =>
    if st.bitmap_direct p p.n_frames then
      match ContFramePool.get_frames 0 p n with
      | Outcome.ok f q => Outcome.ok f (st.set_pool pool q)
      | Outcome.fatal q => Outcome.fatal (st.set_pool pool q)
    else Outcome.fatal st

/-- A loop `for (...; ++i) p[i] = val(i)` of word stores through the pointer `p`, with `k`
iterations left, at `i`. -/
def store_loop (h : Handler) (p : Nat) (val : Nat → Nat) :
    Nat → Nat → Machine → Outcome Machine Unit
  | 0, _, st => Outcome.ok () st
  | k + 1, i, st =>
    (st.store h (u32 (p + 4 * i)) (val i)).bind fun _ st1 =>
    store_loop h p val k (i + 1) st1

/-- The bitmap accesses of `ContFramePool::release_frames(f)` reach the bitmap: the node
found, if there is one, has the bits of the frames the call touches reachable.  These are
the frame `f` alone when its state is not `HeadOfSequence`, and the frames of the freeing
loop from `f` on when it is. -/
def release_direct (st : Machine) (f : Nat) : Bool :=
  match ContFramePool.release_frames_node st.frame_pools f with
  | none => true
  | some node =>
    decide (st.bitmap_direct node
      (f - node.base_frame_no
        + (if ContFramePool.get_state node (f - node.base_frame_no) = FrameState.HoS then
            u32 (f + node.n_frames) - f
          else 1)))

/-- The static call `ContFramePool::release_frames(f)` on the registry; with the bitmap of
the node found not reachable the call is a halt (a page fault that the handler cannot
serve). -/
def pool_release_frames (st : Machine) (f : Nat) : Outcome Machine Unit :=
  if st.release_direct f then
    match ContFramePool.release_frames st.frame_pools f with
    | Outcome.ok u pools => Outcome.ok u { st with frame_pools := pools }
    | Outcome.fatal pools => Outcome.fatal { st with frame_pools := pools }
  else Outcome.fatal st

end Machine

namespace PageTable

/-- Source function `PageTable::init_paging`. -/
def init_paging (st : Machine) (_kernel_mem_pool _process_mem_pool _shared_size : Nat) :
    Machine :=
  { st with
    kernel_mem_pool := _kernel_mem_pool
    process_mem_pool := _process_mem_pool
    shared_size := _shared_size }

/-- The constructor's loop `for (i = 1; i < no_shared_frames - 1; ++i)` with body
`page_directory[i] |= 0b10`, with `k` iterations left, at `i`. -/
def construct_dir_loop (h : Handler) (page_directory : Nat) :
    Nat → Nat → Machine → Outcome Machine Unit
  | 0, _, st => Outcome.ok () st
  | k + 1, i, st =>
    (st.load h (u32 (page_directory + 4 * i))).bind fun e st1 =>
    (st1.store h (u32 (page_directory + 4 * i)) (e ||| 0b10)).bind fun _ st2 =>
    construct_dir_loop h page_directory k (i + 1) st2

/-- The constructor's loop `for (i = 0; i < no_shared_frames; ++i)` with body
`page_table[i] = PAGE_SIZE * i | 0b11`, with `k` iterations left, at `i`. -/
def construct_table_loop (h : Handler) (page_table : Nat) :
    Nat → Nat → Machine → Outcome Machine Unit :=
  Machine.store_loop h page_table (fun i => u32 (PAGE_SIZE * i) ||| 0b11)

/-- Constructor `PageTable::PageTable()`, with `h` servicing the page faults of its accesses;
returns the object built. -/
def construct (h : Handler) (st : Machine) : Outcome Machine PageTable :=
  (st.pool_get_frames st.kernel_mem_pool 1).bind fun f st1 =>
  let page_directory := u32 (f * PAGE_SIZE)
  let no_shared_frames := st1.shared_size / PAGE_SIZE
  (st1.store h (u32 (page_directory + 4 * sub32 no_shared_frames 1))
      (page_directory ||| 0b11)).bind fun _ st2 =>
  (st2.pool_get_frames st2.process_mem_pool 1).bind fun g st3 =>
  let page_table := u32 (g * PAGE_SIZE)
  (st3.store h (u32 (page_directory + 4 * 0)) (page_table ||| 0b11)).bind fun _ st4 =>
  (construct_dir_loop h page_directory (sub32 no_shared_frames 1 - 1) 1 st4).bind
    fun _ st5 =>
  (construct_table_loop h page_table no_shared_frames 0 st5).bind fun _ st6 =>
  Outcome.ok { page_directory := page_directory } (st6.set_paging_enabled 0)

/-- Source function `PageTable::load`: `write_cr3` stores the directory address in CR3. -/
def load (this : PageTable) (st : Machine) : Machine :=
  { st with current_page_table := some this, cr3 := this.page_directory }

/-- Source function `PageTable::enable_paging`: `write_cr0(read_cr0() | 0x80000000)`. -/
def enable_paging (st : Machine) : Machine :=
  { st with cr0 := st.cr0 ||| 0x80000000 }.set_paging_enabled 1

/-- The loop `for (i = 0; i < 1024; ++i) _page_table[i] = 0b100` of `handle_fault`, with `k`
iterations left, at `i`. -/
def handle_fault_init (nested : Handler) (_page_table : Nat) :
    Nat → Nat → Machine → Outcome Machine Unit :=
  Machine.store_loop nested _page_table (fun _ => 0b100)

/-- Source function `PageTable::handle_fault`, with `nested` servicing the page faults
raised by the handler's own accesses.  `err_code` is `_r->err_code`, `address` is what
`read_cr2()` returns, and `read_cr3()` is the machine's CR3. -/
def handle_fault_body (nested : Handler) (st : Machine) (err_code address : Nat) :
    Outcome Machine Unit :=
  if err_code &&& 1 = 0 then
    (st.load nested (u32 (st.cr3 + 4 * (address >>> 22)))).bind fun pde st1 =>
    (if pde &&& 1 = 0 then
      (st1.pool_get_frames st1.process_mem_pool 1).bind fun f st2 =>
      (st2.store nested (u32 (u32 (0xFFFFF <<< 12) + 4 * (address >>> 22)))
          (u32 (f * PAGE_SIZE) ||| 0b11)).bind fun _ st3 =>
      handle_fault_init nested (u32 (f * PAGE_SIZE)) 1024 0 st3
    else Outcome.ok () st1).bind fun _ st4 =>
    (st4.pool_get_frames st4.process_mem_pool 1).bind fun g st5 =>
    st5.store nested
      (u32 ((u32 (0x3FF <<< 22) ||| u32 ((address >>> 22) <<< 12))
        + 4 * ((address &&& (0x03FF <<< 12)) >>> 12)))
      (u32 (g * PAGE_SIZE) ||| 0b11)
  else Outcome.ok () st

/-- The page-fault handler as the hardware runs it: `handle_fault d` services the faults of
its own accesses by re-entering itself, `d` levels deep; a fault raised at depth 0 halts. -/
def handle_fault : Nat → Handler
  | 0 => handle_fault_body (fun st _ _ => Outcome.fatal st)
  | d + 1 => handle_fault_body (handle_fault d)

/-- Source function `PageTable::register_pool`: the pool becomes the last node of the list. -/
def register_pool (st : Machine) (_vm_pool : VMPool) : Machine :=
  { st with vm_pool_list := st.vm_pool_list ++ [_vm_pool] }

/-- Source function `PageTable::free_page`, called on the object `this`, with page faults
of its accesses serviced by `handle_fault d`. -/
def free_page (d : Nat) (this : PageTable) (st : Machine) (_page_no : Nat) :
    Outcome Machine Unit :=
  (st.load (handle_fault d)
      (u32 ((u32 (0x000003FF <<< 22) ||| u32 (((_page_no &&& 0xFFC00000) >>> 22) <<< 12))
        + 4 * ((_page_no &&& 0x003FF000) >>> 12)))).bind fun e st1 =>
  (st1.pool_release_frames ((e &&& 0xFFFFF000) / PAGE_SIZE)).bind fun _ st2 =>
  (st2.load (handle_fault d)
      (u32 ((u32 (0x000003FF <<< 22) ||| u32 (((_page_no &&& 0xFFC00000) >>> 22) <<< 12))
        + 4 * ((_page_no &&& 0x003FF000) >>> 12)))).bind fun e2 st3 =>
  (st3.store (handle_fault d)
      (u32 ((u32 (0x000003FF <<< 22) ||| u32 (((_page_no &&& 0xFFC00000) >>> 22) <<< 12))
        + 4 * ((_page_no &&& 0x003FF000) >>> 12)))
      (e2 ||| 0b10)).bind fun _ st4 =>
  Outcome.ok () (load this st4)

end PageTable

namespace VMPool

/-- Constructor `VMPool::VMPool(_base_address, _size, _frame_pool, _page_table)`, with page
faults of its accesses serviced by `PageTable.handle_fault d`; returns the object built.
`raw` is the object's storage before construction: the members without an initialiser
(`free_memory` among them) keep what it holds.  The registry links the object itself, so its
last element ends as the object the constructor leaves. -/
def construct (d : Nat) (raw : VMPool) (st : Machine)
    (_base_address _size _frame_pool : Nat) (_page_table : PageTable) :
    Outcome Machine VMPool :=
  (Outcome.ok ()
    (PageTable.register_pool st
      { raw with
        base_address := _base_address
        size := _size
        frame_pool := _frame_pool
        page_table := _page_table })).bind fun _ st1 =>
  (st1.store (PageTable.handle_fault d) (u32 (_base_address + 8 * 0)) _base_address).bind
    fun _ st2 =>
  (st2.store (PageTable.handle_fault d) (u32 (_base_address + 8 * 0 + 4)) PAGE_SIZE).bind
    fun _ st3 =>
  Outcome.ok
    { base_address := _base_address
      size := _size
      frame_pool := _frame_pool
      page_table := _page_table
      vmpool_regions := _base_address
      allocated_regions := 1
      free_memory := sub32 raw.free_memory PAGE_SIZE }
    { st3 with
      vm_pool_list := st3.vm_pool_list.dropLast ++
        [{ base_address := _base_address
           size := _size
           frame_pool := _frame_pool
           page_table := _page_table
           vmpool_regions := _base_address
           allocated_regions := 1
           free_memory := sub32 raw.free_memory PAGE_SIZE }] }

end VMPool

/-! ### Vocabulary of the page-table statements -/

/-- Present bit (bit 0) of a directory or table entry. -/
def entry_present (e : Nat) : Prop := e &&& 1 ≠ 0

/-- Writable bit (bit 1) of a directory or table entry. -/
def entry_writable (e : Nat) : Prop := e &&& 2 ≠ 0

/-- User bit (bit 2) of a directory or table entry. -/
def entry_user (e : Nat) : Prop := e &&& 4 ≠ 0

/-- Frame base (bits 12 to 31) of a directory or table entry. -/
def entry_frame (e : Nat) : Nat := e &&& 0xFFFFF000

instance (e : Nat) : Decidable (entry_present e) := inferInstanceAs (Decidable (e &&& 1 ≠ 0))

instance (e : Nat) : Decidable (entry_writable e) := inferInstanceAs (Decidable (e &&& 2 ≠ 0))

instance (e : Nat) : Decidable (entry_user e) := inferInstanceAs (Decidable (e &&& 4 ≠ 0))

namespace Machine

/-- The paging bit (bit 31) of CR0 is set: addresses go through the directory at CR3. -/
def paging_on (st : Machine) : Prop := st.cr0 &&& 0x80000000 ≠ 0

instance (st : Machine) : Decidable (paging_on st) :=
  inferInstanceAs (Decidable (st.cr0 &&& 0x80000000 ≠ 0))

/-- The machine with the words at `P + 4 * j`, `i ≤ j < i + k`, replaced by `val j`. -/
def fill (st : Machine) (P i k : Nat) (val : Nat → Nat) : Machine :=
  { st with
    mem := fun a =>
      if P + 4 * i ≤ a ∧ a < P + 4 * (i + k) ∧ (a - P) % 4 = 0 then val ((a - P) / 4)
      else st.mem a }

/-- The machine with bit 1 set in the words at `P + 4 * j`, `i ≤ j < i + k`. -/
def or_fill (st : Machine) (P i k : Nat) : Machine :=
  { st with
    mem := fun a =>
      if P + 4 * i ≤ a ∧ a < P + 4 * (i + k) ∧ (a - P) % 4 = 0 then st.mem a ||| 0b10
      else st.mem a }

/-- The state `PageTable::PageTable()` leaves when it runs with paging off, the kernel pool
becoming `kq` and handing out frame `f`, the process pool becoming `pq` and handing out
frame `g`: the writes of the constructor in source order, as physical writes. -/
def constructed (st : Machine) (kq pq : ContFramePool) (f g : Nat) : Machine :=
  let n := st.shared_size / PAGE_SIZE
  let st1 := st.set_pool st.kernel_mem_pool kq
  let st2 := st1.write (f * PAGE_SIZE + 4 * (n - 1)) (f * PAGE_SIZE ||| 0b11)
  let st3 := st2.set_pool st.process_mem_pool pq
  let st4 := st3.write (f * PAGE_SIZE) (g * PAGE_SIZE ||| 0b11)
  let st5 := st4.or_fill (f * PAGE_SIZE) 1 (n - 1 - 1)
  let st6 := st5.fill (g * PAGE_SIZE) 0 n (fun i => u32 (PAGE_SIZE * i) ||| 0b11)
  st6.set_paging_enabled 0

/-- The machine with another VM-pool registry. -/
def with_vm_pools (st : Machine) (pools : List VMPool) : Machine :=
  { st with vm_pool_list := pools }

end Machine

namespace Machine

/-- A component `π` of the machine that neither a memory write nor a pool update touches. -/
def Keeps {α : Type} (π : Machine → α) : Prop :=
  (∀ (st : Machine) (pa v : Nat), π (st.write pa v) = π st) ∧
    (∀ (st : Machine) (pools : List ContFramePool), π { st with frame_pools := pools } = π st)

/-- The handler `h` leaves the component `π` as it finds it, whether it returns or halts. -/
def HandlerKeeps {α : Type} (π : Machine → α) (h : Handler) : Prop :=
  ∀ st err a, π (h st err a).state = π st

end Machine

namespace Outcome

/-- The same outcome with `f` applied to the state reached. -/
def map_state {σ α : Type} (f : σ → σ) : Outcome σ α → Outcome σ α
  | ok v s => ok v (f s)
  | fatal s => fatal (f s)

end Outcome

namespace Machine

/-- The handler `h` never reads the VM-pool registry: run with another registry it does the
same to the rest of the machine and leaves that registry as it is. -/
def IgnoresVMPools (h : Handler) : Prop :=
  ∀ (st : Machine) (pools : List VMPool) (err a : Nat),
    h (st.with_vm_pools pools) err a
      = (h st err a).map_state (fun s => s.with_vm_pools pools)

end Machine

/-! ### Concrete machines used to evaluate the code -/

namespace Machine

/-- A kernel pool of 8 frames at frame 8 (self-hosted bitmap), freshly constructed. -/
def kpool : ContFramePool := ContFramePool.construct ContFramePool.zero_mem 8 8 0

/-- A process pool of 16 frames at frame 16 (self-hosted bitmap), freshly constructed: like
the kernel pool it lies below 4 MiB. -/
def ppool : ContFramePool := ContFramePool.construct ContFramePool.zero_mem 16 16 0

/-- The kernel pool after handing out its first frame, frame 9. -/
def kpool1 : ContFramePool := (ContFramePool.get_frames 0 kpool 1).state

/-- The process pool after handing out its first frame, frame 17. -/
def ppool1 : ContFramePool := (ContFramePool.get_frames 0 ppool 1).state

/-- A machine after `init_paging(kernel pool, process pool, 4 MiB)`: zeroed memory, paging
off, the two pools below 4 MiB. -/
def boot : Machine :=
  PageTable.init_paging
    { mem := fun _ => 0, cr0 := 0, cr3 := 0, frame_pools := [kpool, ppool],
      kernel_mem_pool := 0, process_mem_pool := 0, shared_size := 0, paging_enabled := 0,
      current_page_table := none, vm_pool_list := [] }
    0 1 0x400000

/-- The machine `boot` after `PageTable pt; pt.load(); PageTable::enable_paging()`: the
directory is frame 9 (address 0x9000), the first table frame 17 (address 0x11000). -/
def paged : Machine :=
  PageTable.enable_paging
    (PageTable.load { page_directory := 0x9000 } (boot.constructed kpool1 ppool1 9 17))

end Machine

namespace Machine

/-- The state `handle_fault` leaves after a fault at `a` whose directory entry is present,
when the process pool becomes `q` and hands out frame `g`: the leaf entry of `a` holds
`g * PAGE_SIZE | 0b11`. -/
def faulted_leaf (st : Machine) (q : ContFramePool) (a g : Nat) : Machine :=
  (st.set_pool st.process_mem_pool q).write (pte_addr (st.mem (st.pde_addr a)) a)
    (u32 (g * PAGE_SIZE) ||| 0b11)

/-- The state `handle_fault` leaves after a fault at `a` whose directory entry is absent,
when the process pool becomes `q1` and then `q2`, handing out frames `f` and `g`, and the
page at the virtual address `f * PAGE_SIZE` is mapped to the frame at `P`: the three groups
of writes of the handler, in source order. -/
def faulted_dir (st : Machine) (q1 q2 : ContFramePool) (a f g P : Nat) : Machine :=
  ((((st.set_pool st.process_mem_pool q1).write (st.pde_addr a)
      (u32 (f * PAGE_SIZE) ||| 0b11)).fill P 0 1024 (fun _ => 0b100)).set_pool
      st.process_mem_pool q2).write
    (pte_addr (u32 (f * PAGE_SIZE) ||| 0b11) a) (u32 (g * PAGE_SIZE) ||| 0b11)

/-- Number of Free frames of the pool at position `k` of the frame-pool registry. -/
def free_frames (st : Machine) (k : Nat) : Option Nat :=
  st.frame_pools[k]?.map ContFramePool.count_free

/-- The process pool `ppool` after its second frame, frame 18. -/
def ppool2 : ContFramePool := (ContFramePool.get_frames 0 ppool1 1).state

/-- The process pool `ppool` after its third frame, frame 19. -/
def ppool3 : ContFramePool := (ContFramePool.get_frames 0 ppool2 1).state

/-- The storage of a `VMPool` object before its constructor runs, all words zero. -/
def raw_pool : VMPool :=
  { base_address := 0, size := 0, frame_pool := 0, page_table := { page_directory := 0 },
    vmpool_regions := 0, allocated_regions := 0, free_memory := 0 }

/-- The object that `VMPool(0x40000000, 1 MiB, process pool, page table)` builds in the
storage `raw_pool`. -/
def pool_a : VMPool :=
  { base_address := 0x40000000, size := 0x100000, frame_pool := 1,
    page_table := { page_directory := 0x9000 }, vmpool_regions := 0x40000000,
    allocated_regions := 1, free_memory := sub32 0 PAGE_SIZE }

/-- The machine `paged` inside the constructor `VMPool(0x40000000, 1 MiB, process pool, page
table)`, right after the object has registered itself: no page of its window is backed, and
the next statement is the first store to the window. -/
def paged_a : Machine :=
  PageTable.register_pool paged
    { raw_pool with
      base_address := 0x40000000
      size := 0x100000
      frame_pool := 1
      page_table := { page_directory := 0x9000 } }

/-- The machine `paged_a` after the fault of that first store, at 0x40000000, has been
served: the table of the 4 MiB region at 1 GiB is frame 18, the page is frame 19. -/
def touched : Machine := paged_a.faulted_dir ppool2 ppool3 0x40000000 18 19 0x12000

/-- The machine `paged` after the constructor `VMPool(0x40000000, 1 MiB, process pool, page
table)` has returned: `region[0]` is stored in frame 19 and the registry holds `pool_a`. -/
def backed : Machine :=
  ((touched.write 0x13000 0x40000000).write 0x13004 PAGE_SIZE).with_vm_pools [pool_a]

/-- The machine `boot` with a word left in memory from earlier use, 0x00ABC001 at the
address of entry 5 of the frame that becomes the directory. -/
def boot_dirty : Machine :=
  { boot with mem := fun a => if a = 0x9014 then 0x00ABC001 else 0 }

/-- The machine `boot` configured with a shared region of 2 MiB. -/
def boot_2m : Machine := PageTable.init_paging boot 0 1 0x200000

/-- A process pool of two frames at frame 16 (self-hosted bitmap): its free frame is 17. -/
def ppool_low : ContFramePool := ContFramePool.construct ContFramePool.zero_mem 16 2 0

/-- A kernel pool of four frames at frame 18 with its bitmap in frame 30: its first free
frame, 18, directly follows frame 17. -/
def kpool_next : ContFramePool := ContFramePool.construct ContFramePool.zero_mem 18 4 30

/-- A machine after `init_paging(kernel pool, process pool, 8 MiB)`: zeroed memory, paging
off, the kernel pool directly above the process pool. -/
def boot_8m : Machine :=
  PageTable.init_paging
    { mem := fun _ => 0, cr0 := 0, cr3 := 0, frame_pools := [kpool_next, ppool_low],
      kernel_mem_pool := 0, process_mem_pool := 0, shared_size := 0, paging_enabled := 0,
      current_page_table := none, vm_pool_list := [] }
    0 1 0x800000

/-- A kernel pool of three frames at frame 1 (self-hosted bitmap): free frames 2 and 3. -/
def kpool_s : ContFramePool := ContFramePool.construct ContFramePool.zero_mem 1 3 0

/-- A process pool of four frames at frame 4 (self-hosted bitmap): free frames 5, 6, 7. -/
def ppool_s : ContFramePool := ContFramePool.construct ContFramePool.zero_mem 4 4 0

/-- A machine after `init_paging(kernel pool, process pool, 32 KiB)`: zeroed memory, paging
off, both pools inside the shared 32 KiB. -/
def boot_s : Machine :=
  PageTable.init_paging
    { mem := fun _ => 0, cr0 := 0, cr3 := 0, frame_pools := [kpool_s, ppool_s],
      kernel_mem_pool := 0, process_mem_pool := 0, shared_size := 0, paging_enabled := 0,
      current_page_table := none, vm_pool_list := [] }
    0 1 0x8000

/-- The machine `boot_s` after `PageTable pt; pt.load(); PageTable::enable_paging()`: the
directory is frame 2, the first table frame 5. -/
def paged_s : Machine :=
  PageTable.enable_paging
    (PageTable.load { page_directory := 0x2000 }
      (boot_s.constructed (ContFramePool.get_frames 0 kpool_s 1).state
        (ContFramePool.get_frames 0 ppool_s 1).state 2 5))

/-- A process pool of 16 frames at 4 MiB, frame 1024, with its bitmap in frame 9 of the
kernel pool: like the process pool of the kernel it lies above the shared 4 MiB. -/
def ppool_hi : ContFramePool := ContFramePool.construct ContFramePool.zero_mem 1024 16 9

/-- The kernel pool `kpool` after its second frame, frame 10. -/
def kpool2 : ContFramePool := (ContFramePool.get_frames 0 kpool1 1).state

/-- A machine after `init_paging(kernel pool, process pool, 4 MiB)` with the process pool
above the shared region: zeroed memory, paging off; frame 9 of the kernel pool holds the
bitmap of the process pool. -/
def boot_hi : Machine :=
  PageTable.init_paging
    { mem := fun _ => 0, cr0 := 0, cr3 := 0, frame_pools := [kpool1, ppool_hi],
      kernel_mem_pool := 0, process_mem_pool := 0, shared_size := 0, paging_enabled := 0,
      current_page_table := none, vm_pool_list := [] }
    0 1 0x400000

/-- The machine `boot_hi` after `PageTable pt; pt.load(); PageTable::enable_paging()`: the
directory is frame 10 (address 0xA000), the first table frame 1024 (address 0x400000). -/
def paged_hi : Machine :=
  PageTable.enable_paging
    (PageTable.load { page_directory := 0xA000 }
      (boot_hi.constructed kpool2 (ContFramePool.get_frames 0 ppool_hi 1).state 10 1024))

/-- A process pool of 16 frames at frame 1020, across the 4 MiB boundary, with its bitmap in
frame 9 of the kernel pool: its first four frames lie in the shared region. -/
def ppool_mid : ContFramePool := ContFramePool.construct ContFramePool.zero_mem 1020 16 9

/-- The pool `ppool_mid` after `k` requests for one frame: frames 1020 to `1020 + k - 1`
are in use. -/
def ppool_mid_after : Nat → ContFramePool
  | 0 => ppool_mid
  | k + 1 => (ContFramePool.get_frames 0 (ppool_mid_after k) 1).state

/-- A machine after `init_paging(kernel pool, process pool, 4 MiB)` with the process pool
`ppool_mid`: paging off, memory zero but for the word 0x00BAD001 at 0x40101C (in frame 1025
of the process pool), left there before the kernel started. -/
def boot_mid : Machine :=
  PageTable.init_paging
    { mem := fun a => if a = 0x40101C then 0x00BAD001 else 0, cr0 := 0, cr3 := 0,
      frame_pools := [kpool1, ppool_mid], kernel_mem_pool := 0, process_mem_pool := 0,
      shared_size := 0, paging_enabled := 0, current_page_table := none, vm_pool_list := [] }
    0 1 0x400000

/-- The machine `boot_mid` after `PageTable pt; pt.load(); PageTable::enable_paging()`: the
directory is frame 10 (address 0xA000), the first table frame 1020 (address 0x3FC000). -/
def paged_mid : Machine :=
  PageTable.enable_paging
    (PageTable.load { page_directory := 0xA000 }
      (boot_mid.constructed kpool2 (ppool_mid_after 1) 10 1020))

/-- The machine `paged_mid` after the store `*(0x400000) = 0x1111`: the fault draws frame
1021 for the table of the region at 4 MiB and frame 1022 for the page. -/
def mid1 : Machine :=
  (paged_mid.faulted_dir (ppool_mid_after 2) (ppool_mid_after 3) 0x400000 1021 1022
    0x3FD000).write 0x3FE000 0x1111

/-- The machine `mid1` after the store `*(0x401000) = 0x1234`: the fault draws frame 1023
for the page. -/
def mid2 : Machine := (mid1.faulted_leaf (ppool_mid_after 4) 0x401000 1023).write 0x3FF000 0x1234

/-- The machine `mid2` after the store `*(0x402000) = 0x5678`: the fault draws frame 1024
for the page. -/
def mid3 : Machine := (mid2.faulted_leaf (ppool_mid_after 5) 0x402000 1024).write 0x400000 0x5678

/-- The machine `mid3` after the fault at 8 MiB: frame 1025 (address 0x401000) becomes the
table of the region at 8 MiB and frame 1026 the page, and the table-initialisation stores fill
the frame at 0x3FF000, to which the virtual page 0x401000 is mapped. -/
def mid4 : Machine :=
  mid3.faulted_dir (ppool_mid_after 6) (ppool_mid_after 7) 0x800000 1025 1026 0x3FF000

end Machine

/-! ## The VM pool operations (`vm_pool.C`) and the file operations (`file.C`)

* A pointer to a `VMPool` object is its position in the VM-pool registry, the list of the
  objects in link order; every object is in the registry, since its constructor registers it.
* The region table `vmpool_regions` is memory: record `i` is the two words at the virtual
  addresses `vmpool_regions + 8 * i` (`base_addr`) and `vmpool_regions + 8 * i + 4` (`size`),
  read and written through `Machine.load` and `Machine.store`.
* An `int` index holds a 32-bit pattern; `-1` is `WORD - 1`, and a comparison with an
  `unsigned long` is a comparison of the patterns.
-/

namespace Machine

/-- The machine with the `VMPool` object at position `k` of the registry replaced by `p`. -/
def set_vm_pool (st : Machine) (k : Nat) (p : VMPool) : Machine :=
  { st with vm_pool_list := st.vm_pool_list.set k p }

end Machine

namespace VMPool

/-- Source function `VMPool::allocate`, called on the object at position `this` of the
registry, with page faults of its accesses serviced by `PageTable.handle_fault d`.  The
record stored is built from the two members of the previous record, read first. -/
def allocate (d : Nat) (this : Nat) (st : Machine) (_size : Nat) : Outcome Machine Nat :=
  match st.vm_pool_list[this]? with
  | none => Outcome.fatal st
  | some p =>
    if _size ≤ p.free_memory then
      (st.load (PageTable.handle_fault d)
          (u32 (p.vmpool_regions + 8 * sub32 p.allocated_regions 1))).bind fun b st1 =>
      (st1.load (PageTable.handle_fault d)
          (u32 (p.vmpool_regions + 8 * sub32 p.allocated_regions 1 + 4))).bind fun sz st2 =>
      (st2.store (PageTable.handle_fault d)
          (u32 (p.vmpool_regions + 8 * p.allocated_regions)) (u32 (b + sz))).bind fun _ st3 =>
      (st3.store (PageTable.handle_fault d)
          (u32 (p.vmpool_regions + 8 * p.allocated_regions + 4))
          (u32 (u32 (_size / PAGE_SIZE + (if _size % PAGE_SIZE > 0 then 1 else 0))
            * PAGE_SIZE))).bind fun _ st4 =>
      ((st4.set_vm_pool this
          { p with
            free_memory := sub32 p.free_memory
              (u32 (u32 (_size / PAGE_SIZE + (if _size % PAGE_SIZE > 0 then 1 else 0))
                * PAGE_SIZE))
            allocated_regions := u32 (p.allocated_regions + 1) }).load
          (PageTable.handle_fault d)
          (u32 (p.vmpool_regions + 8 * sub32 (u32 (p.allocated_regions + 1)) 1))).bind
        fun r st5 => Outcome.ok r st5
    else Outcome.fatal st

/-- The loop `for (int i = 1; i < allocated_regions; ++i)` of `VMPool::release` that looks
for the record whose `base_addr` is `_start_address`, with `k` iterations left, at `i`,
`idx_region` being the index found so far. -/
def release_scan (h : Handler) (vmpool_regions _start_address : Nat) :
    Nat → Nat → Nat → Machine → Outcome Machine Nat
  | 0, _, idx_region, st => Outcome.ok idx_region st
  | k + 1, i, idx_region, st =>
    (st.load h (u32 (vmpool_regions + 8 * i))).bind fun b st1 =>
    release_scan h vmpool_regions _start_address k (i + 1)
      (if b = _start_address then i else idx_region) st1

/-- The loop `for (int i = 0; i < page_count; ++i)` of `VMPool::release` that frees the
pages of the region, with `k` iterations left, at `_start_address`. -/
def release_pages (d : Nat) (page_table : PageTable) :
    Nat → Nat → Machine → Outcome Machine Unit
  | 0, _, st => Outcome.ok () st
  | k + 1, _start_address, st =>
    (PageTable.free_page d page_table st _start_address).bind fun _ st1 =>
    release_pages d page_table k (u32 (_start_address + PAGE_SIZE)) st1

/-- The loop `for (int i = idx_region; i < allocated_regions; ++i)` of `VMPool::release`
with body `vmpool_regions[i] = vmpool_regions[i+1]`, with `k` iterations left, at `i`. -/
def release_shift (h : Handler) (vmpool_regions : Nat) :
    Nat → Nat → Machine → Outcome Machine Unit
  | 0, _, st => Outcome.ok () st
  | k + 1, i, st =>
    (st.load h (u32 (vmpool_regions + 8 * (i + 1)))).bind fun b st1 =>
    (st1.load h (u32 (vmpool_regions + 8 * (i + 1) + 4))).bind fun sz st2 =>
    (st2.store h (u32 (vmpool_regions + 8 * i)) b).bind fun _ st3 =>
    (st3.store h (u32 (vmpool_regions + 8 * i + 4)) sz).bind fun _ st4 =>
    release_shift h vmpool_regions k (i + 1) st4

/-- Source function `VMPool::release`, called on the object at position `this` of the
registry, with page faults of its accesses serviced by `PageTable.handle_fault d`.
`idx_region` starts as `-1`; the first loop runs `allocated_regions - 1` times (none for a
count of 0); the last loop compares `i` and `allocated_regions` as unsigned words, so it
runs `allocated_regions - idx_region` times for an index found and not at all for `-1`. -/
def release (d : Nat) (this : Nat) (st : Machine) (_start_address : Nat) :
    Outcome Machine Unit :=
  match st.vm_pool_list[this]? with
  | none => Outcome.fatal st
  | some p =>
    (release_scan (PageTable.handle_fault d) p.vmpool_regions _start_address
        (p.allocated_regions - 1) 1 (WORD - 1) st).bind fun idx_region st1 =>
    (st1.load (PageTable.handle_fault d)
        (u32 (p.vmpool_regions + 8 * idx_region + 4))).bind fun sz st2 =>
    (release_pages d p.page_table (sz / PAGE_SIZE) _start_address st2).bind fun _ st3 =>
    (release_shift (PageTable.handle_fault d) p.vmpool_regions
        (p.allocated_regions - idx_region) idx_region st3).bind fun _ st4 =>
    (st4.load (PageTable.handle_fault d)
        (u32 (p.vmpool_regions + 8 * idx_region + 4))).bind fun sz2 st5 =>
    Outcome.ok ()
      (st5.set_vm_pool this
        { p with
          free_memory := u32 (p.free_memory + sz2)
          allocated_regions := sub32 p.allocated_regions 1 })

/-- Source function `VMPool::is_legitimate`; the sum `base_address + size` is a word. -/
def is_legitimate (this : VMPool) (_address : Nat) : Bool :=
  decide (_address ≥ this.base_address) &&
    decide (_address ≤ u32 (this.base_address + this.size))

end VMPool

/-- Modelled from the spec: the declaration of class `File` (`file.H`) is not among the
sources, and the spec leaves the file system out of scope; the members are those the member
functions of `file.C` use.  `pos` is the position, `size` stands for `inode->size`, both
taken as 32-bit unsigned, and `block_cache` is the array of `unsigned char` cells, indexed
by byte offset and read modulo 256. -/
structure File where
  pos : Nat
  size : Nat
  block_cache : Nat → Nat

namespace File

/-- The constant `DISK_BLOCK_SIZE` of `file.C`. -/
def DISK_BLOCK_SIZE : Nat := 512

/-- Source function `File::EoF`. -/
def EoF (f : File) : Bool := decide (f.pos = f.size)

/-- Source function `File::Reset`. -/
def Reset (f : File) : File := { f with pos := 0 }

/-- The loop `while (!EoF() && len < _n)` of `File::Read`, at `len`, with `k` iterations
allowed; `_buf` is the caller's array of `char` cells. -/
def Read_loop (_n : Nat) : Nat → Nat → (Nat → Nat) → File → Nat × (Nat → Nat) × File
  | 0, len, _buf, f => (len, _buf, f)
  | k + 1, len, _buf, f =>
    if ¬ EoF f ∧ len < _n then
      Read_loop _n k (len + 1)
        (fun j => if j = len then f.block_cache f.pos % 256 else _buf j)
        { f with pos := u32 (f.pos + 1) }
    else (len, _buf, f)

/-- Source function `File::Read`: returns `len`, the caller's array and the object.  Every
iteration of the loop raises `len`, which stays below `_n`, so `_n` iterations are all the
loop can make. -/
def Read (f : File) (_n : Nat) (_buf : Nat → Nat) : Nat × (Nat → Nat) × File :=
  Read_loop _n _n 0 _buf f

/-- The loop `while (!EoF() && len < _n)` of `File::Write`, at `len`, with `k` iterations
allowed. -/
def Write_loop (_n : Nat) (_buf : Nat → Nat) : Nat → Nat → File → Nat × File
  | 0, len, f => (len, f)
  | k + 1, len, f =>
    if ¬ EoF f ∧ len < _n then
      Write_loop _n _buf k (len + 1)
        { f with
          block_cache := fun j => if j = f.pos then _buf len % 256 else f.block_cache j
          pos := u32 (f.pos + 1) }
    else (len, f)

/-- The two size adjustments at the start of `File::Write`. -/
def Write_size (f : File) (_n : Nat) : Nat :=
  if (if u32 (f.pos + _n) > f.size then u32 (f.pos + _n) else f.size) > DISK_BLOCK_SIZE then
    DISK_BLOCK_SIZE
  else if u32 (f.pos + _n) > f.size then u32 (f.pos + _n) else f.size

/-- Source function `File::Write`: returns `len` and the object.  Every iteration of the
loop raises `len`, which stays below `_n`, so `_n` iterations are all the loop can make. -/
def Write (f : File) (_n : Nat) (_buf : Nat → Nat) : Nat × File :=
  Write_loop _n _buf _n 0 { f with size := Write_size f _n }

end File

/-! ### Vocabulary of the VM-pool statements, and the pools used to evaluate the code -/

namespace Machine

/-- The `base_addr` member of record `i` of a region table that lies in the frame at `P`. -/
def region_base (st : Machine) (P i : Nat) : Nat := st.mem (P + 8 * i)

/-- The `size` member of record `i` of a region table that lies in the frame at `P`. -/
def region_size (st : Machine) (P i : Nat) : Nat := st.mem (P + 8 * i + 4)

/-- The page at the page-aligned virtual address `V` is backed by the frame at `P`, and the
directory entry and the table entry through which the hardware reaches it lie outside that
frame. -/
def resident (st : Machine) (V P : Nat) : Prop :=
  st.paging_on ∧ V % 4096 = 0 ∧ V < WORD ∧
  entry_present (st.mem (st.pde_addr V)) ∧
  entry_present (st.mem (pte_addr (st.mem (st.pde_addr V)) V)) ∧
  entry_frame (st.mem (pte_addr (st.mem (st.pde_addr V)) V)) = P ∧
  (st.pde_addr V < P ∨ P + 4096 ≤ st.pde_addr V) ∧
  (pte_addr (st.mem (st.pde_addr V)) V < P ∨ P + 4096 ≤ pte_addr (st.mem (st.pde_addr V)) V)

instance (st : Machine) (V P : Nat) : Decidable (resident st V P) :=
  inferInstanceAs (Decidable (_ ∧ _ ∧ _ ∧ _ ∧ _ ∧ _ ∧ _ ∧ _))

/-- The machine with the `k` records `i`, ..., `i + k - 1` of the region table in the frame
at `P` replaced by their upper neighbours: each word of these records takes the value of the
word 8 bytes above it. -/
def shift_down (st : Machine) (P i k : Nat) : Machine :=
  { st with
    mem := fun a =>
      if P + 8 * i ≤ a ∧ a < P + 8 * (i + k) ∧ (a - P) % 4 = 0 then st.mem (a + 8)
      else st.mem a }

/-- The storage of a `VMPool` object whose word for `free_memory` happens to hold 0x3000,
all other words zero. -/
def raw_pool3 : VMPool := { raw_pool with free_memory := 0x3000 }

/-- The machine `backed` after `VMPool(0x40100000, 3 pages, process pool, page table)` has
been constructed in the storage `raw_pool3`: the object is at position 1 of the registry,
its bookkeeping page is backed by frame 20, and `free_memory` is two pages. -/
def built3 : Machine :=
  (VMPool.construct 0 raw_pool3 backed 0x40100000 0x3000 1 { page_directory := 0x9000 }).state

/-- The machine `built3` after `allocate(0x1000)` on that pool: region 1 is
`{0x40101000, 0x1000}`. -/
def alloc3 : Machine := (VMPool.allocate 0 1 built3 0x1000).state

/-- The machine `alloc3` after the store `*(0x40101000) = 0xAAAA`, which backs the page of
region 1 with frame 21. -/
def alloc3_touched : Machine :=
  (alloc3.store (PageTable.handle_fault 0) 0x40101000 0xAAAA).state

/-- The machine `alloc3_touched` after a second `allocate(0x1000)`: region 2 is
`{0x40102000, 0x1000}` and `free_memory` is 0. -/
def alloc3_two : Machine := (VMPool.allocate 0 1 alloc3_touched 0x1000).state

/-- The machine `alloc3_two` after `release(0x40101000)`, the release of region 1. -/
def alloc3_released : Machine := (VMPool.release 0 1 alloc3_two 0x40101000).state

end Machine

namespace Machine

/-- The recursive window works: paging is on and slot 1023 of the loaded directory is present
and names the directory. -/
def window_ok (st : Machine) : Prop :=
  st.paging_on ∧ entry_present (st.mem (st.pde_addr 0xFFC00000)) ∧
    entry_frame (st.mem (st.pde_addr 0xFFC00000)) = entry_frame st.cr3

instance (st : Machine) : Decidable (window_ok st) :=
  inferInstanceAs (Decidable (_ ∧ _ ∧ _))

/-- The `n` pages from `a` on lie below 4 GiB, each has a present directory entry, and the
table entry of each lies outside the frame at `P`. -/
def pages_tabled (st : Machine) (P a n : Nat) : Prop :=
  a + n * PAGE_SIZE ≤ WORD ∧
  ∀ t, t < n →
    entry_present (st.mem (st.pde_addr (a + t * PAGE_SIZE))) ∧
    (pte_addr (st.mem (st.pde_addr (a + t * PAGE_SIZE))) (a + t * PAGE_SIZE) < P ∨
      P + 4096 ≤ pte_addr (st.mem (st.pde_addr (a + t * PAGE_SIZE))) (a + t * PAGE_SIZE))

instance (st : Machine) (P a n : Nat) : Decidable (pages_tabled st P a n) :=
  inferInstanceAs (Decidable (_ ∧ ∀ t, t < n → _))

/-- The machine `st1` is the machine `st` with bit 1 set in some words outside the frame at
`P` and with other pool objects: what calls of `free_page` that take no page fault do. -/
def marked (st st1 : Machine) (P : Nat) : Prop :=
  st1.cr0 = st.cr0 ∧ st1.cr3 = st.cr3 ∧ st1.vm_pool_list = st.vm_pool_list ∧
  (∀ x, st1.mem x = st.mem x ∨ st1.mem x = st.mem x ||| 0b10) ∧
  (∀ x, P ≤ x → x < P + 4096 → st1.mem x = st.mem x)

/-- The index the first loop of `VMPool::release` computes on a region table that lies in
the frame at `P`: `k` records from record `i` on are compared with `a`, and the last match
replaces `idx`. -/
def scan_index (st : Machine) (P a : Nat) : Nat → Nat → Nat → Nat
  | 0, _, idx => idx
  | k + 1, i, idx => scan_index st P a k (i + 1) (if st.region_base P i = a then i else idx)

end Machine

namespace Machine

/-- The region table in the frame at `P` is in order for the pool object `p`: record 0 is
`{base_address, PAGE_SIZE}`, and each live record starts at or after the end of the record
before it. -/
def regions_ordered (st : Machine) (P : Nat) (p : VMPool) : Prop :=
  st.region_base P 0 = p.base_address ∧ st.region_size P 0 = PAGE_SIZE ∧
  ∀ i, i < p.allocated_regions - 1 →
    st.region_base P i + st.region_size P i ≤ st.region_base P (i + 1)

instance (st : Machine) (P : Nat) (p : VMPool) : Decidable (regions_ordered st P p) :=
  inferInstanceAs (Decidable (_ ∧ _ ∧ ∀ i, i < p.allocated_regions - 1 → _))

/-- The region table in the frame at `P` is gapless for the pool object `p`: record 0 is
`{base_address, PAGE_SIZE}`, and each live record starts exactly at the end of the record
before it. -/
def regions_contiguous (st : Machine) (P : Nat) (p : VMPool) : Prop :=
  st.region_base P 0 = p.base_address ∧ st.region_size P 0 = PAGE_SIZE ∧
  ∀ i, i < p.allocated_regions - 1 →
    st.region_base P (i + 1) = st.region_base P i + st.region_size P i

instance (st : Machine) (P : Nat) (p : VMPool) : Decidable (regions_contiguous st P p) :=
  inferInstanceAs (Decidable (_ ∧ _ ∧ ∀ i, i < p.allocated_regions - 1 → _))

/-- The accounting of the pool object `p` is exact: the window ends below 4 GiB,
`free_memory` is a whole number of pages, and the last live record ends `free_memory` bytes
below the end of the window. -/
def accounted (st : Machine) (P : Nat) (p : VMPool) : Prop :=
  p.base_address + p.size < WORD ∧ p.free_memory % PAGE_SIZE = 0 ∧
  st.region_base P (p.allocated_regions - 1) + st.region_size P (p.allocated_regions - 1)
    + p.free_memory = p.base_address + p.size

instance (st : Machine) (P : Nat) (p : VMPool) : Decidable (accounted st P p) :=
  inferInstanceAs (Decidable (_ ∧ _ ∧ _))

end Machine

/-! ## Scenarios for `allocate`, `release`, `is_legitimate` and the file -/

namespace VMPool

/-- The machine after `n` successive calls `allocate(_size)` on the pool at position `this`
of the registry. -/
def allocate_run (d this _size : Nat) : Nat → Machine → Machine
  | 0, st => st
  | n + 1, st => allocate_run d this _size n (allocate d this st _size).state

end VMPool

namespace Machine

/-- The storage of a `VMPool` object whose word for `free_memory` happens to hold 0x400000,
all other words zero. -/
def raw_pool_b : VMPool := { raw_pool with free_memory := 0x400000 }

/-- The object that `VMPool(0x40000000, 4 MiB, process pool, page table)` builds in the
storage `raw_pool_b`: 1023 pages are free. -/
def pool_b : VMPool :=
  { base_address := 0x40000000, size := 0x400000, frame_pool := 1,
    page_table := { page_directory := 0x9000 }, vmpool_regions := 0x40000000,
    allocated_regions := 1, free_memory := 0x3FF000 }

/-- The machine `paged` after that constructor has returned: the memory of `backed`, with
`pool_b` as the registry. -/
def backed_b : Machine := backed.with_vm_pools [pool_b]

/-- Word `j` of a region table at 0x40000000 whose record `i` is
`{0x40000000 + 0x1000 * i, 0x1000}`: one-page regions, one after the other. -/
def region_word (j : Nat) : Nat :=
  if j % 2 = 0 then 0x40000000 + 0x1000 * (j / 2) else 0x1000

/-- The machine `backed_b` after `n` calls `allocate(0x1000)` on `pool_b`, in closed form:
record `i`, `1 ≤ i ≤ n`, is `{0x40000000 + 0x1000 * i, 0x1000}` (words `2 * i` and
`2 * i + 1` of frame 19), and `n` pages have left `free_memory`. -/
def filled (n : Nat) : Machine :=
  (backed.fill 0x13000 2 (2 * n) region_word).with_vm_pools
    [{ pool_b with allocated_regions := 1 + n, free_memory := 0x3FF000 - 0x1000 * n }]

/-- The machine `backed_b` after 511 calls `allocate(0x1000)`: the 512 records fill the
bookkeeping page, and 512 pages of the window are still free. -/
def full : Machine := filled 511

/-- A pool object whose window is the last 256 MiB of the address space. -/
def pool_top : VMPool :=
  { base_address := 0xF0000000, size := 0x10000000, frame_pool := 1,
    page_table := { page_directory := 0x9000 }, vmpool_regions := 0xF0000000,
    allocated_regions := 1, free_memory := 0xFFFF000 }

/-- The machine `backed` after `VMPool(0x403FF000, 3 pages, process pool, page table)` has
been constructed in the storage `raw_pool3`: the bookkeeping page is the last page of the
4 MiB region at 1 GiB, so the pool's other two pages are in the next region, which has no
page table. -/
def built_e : Machine :=
  (VMPool.construct 0 raw_pool3 backed 0x403FF000 0x3000 1 { page_directory := 0x9000 }).state

/-- The machine `built_e` after `allocate(0x1000)` on that pool: region 1 is
`{0x40400000, 0x1000}`, never touched. -/
def alloc_e : Machine := (VMPool.allocate 0 1 built_e 0x1000).state

end Machine

namespace File

/-- A file of 3 bytes `1, 2, 3`, positioned at 0. -/
def sample : File :=
  { pos := 0, size := 3, block_cache := fun j => if j < 3 then j + 1 else 0 }

/-- A buffer holding the bytes `10, 11, 12, ...`. -/
def sample_buf : Nat → Nat := fun j => (10 + j) % 256

end File

namespace Machine

/-- The object that `VMPool(0x40100000, 3 pages, process pool, page table)` builds in the
storage `raw_pool3`: the pool of the machine `built3`. -/
def pool3 : VMPool :=
  { base_address := 0x40100000, size := 0x3000, frame_pool := 1,
    page_table := { page_directory := 0x9000 }, vmpool_regions := 0x40100000,
    allocated_regions := 1, free_memory := 0x2000 }

/-- The machine `backed` inside the constructor `VMPool(0x40100000, 3 pages, process pool,
page table)`, right after the fault of its first store, at 0x40100000, has been served:
the page is backed by frame 20. -/
def served3 : Machine :=
  (PageTable.handle_fault 0
    (PageTable.register_pool backed
      { raw_pool3 with
        base_address := 0x40100000
        size := 0x3000
        frame_pool := 1
        page_table := { page_directory := 0x9000 } }) 2 0x40100000).state

end Machine

/-! ## Bit-level facts about one bitmap byte -/

namespace ContFramePool

theorem get_state_byte_mod (b f : Nat) : get_state_byte b f = get_state_byte b (f % 4) := by
  simp [get_state_byte, Nat.mod_mod]

theorem set_state_byte_mod (b f : Nat) (s : FrameState) :
    set_state_byte b f s = set_state_byte b (f % 4) s := by
  simp [set_state_byte, Nat.mod_mod]

set_option maxRecDepth 1000000 in
set_option maxHeartbeats 4000000 in
theorem byte_same_Free : ∀ b, b < 256 → ∀ k, k < 4 →
    get_state_byte (set_state_byte b k FrameState.Free % 256) k = FrameState.Free := by
  decide

set_option maxRecDepth 1000000 in
set_option maxHeartbeats 4000000 in
theorem byte_same_Used : ∀ b, b < 256 → ∀ k, k < 4 →
    get_state_byte (set_state_byte b k FrameState.Used % 256) k = FrameState.Used := by
  decide

set_option maxRecDepth 1000000 in
set_option maxHeartbeats 4000000 in
theorem byte_same_HoS : ∀ b, b < 256 → ∀ k, k < 4 →
    get_state_byte (set_state_byte b k FrameState.HoS % 256) k = FrameState.HoS := by
  decide

set_option maxRecDepth 1000000 in
set_option maxHeartbeats 4000000 in
theorem byte_same_Inaccessible : ∀ b, b < 256 → ∀ k, k < 4 →
    get_state_byte (set_state_byte b k FrameState.Inaccessible % 256) k
      = FrameState.Inaccessible := by
  decide

set_option maxRecDepth 1000000 in
set_option maxHeartbeats 4000000 in
theorem byte_other_Free : ∀ b, b < 256 → ∀ k, k < 4 → ∀ j, j < 4 → j ≠ k →
    get_state_byte (set_state_byte b k FrameState.Free % 256) j = get_state_byte b j := by
  decide

set_option maxRecDepth 1000000 in
set_option maxHeartbeats 4000000 in
theorem byte_other_Used : ∀ b, b < 256 → ∀ k, k < 4 → ∀ j, j < 4 → j ≠ k →
    get_state_byte (set_state_byte b k FrameState.Used % 256) j = get_state_byte b j := by
  decide

set_option maxRecDepth 1000000 in
set_option maxHeartbeats 4000000 in
theorem byte_other_HoS : ∀ b, b < 256 → ∀ k, k < 4 → ∀ j, j < 4 → j ≠ k →
    get_state_byte (set_state_byte b k FrameState.HoS % 256) j = get_state_byte b j := by
  decide

set_option maxRecDepth 1000000 in
set_option maxHeartbeats 4000000 in
theorem byte_other_Inaccessible : ∀ b, b < 256 → ∀ k, k < 4 → ∀ j, j < 4 → j ≠ k →
    get_state_byte (set_state_byte b k FrameState.Inaccessible % 256) j
      = get_state_byte b j := by
  decide

theorem byte_same (b k : Nat) (s : FrameState) (hb : b < 256) :
    get_state_byte (set_state_byte b k s % 256) k = s := by
  rw [get_state_byte_mod, set_state_byte_mod]
  have hk : k % 4 < 4 := Nat.mod_lt _ (by decide)
  cases s
  · exact byte_same_Free b hb _ hk
  · exact byte_same_Used b hb _ hk
  · exact byte_same_HoS b hb _ hk
  · exact byte_same_Inaccessible b hb _ hk

theorem byte_other (b k j : Nat) (s : FrameState) (hb : b < 256) (hjk : j % 4 ≠ k % 4) :
    get_state_byte (set_state_byte b k s % 256) j = get_state_byte b j := by
  rw [get_state_byte_mod, set_state_byte_mod, get_state_byte_mod b j]
  have hk : k % 4 < 4 := Nat.mod_lt _ (by decide)
  have hj : j % 4 < 4 := Nat.mod_lt _ (by decide)
  cases s
  · exact byte_other_Free b hb _ hk _ hj hjk
  · exact byte_other_Used b hb _ hk _ hj hjk
  · exact byte_other_HoS b hb _ hk _ hj hjk
  · exact byte_other_Inaccessible b hb _ hk _ hj hjk

/-! ## `get_state` after `set_state` -/

@[simp] theorem set_state_base (p : ContFramePool) (f : Nat) (s : FrameState) :
    (set_state p f s).base_frame_no = p.base_frame_no := rfl

@[simp] theorem set_state_n_frames (p : ContFramePool) (f : Nat) (s : FrameState) :
    (set_state p f s).n_frames = p.n_frames := rfl

@[simp] theorem set_state_n_free (p : ContFramePool) (f : Nat) (s : FrameState) :
    (set_state p f s).n_free_frames = p.n_free_frames := rfl

@[simp] theorem set_state_info (p : ContFramePool) (f : Nat) (s : FrameState) :
    (set_state p f s).info_frame_no = p.info_frame_no := rfl

theorem get_set_same (p : ContFramePool) (f : Nat) (s : FrameState) :
    get_state (set_state p f s) f = s := by
  have hb : p.bitmap (f / 4) % 256 < 256 := Nat.mod_lt _ (by decide)
  simp only [get_state, set_state, if_true]
  exact byte_same _ f s hb

theorem get_set_other (p : ContFramePool) (f g : Nat) (s : FrameState) (h : g ≠ f) :
    get_state (set_state p f s) g = get_state p g := by
  by_cases hq : g / 4 = f / 4
  · have hb : p.bitmap (f / 4) % 256 < 256 := Nat.mod_lt _ (by decide)
    have hm : g % 4 ≠ f % 4 := by omega
    simp only [get_state, set_state, hq, if_true]
    exact byte_other _ f g s hb hm
  · simp [get_state, set_state, hq]

/-- Frame states seen through a pool that differs only in `n_free_frames`. -/
@[simp] theorem get_state_with_n_free (p : ContFramePool) (c g : Nat) :
    get_state { p with n_free_frames := c } g = get_state p g := rfl

end ContFramePool

/-! ## The first-fit search of `get_frames` -/

namespace ContFramePool

theorem not_all_free_of_witness (p : ContFramePool) (j want t : Nat)
    (h1 : j ≤ t) (h2 : t < j + want) (h3 : get_state p t ≠ FrameState.Free) :
    ¬ all_free p j want := by
  intro hall
  have := hall (t - j) (by omega)
  rw [show j + (t - j) = t by omega] at this
  exact h3 this

/-- Loop invariant of the search: `num` is the length of the run of `Free` frames ending just
before `n`, `start` is where it begins, and every earlier candidate run is broken by a
non-`Free` frame below `n`. -/
theorem get_frames_scan_spec (p : ContFramePool) (want : Nat) :
    ∀ k n start num, num < want → num ≤ n →
      (∀ t, n - num ≤ t → t < n → get_state p t = FrameState.Free) →
      (0 < num → start = n - num) →
      (∀ j, j < n - num →
        ∃ t, j ≤ t ∧ t < j + want ∧ t < n ∧ get_state p t ≠ FrameState.Free) →
      ((get_frames_scan p want k n start num).2 = want ∧
        (get_frames_scan p want k n start num).1 + want ≤ n + k ∧
        all_free p (get_frames_scan p want k n start num).1 want ∧
        ∀ j, j < (get_frames_scan p want k n start num).1 → ¬ all_free p j want) ∨
      ((get_frames_scan p want k n start num).2 ≠ want ∧
        ∀ j, j + want ≤ n + k → ¬ all_free p j want) := by
  intro k
  induction k with
  | zero =>
    intro n start num hlt hle _ _ hbroken
    right
    refine ⟨by simp [get_frames_scan]; omega, ?_⟩
    intro j hj
    obtain ⟨t, h1, h2, _, h4⟩ := hbroken j (by omega)
    exact not_all_free_of_witness p j want t h1 h2 h4
  | succ k ih =>
    intro n start num hlt hle hrun hstart hbroken
    by_cases hfree : get_state p n = FrameState.Free
    · by_cases hfull : num + 1 = want
      · left
        have hs : (if num = 0 then n else start) = n - num := by
          by_cases h0 : num = 0
          · simp [h0]
          · simp [h0]; exact hstart (by omega)
        simp only [get_frames_scan, hfree, hfull, if_true]
        rw [hs]
        refine ⟨trivial, by omega, ?_, ?_⟩
        · intro t ht
          by_cases hn : n - num + t = n
          · rw [hn]; exact hfree
          · exact hrun _ (by omega) (by omega)
        · intro j hj
          obtain ⟨t, h1, h2, _, h4⟩ := hbroken j hj
          exact not_all_free_of_witness p j want t h1 h2 h4
      · have hs : (if num = 0 then n else start) = n + 1 - (num + 1) := by
          by_cases h0 : num = 0
          · simp [h0]
          · simp [h0]; rw [hstart (by omega)]
        have := ih (n + 1) (if num = 0 then n else start) (num + 1) (by omega) (by omega)
          (by
            intro t ht1 ht2
            by_cases hn : t = n
            · rw [hn]; exact hfree
            · exact hrun t (by omega) (by omega))
          (fun _ => hs)
          (by
            intro j hj
            obtain ⟨t, h1, h2, h3, h4⟩ := hbroken j (by omega)
            exact ⟨t, h1, h2, by omega, h4⟩)
        simp only [get_frames_scan, hfree, hfull, if_true, if_false]
        rw [show n + (k + 1) = n + 1 + k by omega]
        exact this
    · have := ih (n + 1) start 0 (by omega) (by omega)
        (by intro t ht1 ht2; omega)
        (by intro h; omega)
        (by
          intro j hj
          by_cases hlow : j < n - num
          · obtain ⟨t, h1, h2, h3, h4⟩ := hbroken j hlow
            exact ⟨t, h1, h2, by omega, h4⟩
          · exact ⟨n, by omega, by omega, by omega, hfree⟩)
      simp only [get_frames_scan, hfree, if_false]
      rw [show n + (k + 1) = n + 1 + k by omega]
      exact this

/-- The search from the loop's initial state, for a request of at least one frame: either it
stops on the lowest run of `want` free frames inside the pool, or there is none. -/
theorem get_frames_scan_init (p : ContFramePool) (want start0 : Nat) (hw : 1 ≤ want) :
    ((get_frames_scan p want p.n_frames 0 start0 0).2 = want ∧
      (get_frames_scan p want p.n_frames 0 start0 0).1 + want ≤ p.n_frames ∧
      all_free p (get_frames_scan p want p.n_frames 0 start0 0).1 want ∧
      ∀ j, j < (get_frames_scan p want p.n_frames 0 start0 0).1 → ¬ all_free p j want) ∨
    ((get_frames_scan p want p.n_frames 0 start0 0).2 ≠ want ∧
      ∀ j, j + want ≤ p.n_frames → ¬ all_free p j want) := by
  have := get_frames_scan_spec p want p.n_frames 0 start0 0 (by omega) (by omega)
    (by intro t _ h; omega) (by intro h; omega) (by intro j h; omega)
  simpa using this

/-- When `i` is the lowest index of a run of `want` free frames inside the pool, the search
stops with `start = i` and `num = want`. -/
theorem get_frames_scan_found (p : ContFramePool) (want start0 i : Nat) (hw : 1 ≤ want)
    (hfit : i + want ≤ p.n_frames) (hfree : all_free p i want)
    (hlow : ∀ j, j < i → ¬ all_free p j want) :
    get_frames_scan p want p.n_frames 0 start0 0 = (i, want) := by
  rcases get_frames_scan_init p want start0 hw with ⟨h1, _, h3, h4⟩ | ⟨_, h2⟩
  · have hi : (get_frames_scan p want p.n_frames 0 start0 0).1 = i := by
      rcases Nat.lt_trichotomy (get_frames_scan p want p.n_frames 0 start0 0).1 i with h | h | h
      · exact absurd h3 (hlow _ h)
      · exact h
      · exact absurd hfree (h4 _ h)
    exact Prod.ext hi h1
  · exact absurd hfree (h2 i hfit)

end ContFramePool

/-! ## The marking loops -/

namespace ContFramePool

theorem get_frames_mark_fields (start : Nat) :
    ∀ k id p, (get_frames_mark start k id p).base_frame_no = p.base_frame_no ∧
      (get_frames_mark start k id p).n_frames = p.n_frames ∧
      (get_frames_mark start k id p).n_free_frames = p.n_free_frames ∧
      (get_frames_mark start k id p).info_frame_no = p.info_frame_no := by
  intro k
  induction k with
  | zero => intro id p; simp [get_frames_mark]
  | succ k ih =>
    intro id p
    rw [get_frames_mark]
    exact ih (id + 1) _

theorem get_frames_mark_state (start : Nat) :
    ∀ k id p t, get_state (get_frames_mark start k id p) t =
      if id + start ≤ t ∧ t < id + start + k then
        (if t = start then FrameState.HoS else FrameState.Used)
      else get_state p t := by
  intro k
  induction k with
  | zero =>
    intro id p t
    rw [get_frames_mark, if_neg (by omega)]
  | succ k ih =>
    intro id p t
    rw [get_frames_mark, ih]
    by_cases ht : t = id + start
    · subst ht
      have h1 : ¬ (id + 1 + start ≤ id + start ∧ id + start < id + 1 + start + k) := by omega
      have h2 : id + start ≤ id + start ∧ id + start < id + start + (k + 1) := by omega
      rw [if_neg h1, if_pos h2, get_set_same]
      by_cases h0 : id = 0
      · subst h0; simp
      · have h3 : ¬ (id + start = start) := by omega
        rw [if_neg h0, if_neg h3]
    · rw [get_set_other _ _ _ _ ht]
      by_cases hin : id + 1 + start ≤ t ∧ t < id + 1 + start + k
      · have h2 : id + start ≤ t ∧ t < id + start + (k + 1) := by omega
        rw [if_pos hin, if_pos h2]
      · have h2 : ¬ (id + start ≤ t ∧ t < id + start + (k + 1)) := by omega
        rw [if_neg hin, if_neg h2]

theorem release_frames_loop_fields :
    ∀ k fno node, (release_frames_loop k fno node).base_frame_no = node.base_frame_no ∧
      (release_frames_loop k fno node).n_frames = node.n_frames ∧
      (release_frames_loop k fno node).info_frame_no = node.info_frame_no := by
  intro k
  induction k with
  | zero => intro fno node; simp [release_frames_loop]
  | succ k ih =>
    intro fno node
    rw [release_frames_loop]
    exact ih (fno + 1) _

/-- The release loop started at frame number `fno` with `k` iterations frees the local
indices `fno - base .. fno - base + k - 1`, whatever they held, and nothing else. -/
theorem release_frames_loop_state :
    ∀ k fno node t, node.base_frame_no ≤ fno →
      get_state (release_frames_loop k fno node) t =
        if fno - node.base_frame_no ≤ t ∧ t < fno - node.base_frame_no + k then
          FrameState.Free
        else get_state node t := by
  intro k
  induction k with
  | zero =>
    intro fno node t _
    rw [release_frames_loop, if_neg (by omega)]
  | succ k ih =>
    intro fno node t hb
    have hb1 : ({ set_state node (fno - node.base_frame_no) FrameState.Free with
        n_free_frames := sub32 node.n_free_frames 1 } : ContFramePool).base_frame_no ≤ fno + 1 :=
      Nat.le_succ_of_le hb
    rw [release_frames_loop, ih _ _ t hb1]
    show (if fno + 1 - node.base_frame_no ≤ t ∧ t < fno + 1 - node.base_frame_no + k then
        FrameState.Free
      else get_state (set_state node (fno - node.base_frame_no) FrameState.Free) t) = _
    by_cases ht : t = fno - node.base_frame_no
    · subst ht
      have h1 : ¬ (fno + 1 - node.base_frame_no ≤ fno - node.base_frame_no ∧
          fno - node.base_frame_no < fno + 1 - node.base_frame_no + k) := by omega
      have h2 : fno - node.base_frame_no ≤ fno - node.base_frame_no ∧
          fno - node.base_frame_no < fno - node.base_frame_no + (k + 1) := by omega
      rw [if_neg h1, get_set_same, if_pos h2]
    · rw [get_set_other _ _ _ _ ht]
      by_cases hin : fno + 1 - node.base_frame_no ≤ t ∧ t < fno + 1 - node.base_frame_no + k
      · have h2 : fno - node.base_frame_no ≤ t ∧ t < fno - node.base_frame_no + (k + 1) := by
          omega
        rw [if_pos hin, if_pos h2]
      · have h2 : ¬ (fno - node.base_frame_no ≤ t ∧ t < fno - node.base_frame_no + (k + 1)) := by
          omega
        rw [if_neg hin, if_neg h2]

end ContFramePool

/-! ## `get_frames` from the search result -/

namespace ContFramePool

theorem u32_of_lt (x : Nat) (h : x < WORD) : u32 x = x := Nat.mod_eq_of_lt h

theorem sub32_of_le (a b : Nat) (h : b ≤ a) : sub32 a b = a - b := by
  simp [sub32, h]

/-- What `get_frames` does when the lowest run of `n ≥ 1` free frames inside the pool starts
at local index `i`. -/
theorem get_frames_found (start0 : Nat) (p : ContFramePool) (n i : Nat)
    (hn : 1 ≤ n) (hcount : n ≤ p.n_free_frames)
    (hfit : i + n ≤ p.n_frames) (hrun : all_free p i n)
    (hlow : ∀ j, j < i → ¬ all_free p j n) :
    get_frames start0 p n =
      Outcome.ok (u32 (i + p.base_frame_no))
        { get_frames_mark i n 0 p with n_free_frames := sub32 p.n_free_frames n } := by
  have hscan := get_frames_scan_found p n start0 i hn hfit hrun hlow
  simp only [get_frames, hcount, if_true, hscan]
  simp

/-- What `get_frames` does when no run of `n ≥ 1` free frames lies inside the pool. -/
theorem get_frames_not_found (start0 : Nat) (p : ContFramePool) (n : Nat)
    (hn : 1 ≤ n) (hcount : n ≤ p.n_free_frames)
    (hnone : ∀ i, i + n ≤ p.n_frames → ¬ all_free p i n) :
    get_frames start0 p n = Outcome.ok 0 p := by
  rcases get_frames_scan_init p n start0 hn with ⟨_, h2, h3, _⟩ | ⟨h1, _⟩
  · exact absurd h3 (hnone _ h2)
  · simp only [get_frames, hcount, if_true]
    simp [h1]

end ContFramePool

namespace ContFramePool

/-! ## `release_frames` on the registry -/

theorem range_check_iff (q : ContFramePool) (f : Nat) (hw : in_word q) :
    (f ≥ q.base_frame_no ∧ f < u32 (q.base_frame_no + q.n_frames)) ↔ in_range q f := by
  unfold in_word at hw
  unfold in_range
  rw [u32_of_lt _ (by omega)]

theorem release_iterations (q : ContFramePool) (f : Nat) (hw : in_word q)
    (hin : in_range q f) : u32 (f + q.n_frames) - f = q.n_frames := by
  unfold in_word at hw
  unfold in_range at hin
  rw [u32_of_lt _ (by omega)]
  omega

theorem release_frames_cons_owner (node : ContFramePool) (rest : List ContFramePool) (f : Nat)
    (hw : in_word node) (hin : in_range node f) :
    release_frames (node :: rest) f =
      if get_state node (f - node.base_frame_no) = FrameState.HoS then
        Outcome.ok () (release_frames_loop node.n_frames f node :: rest)
      else Outcome.fatal (node :: rest) := by
  have hc := (range_check_iff node f hw).2 hin
  rw [release_frames, if_pos hc, release_iterations node f hw hin]

theorem release_frames_cons_skip_ok (node : ContFramePool) (rest rest1 : List ContFramePool)
    (f : Nat) (u : Unit) (hw : in_word node) (hout : ¬ in_range node f)
    (hrest : release_frames rest f = Outcome.ok u rest1) :
    release_frames (node :: rest) f = Outcome.ok u (node :: rest1) := by
  have hc : ¬ (f ≥ node.base_frame_no ∧ f < u32 (node.base_frame_no + node.n_frames)) :=
    fun h => hout ((range_check_iff node f hw).1 h)
  rw [release_frames, if_neg hc, hrest]

theorem release_frames_cons_skip_fatal (node : ContFramePool) (rest rest1 : List ContFramePool)
    (f : Nat) (hw : in_word node) (hout : ¬ in_range node f)
    (hrest : release_frames rest f = Outcome.fatal rest1) :
    release_frames (node :: rest) f = Outcome.fatal (node :: rest1) := by
  have hc : ¬ (f ≥ node.base_frame_no ∧ f < u32 (node.base_frame_no + node.n_frames)) :=
    fun h => hout ((range_check_iff node f hw).1 h)
  rw [release_frames, if_neg hc, hrest]

theorem release_frames_at_owner (pre post : List ContFramePool) (p : ContFramePool) (f : Nat)
    (hpre : ∀ q ∈ pre, in_word q ∧ ¬ in_range q f) (hw : in_word p) (hin : in_range p f)
    (hhead : get_state p (f - p.base_frame_no) = FrameState.HoS) :
    release_frames (pre ++ p :: post) f =
      Outcome.ok () (pre ++ release_frames_loop p.n_frames f p :: post) := by
  induction pre with
  | nil =>
    rw [List.nil_append, release_frames_cons_owner p post f hw hin, if_pos hhead]
    rfl
  | cons node pre ih =>
    have hnode := hpre node (List.mem_cons_self _ _)
    have ih1 := ih (fun q hq => hpre q (List.mem_cons_of_mem _ hq))
    rw [List.cons_append]
    exact release_frames_cons_skip_ok node _ _ f () hnode.1 hnode.2 ih1

theorem release_frames_fatal_unowned (reg : List ContFramePool) (f : Nat)
    (hw : ∀ q ∈ reg, in_word q)
    (h : owning_pool reg f = none ∨
      ∃ p, owning_pool reg f = some p ∧ get_state p (f - p.base_frame_no) ≠ FrameState.HoS) :
    release_frames reg f = Outcome.fatal reg := by
  induction reg with
  | nil => rfl
  | cons node rest ih =>
    have hwn := hw node (List.mem_cons_self _ _)
    by_cases hin : in_range node f
    · have hown : owning_pool (node :: rest) f = some node := by
        simp [owning_pool, List.find?_cons, hin]
      rw [release_frames_cons_owner node rest f hwn hin]
      rcases h with h | ⟨p, hp, hs⟩
      · rw [hown] at h; cases h
      · rw [hown] at hp
        cases hp
        rw [if_neg hs]
    · have hown : owning_pool (node :: rest) f = owning_pool rest f := by
        simp [owning_pool, List.find?_cons, hin]
      rw [hown] at h
      exact release_frames_cons_skip_fatal node rest rest f hwn hin
        (ih (fun q hq => hw q (List.mem_cons_of_mem _ hq)) h)

theorem release_frames_twice (reg : List ContFramePool) (f : Nat)
    (hw : ∀ q ∈ reg, in_word q) :
    ∀ reg1, release_frames reg f = Outcome.ok () reg1 →
      release_frames reg1 f = Outcome.fatal reg1 := by
  induction reg with
  | nil => intro reg1 h; cases h
  | cons node rest ih =>
    intro reg1 h
    have hwn := hw node (List.mem_cons_self _ _)
    by_cases hin : in_range node f
    · rw [release_frames_cons_owner node rest f hwn hin] at h
      by_cases hs : get_state node (f - node.base_frame_no) = FrameState.HoS
      · rw [if_pos hs] at h
        cases h
        have hf := release_frames_loop_fields node.n_frames f node
        have hw1 : in_word (release_frames_loop node.n_frames f node) := by
          unfold in_word at hwn ⊢
          rw [hf.1, hf.2.1]; exact hwn
        have hin1 : in_range (release_frames_loop node.n_frames f node) f := by
          unfold in_range at hin ⊢
          rw [hf.1, hf.2.1]; exact hin
        have hfree : get_state (release_frames_loop node.n_frames f node)
            (f - (release_frames_loop node.n_frames f node).base_frame_no) ≠ FrameState.HoS := by
          unfold in_range at hin
          rw [hf.1, release_frames_loop_state _ _ _ _ hin.1, if_pos (by omega)]
          decide
        rw [release_frames_cons_owner _ rest f hw1 hin1, if_neg hfree]
      · rw [if_neg hs] at h; cases h
    · cases hr : release_frames rest f with
      | ok u rest1 =>
        rw [release_frames_cons_skip_ok node rest rest1 f u hwn hin hr] at h
        cases h
        exact release_frames_cons_skip_fatal node rest1 rest1 f hwn hin
          (ih (fun q hq => hw q (List.mem_cons_of_mem _ hq)) rest1 hr)
      | fatal rest1 =>
        rw [release_frames_cons_skip_fatal node rest rest1 f hwn hin hr] at h
        cases h

end ContFramePool

namespace ContFramePool

theorem sub32_one_of_pos (c : Nat) (h : 1 ≤ c) : sub32 c 1 = c - 1 := sub32_of_le c 1 h

theorem sub32_zero_one : sub32 0 1 = WORD - 1 := by decide

/-- The counter after the release loop: `k` decrements of a word, wrapping below zero. -/
theorem release_frames_loop_n_free :
    ∀ k fno node, node.n_free_frames < WORD → k ≤ WORD →
      (release_frames_loop k fno node).n_free_frames =
        if k ≤ node.n_free_frames then node.n_free_frames - k
        else node.n_free_frames + WORD - k := by
  intro k
  induction k with
  | zero =>
    intro fno node _ _
    rw [release_frames_loop, if_pos (Nat.zero_le _)]
    rfl
  | succ k ih =>
    intro fno node hc hk
    rw [release_frames_loop]
    by_cases h0 : node.n_free_frames = 0
    · have hc1 : ({ set_state node (fno - node.base_frame_no) FrameState.Free with
          n_free_frames := sub32 node.n_free_frames 1 } : ContFramePool).n_free_frames
          = WORD - 1 := by
        show sub32 node.n_free_frames 1 = WORD - 1
        rw [h0]; exact sub32_zero_one
      rw [ih _ _ (by rw [hc1]; unfold WORD; omega) (by omega), hc1, h0,
        if_pos (by omega), if_neg (by omega)]
      omega
    · have hc1 : ({ set_state node (fno - node.base_frame_no) FrameState.Free with
          n_free_frames := sub32 node.n_free_frames 1 } : ContFramePool).n_free_frames
          = node.n_free_frames - 1 := by
        show sub32 node.n_free_frames 1 = node.n_free_frames - 1
        exact sub32_one_of_pos _ (by omega)
      rw [ih _ _ (by rw [hc1]; omega) (by omega), hc1]
      by_cases hle : k + 1 ≤ node.n_free_frames
      · rw [if_pos (by omega), if_pos hle]; omega
      · rw [if_neg (by omega), if_neg hle]; omega

theorem exists_lowest_run (p : ContFramePool) (n : Nat)
    (h : ∃ j, j + n ≤ p.n_frames ∧ all_free p j n) :
    ∃ i, i + n ≤ p.n_frames ∧ all_free p i n ∧ ∀ j, j < i → ¬ all_free p j n := by
  refine ⟨Nat.find h, (Nat.find_spec h).1, (Nat.find_spec h).2, ?_⟩
  intro j hj hall
  have hfit := (Nat.find_spec h).1
  exact Nat.find_min h hj ⟨by omega, hall⟩

end ContFramePool

/-! ## The claims -/

namespace ContFramePool

/-- C1 (amended): in a pool whose frame numbers fit the 32-bit word, for every `n` with
`1 ≤ n ≤ free_count` for which a run of `n` consecutive `Free` frames exists inside the pool,
`get_frames(n)` returns `base_frame_no + i` where `i` is the lowest local index such that
frames `[i, i+n)` are all `Free` before the call; afterwards frame `i` is `HeadOfSequence`,
frames `i+1 .. i+n-1` are `Used`, every other frame's state is unchanged, and `free_count`
has dropped by exactly `n`. -/
theorem get_frames_first_fit (start0 : Nat) (p : ContFramePool) (n : Nat)
    (hn : 1 ≤ n) (hcount : n ≤ p.n_free_frames)
    (hword : p.base_frame_no + p.n_frames ≤ WORD)
    (hrun : ∃ j, j + n ≤ p.n_frames ∧ all_free p j n) :
    ∃ i q, i + n ≤ p.n_frames ∧ all_free p i n ∧ (∀ j, j < i → ¬ all_free p j n) ∧
      get_frames start0 p n = Outcome.ok (p.base_frame_no + i) q ∧
      get_state q i = FrameState.HoS ∧
      (∀ t, i < t → t < i + n → get_state q t = FrameState.Used) ∧
      (∀ t, t < i ∨ i + n ≤ t → get_state q t = get_state p t) ∧
      q.n_free_frames + n = p.n_free_frames ∧
      q.base_frame_no = p.base_frame_no ∧ q.n_frames = p.n_frames ∧
      q.info_frame_no = p.info_frame_no := by
  obtain ⟨i, hfit, hfree, hlow⟩ := exists_lowest_run p n hrun
  refine ⟨i, { get_frames_mark i n 0 p with n_free_frames := sub32 p.n_free_frames n },
    hfit, hfree, hlow, ?_, ?_, ?_, ?_, ?_, ?_, ?_, ?_⟩
  · rw [get_frames_found start0 p n i hn hcount hfit hfree hlow,
      u32_of_lt _ (by omega), Nat.add_comm]
  · show get_state (get_frames_mark i n 0 p) i = _
    rw [get_frames_mark_state, if_pos (by omega), if_pos rfl]
  · intro t h1 h2
    show get_state (get_frames_mark i n 0 p) t = _
    rw [get_frames_mark_state, if_pos (by omega), if_neg (by omega)]
  · intro t ht
    show get_state (get_frames_mark i n 0 p) t = _
    rw [get_frames_mark_state, if_neg (by omega)]
  · show sub32 p.n_free_frames n + n = _
    rw [sub32_of_le _ _ hcount]; omega
  · exact (get_frames_mark_fields i n 0 p).1
  · exact (get_frames_mark_fields i n 0 p).2.1
  · exact (get_frames_mark_fields i n 0 p).2.2.2

/-- The first-fit contract at the second request of the 8-frame scenario: `get_frames(2)` on
`[HoS, Used, Used, Free x 5]`. -/
theorem get_frames_first_fit_witness :
    (1 ≤ 2 ∧ 2 ≤ pool8_a.n_free_frames ∧ pool8_a.base_frame_no + pool8_a.n_frames ≤ WORD ∧
      ∃ j, j + 2 ≤ pool8_a.n_frames ∧ all_free pool8_a j 2) ∧
    ∃ i q, i + 2 ≤ pool8_a.n_frames ∧ all_free pool8_a i 2 ∧
      (∀ j, j < i → ¬ all_free pool8_a j 2) ∧
      get_frames 0 pool8_a 2 = Outcome.ok (pool8_a.base_frame_no + i) q ∧
      get_state q i = FrameState.HoS ∧
      (∀ t, i < t → t < i + 2 → get_state q t = FrameState.Used) ∧
      (∀ t, t < i ∨ i + 2 ≤ t → get_state q t = get_state pool8_a t) ∧
      q.n_free_frames + 2 = pool8_a.n_free_frames ∧
      q.base_frame_no = pool8_a.base_frame_no ∧ q.n_frames = pool8_a.n_frames ∧
      q.info_frame_no = pool8_a.info_frame_no :=
  ⟨⟨by decide, by decide, by decide, 5, by decide, by decide⟩,
    get_frames_first_fit 0 pool8_a 2 (by decide) (by decide) (by decide)
      ⟨5, by decide, by decide⟩⟩

/-- C1 as stated fails for a request of zero frames: in the one-frame pool at frame 5, whose
frame is `Free`, `n = 0` satisfies `n ≤ free_count` and the empty run starts at index 0, the
lowest index there is; yet `get_frames(0)` returns 0 rather than `base_frame_no + 0 = 5`,
and frame 0 is not `HeadOfSequence` afterwards. -/
theorem get_frames_zero_request :
    0 ≤ pool_one.n_free_frames ∧ 0 + 0 ≤ pool_one.n_frames ∧ all_free pool_one 0 0 ∧
      get_frames 0 pool_one 0 = Outcome.ok 0 pool_one ∧
      pool_one.base_frame_no + 0 = 5 ∧
      get_state pool_one 0 ≠ FrameState.HoS :=
  ⟨by decide, by decide, by decide, rfl, by decide, by decide⟩

/-- C2: for every pool state and every `n` with `1 ≤ n ≤ free_count` such that no run of `n`
consecutive `Free` frames exists in the pool, `get_frames(n)` returns the failure sentinel 0
and leaves the pool, every frame state and `free_count`, exactly as it was. -/
theorem get_frames_fragmented (start0 : Nat) (p : ContFramePool) (n : Nat)
    (hn : 1 ≤ n) (hcount : n ≤ p.n_free_frames)
    (hnone : ∀ i, i + n ≤ p.n_frames → ¬ all_free p i n) :
    get_frames start0 p n = Outcome.ok 0 p :=
  get_frames_not_found start0 p n hn hcount hnone

/-- The fragmentation case on `[Free, Used, Free]`: two frames are free, no two adjacent. -/
theorem get_frames_fragmented_witness :
    (1 ≤ 2 ∧ 2 ≤ pool_frag.n_free_frames ∧
      ∀ i, i + 2 ≤ pool_frag.n_frames → ¬ all_free pool_frag i 2) ∧
    get_frames 0 pool_frag 2 = Outcome.ok 0 pool_frag :=
  have h : ∀ i, i + 2 ≤ pool_frag.n_frames → ¬ all_free pool_frag i 2 := by
    intro i hi
    have h2 : i < 2 := by
      have : pool_frag.n_frames = 3 := rfl
      omega
    interval_cases i <;> decide
  ⟨⟨by decide, by decide, h⟩, get_frames_fragmented 0 pool_frag 2 (by decide) (by decide) h⟩

/-- C3: on the code, `release_frames(0)` in the 8-frame scenario (allocations `[0,3)` and
`[3,5)` live) does not stop at the next `HeadOfSequence` frame: frames 3 and 4, the second
allocation, are `Free` afterwards. -/
theorem release_frames_overruns_next_allocation :
    get_state pool8_b 0 = FrameState.HoS ∧ get_state pool8_b 3 = FrameState.HoS ∧
      get_state pool8_b 4 = FrameState.Used ∧
      ∃ q, release_frames [pool8_b] 0 = Outcome.ok () [q] ∧
        get_state q 3 = FrameState.Free ∧ get_state q 4 = FrameState.Free :=
  ⟨by decide, by decide, by decide, release_frames_loop 8 0 pool8_b, rfl, by decide, by decide⟩

/-- C4: on the code, `release_frames` lowers `n_free_frames` once per frame it frees: after
`get_frames(3)` the 8-frame pool has 5 free frames and `n_free_frames = 5`; after
`release_frames(0)` all 8 frames are `Free` and `n_free_frames` is `5 - 8` wrapped to a
32-bit word. -/
theorem release_frames_decrements_free_count :
    count_free pool8_a = 5 ∧ pool8_a.n_free_frames = 5 ∧
      ∃ q, release_frames [pool8_a] 0 = Outcome.ok () [q] ∧
        count_free q = 8 ∧ q.n_free_frames = 4294967293 :=
  ⟨by decide, by decide, release_frames_loop 8 0 pool8_a, rfl, by decide, by decide⟩

/-- C5: on the code, frames 516 and 517 of the pool at frame 512, made `Inaccessible` by
`mark_inaccessible(516, 2)`, are `Free` after `get_frames(1)` (which returns 513) and
`release_frames(513)`. -/
theorem release_frames_frees_inaccessible :
    (mark_inaccessible pool_k 516 2).isFatal = false ∧
      get_state pool_k1 4 = FrameState.Inaccessible ∧
      get_state pool_k1 5 = FrameState.Inaccessible ∧
      (get_frames 0 pool_k1 1).value = some 513 ∧
      ∃ q, release_frames [pool_k2] 513 = Outcome.ok () [q] ∧
        get_state q 4 = FrameState.Free ∧ get_state q 5 = FrameState.Free :=
  ⟨by decide, by decide, by decide, by decide, release_frames_loop 8 513 pool_k2, rfl,
    by decide, by decide⟩

/-- C6 (amended): let `p` be the first pool of the registry whose range holds `f`, with
frame `f` in state `HeadOfSequence`, the `n ≥ 1` frames from `f` on inside the pool,
`free_count` not above the number of frames outside them, and every run of `n` frames that
starts below `f` holding a non-`Free` frame below `f`.  Then `release_frames(f)` followed
by `get_frames(n)` on that pool returns `f` again. -/
theorem release_then_get_frames (start0 : Nat) (pre post : List ContFramePool)
    (p : ContFramePool) (f n : Nat)
    (hpre : ∀ q ∈ pre, in_word q ∧ ¬ in_range q f) (hw : in_word p) (hin : in_range p f)
    (hn : 1 ≤ n)
    (hhead : get_state p (f - p.base_frame_no) = FrameState.HoS)
    (hfit : f - p.base_frame_no + n ≤ p.n_frames)
    (hcount : p.n_free_frames + n ≤ p.n_frames)
    (hlow : ∀ j, j < f - p.base_frame_no →
      ∃ t, j ≤ t ∧ t < j + n ∧ t < f - p.base_frame_no ∧ get_state p t ≠ FrameState.Free) :
    ∃ q r, release_frames (pre ++ p :: post) f = Outcome.ok () (pre ++ q :: post) ∧
      get_frames start0 q n = Outcome.ok f r := by
  have hf := release_frames_loop_fields p.n_frames f p
  have hb : p.base_frame_no ≤ f := hin.1
  have hwd : p.base_frame_no + 2 * p.n_frames < WORD := hw
  have hq : n ≤ (release_frames_loop p.n_frames f p).n_free_frames := by
    rw [release_frames_loop_n_free _ _ _ (by omega) (by omega), if_neg (by omega)]
    omega
  have hrun : all_free (release_frames_loop p.n_frames f p) (f - p.base_frame_no) n := by
    intro k hk
    rw [release_frames_loop_state _ _ _ _ hb, if_pos (by omega)]
  have hlow1 : ∀ j, j < f - p.base_frame_no →
      ¬ all_free (release_frames_loop p.n_frames f p) j n := by
    intro j hj
    obtain ⟨t, h1, h2, h3, h4⟩ := hlow j hj
    refine not_all_free_of_witness _ j n t h1 h2 ?_
    rw [release_frames_loop_state _ _ _ _ hb, if_neg (by omega)]
    exact h4
  have hfound := get_frames_found start0 (release_frames_loop p.n_frames f p) n
    (f - p.base_frame_no) hn hq (by rw [hf.2.1]; exact hfit) hrun hlow1
  rw [hf.1, show f - p.base_frame_no + p.base_frame_no = f by omega,
    u32_of_lt f (by unfold in_range at hin; omega)] at hfound
  exact ⟨_, _, release_frames_at_owner pre post p f hpre hw hin hhead, hfound⟩

/-- The 8-frame scenario: with allocations `[0,3)` and `[3,5)` live, `release_frames(0)`
followed by `get_frames(3)` returns 0 again. -/
theorem release_then_get_frames_witness :
    (in_word pool8_b ∧ in_range pool8_b 0 ∧
      get_state pool8_b (0 - pool8_b.base_frame_no) = FrameState.HoS ∧
      0 - pool8_b.base_frame_no + 3 ≤ pool8_b.n_frames ∧
      pool8_b.n_free_frames + 3 ≤ pool8_b.n_frames) ∧
    ∃ q r, release_frames ([] ++ pool8_b :: []) 0 = Outcome.ok () ([] ++ q :: []) ∧
      get_frames 0 q 3 = Outcome.ok 0 r :=
  ⟨⟨by decide, by decide, by decide, by decide, by decide⟩,
    release_then_get_frames 0 [] [] pool8_b 0 3 (fun _ h => absurd h (List.not_mem_nil _))
      (by decide) (by decide) (by decide) (by decide) (by decide) (by decide)
      (fun j hj => absurd hj (Nat.not_lt_zero j))⟩

/-- C6 as stated fails where a `Free` frame lies just below the allocation: in the pool
`[Free, HoS, Used]` at frame 32, frame 33 heads a live allocation of length 2, ended by the
pool boundary, and no run of 2 `Free` frames starts at a lower index; yet after
`release_frames(33)` the call `get_frames(2)` returns 32. -/
theorem release_then_get_frames_lower_gap :
    in_range pool_gap 33 ∧ get_state pool_gap 1 = FrameState.HoS ∧
      get_state pool_gap 2 = FrameState.Used ∧ pool_gap.n_frames = 3 ∧
      (∀ j, j < 1 → ¬ all_free pool_gap j 2) ∧
      ∃ q r, release_frames [pool_gap] 33 = Outcome.ok () [q] ∧
        get_frames 0 q 2 = Outcome.ok 32 r :=
  ⟨by decide, by decide, by decide, by decide, by decide, release_frames_loop 3 33 pool_gap,
    (get_frames 0 (release_frames_loop 3 33 pool_gap) 2).state, rfl, rfl⟩

/-- C7: in a registry of pools whose frame numbers fit the machine word, `release_frames(f)`
halts with the registry unchanged when no pool's range holds `f` or when the state of `f` in
its owning pool is not `HeadOfSequence`; and when `release_frames(f)` returns, a second
`release_frames(f)` halts, again changing nothing. -/
theorem release_frames_contract_violation (reg : List ContFramePool) (f : Nat)
    (hw : ∀ q ∈ reg, in_word q) :
    ((owning_pool reg f = none ∨
        ∃ p, owning_pool reg f = some p ∧
          get_state p (f - p.base_frame_no) ≠ FrameState.HoS) →
      release_frames reg f = Outcome.fatal reg) ∧
    (∀ reg1, release_frames reg f = Outcome.ok () reg1 →
      release_frames reg1 f = Outcome.fatal reg1) :=
  ⟨release_frames_fatal_unowned reg f hw, release_frames_twice reg f hw⟩

/-- The three violations on a registry of two pools: frame 99 is in no pool, frame 512 is
`Used`, and frame 513 is released twice. -/
theorem release_frames_contract_violation_witness :
    (∀ q ∈ registry2, in_word q) ∧
      (owning_pool registry2 99 = none ∧
        release_frames registry2 99 = Outcome.fatal registry2) ∧
      (owning_pool registry2 512 = some pool_k3 ∧
        get_state pool_k3 (512 - pool_k3.base_frame_no) ≠ FrameState.HoS ∧
        release_frames registry2 512 = Outcome.fatal registry2) ∧
      ((release_frames registry2 513).isFatal = false ∧
        release_frames (release_frames registry2 513).state 513
          = Outcome.fatal (release_frames registry2 513).state) :=
  have hw : ∀ q ∈ registry2, in_word q := by decide
  ⟨hw,
    ⟨rfl, (release_frames_contract_violation registry2 99 hw).1 (Or.inl rfl)⟩,
    ⟨rfl, by decide,
      (release_frames_contract_violation registry2 512 hw).1
        (Or.inr ⟨pool_k3, rfl, by decide⟩)⟩,
    ⟨by decide, (release_frames_contract_violation registry2 513 hw).2 _ rfl⟩⟩

/-- C8 (amended): in a pool whose frame numbers fit the 32-bit word and in which
`base_frame_no` is not 0 or local frame 0 is not `Free`, a `get_frames(n)` call with `n ≥ 1`
that lowers `free_count` does not return 0, and a return value of 0 leaves the pool exactly
as it was. -/
theorem get_frames_zero_is_failure (start0 : Nat) (p q : ContFramePool) (n f : Nat)
    (hn : 1 ≤ n) (hword : p.base_frame_no + p.n_frames ≤ WORD)
    (hzero : p.base_frame_no ≠ 0 ∨ get_state p 0 ≠ FrameState.Free)
    (hret : get_frames start0 p n = Outcome.ok f q) :
    (q.n_free_frames ≠ p.n_free_frames → f ≠ 0) ∧ (f = 0 → q = p) := by
  have key : f = 0 → q = p := by
    intro hf0
    by_cases hcount : n ≤ p.n_free_frames
    · rcases get_frames_scan_init p n start0 hn with ⟨h1, h2, h3, h4⟩ | ⟨h1, h2⟩
      · exfalso
        have hfound := get_frames_found start0 p n _ hn hcount h2 h3 h4
        rw [hfound] at hret
        injection hret with hval _
        have hs := h3 0 hn
        rw [Nat.add_zero] at hs
        rw [u32_of_lt _ (by omega)] at hval
        rcases hzero with hb | hz
        · omega
        · have : (get_frames_scan p n p.n_frames 0 start0 0).1 = 0 := by omega
          rw [this] at hs
          exact hz hs
      · rw [get_frames_not_found start0 p n hn hcount h2] at hret
        injection hret with _ hst
        exact hst.symm
    · simp [get_frames, hcount] at hret
  exact ⟨fun hne hf0 => hne (by rw [key hf0]), key⟩

/-- A successful request on the self-hosted pool at frame 512: `get_frames(2)` returns 513. -/
theorem get_frames_zero_is_failure_witness :
    (1 ≤ 2 ∧ pool_k.base_frame_no + pool_k.n_frames ≤ WORD ∧ pool_k.base_frame_no ≠ 0 ∧
      get_frames 0 pool_k 2 = Outcome.ok 513 pool_k3 ∧
      pool_k3.n_free_frames ≠ pool_k.n_free_frames) ∧
    513 ≠ 0 ∧ (513 = 0 → pool_k3 = pool_k) :=
  have h := get_frames_zero_is_failure 0 pool_k pool_k3 2 513 (by decide) (by decide)
    (Or.inl (by decide)) rfl
  ⟨⟨by decide, by decide, by decide, rfl, by decide⟩, h.1 (by decide), h.2⟩

/-- C8 as stated fails for a pool that starts at frame 0 with an external info frame: on the
fresh 8-frame pool, `get_frames(3)` marks the run `[0,3)`, lowers `free_count` from 8 to 5,
and returns 0. -/
theorem get_frames_returns_frame_zero :
    pool8.base_frame_no = 0 ∧ pool8.info_frame_no ≠ 0 ∧ pool8.n_free_frames = 8 ∧
      ∃ q, get_frames 0 pool8 3 = Outcome.ok 0 q ∧ get_state q 0 = FrameState.HoS ∧
        get_state q 1 = FrameState.Used ∧ get_state q 2 = FrameState.Used ∧
        q.n_free_frames = 5 :=
  ⟨by decide, by decide, by decide, pool8_a, rfl, by decide, by decide, by decide, by decide⟩

/-- C9: on the code, `mark_inaccessible(518, 1)` on the pool of frames `[512, 518)` is not
fatal although frame 518 lies outside the pool: the range test is `fno <= base + n_frames`
and the two bitmap bits behind the last frame read as `Free`; the call marks that slot
`Inaccessible` and lowers `n_free_frames`. -/
theorem mark_inaccessible_accepts_frame_past_end :
    ¬ in_range pool6 518 ∧
      ∃ q, mark_inaccessible pool6 518 1 = Outcome.ok () q ∧
        get_state q 6 = FrameState.Inaccessible ∧
        q.n_free_frames + 1 = pool6.n_free_frames :=
  ⟨by decide, (mark_inaccessible pool6 518 1).state, rfl, by decide, by decide⟩

/-- C10: on the code, `needed_info_frames(16385)` is 1, while a bitmap of 2 bits per frame
for 16385 frames needs `ceil(2 * 16385 / 32768) = 2` frames of 4096 bytes. -/
theorem needed_info_frames_16385 :
    needed_info_frames 16385 = 1 ∧ (2 * 16385 + 32768 - 1) / 32768 = 2 :=
  ⟨by decide, by decide⟩

end ContFramePool

/-! ## Bit-level facts about addresses and entries -/

theorem and_fff (x : Nat) : x &&& 0xFFF = x % 4096 :=
  Nat.and_pow_two_sub_one_eq_mod x 12

theorem and_3ff (x : Nat) : x &&& 0x3FF = x % 1024 :=
  Nat.and_pow_two_sub_one_eq_mod x 10

theorem and_one (x : Nat) : x &&& 1 = x % 2 :=
  Nat.and_pow_two_sub_one_eq_mod x 1

theorem and_hi (x : Nat) : x &&& 0xFFFFF000 = x / 4096 % 1048576 * 4096 := by
  have h : x &&& 0xFFFFF000 = ((x >>> 12) &&& (2 ^ 20 - 1)) <<< 12 := by
    apply Nat.eq_of_testBit_eq
    intro i
    rw [show (0xFFFFF000 : Nat) = (2 ^ 20 - 1) <<< 12 by decide]
    simp only [Nat.testBit_and, Nat.testBit_shiftLeft, Nat.testBit_shiftRight,
      Nat.testBit_two_pow_sub_one]
    by_cases hi : 12 ≤ i
    · simp [hi, show 12 + (i - 12) = i by omega]
    · simp [hi]
  rw [h, Nat.and_pow_two_sub_one_eq_mod, Nat.shiftRight_eq_div_pow, Nat.shiftLeft_eq]

theorem and_mid (x : Nat) : (x &&& (0x03FF <<< 12)) >>> 12 = x / 4096 % 1024 := by
  have h : (x &&& (0x03FF <<< 12)) >>> 12 = (x >>> 12) &&& (2 ^ 10 - 1) := by
    apply Nat.eq_of_testBit_eq
    intro i
    rw [show (0x03FF : Nat) = 2 ^ 10 - 1 by decide]
    simp only [Nat.testBit_and, Nat.testBit_shiftLeft, Nat.testBit_shiftRight,
      Nat.testBit_two_pow_sub_one]
    simp
  rw [h, Nat.and_pow_two_sub_one_eq_mod, Nat.shiftRight_eq_div_pow]

theorem and_mid_lit (x : Nat) : (x &&& 0x003FF000) >>> 12 = x / 4096 % 1024 :=
  and_mid x

theorem and_top (x : Nat) : (x &&& 0xFFC00000) >>> 22 = x / 4194304 % 1024 := by
  have h : (x &&& 0xFFC00000) >>> 22 = (x >>> 22) &&& (2 ^ 10 - 1) := by
    apply Nat.eq_of_testBit_eq
    intro i
    rw [show (0xFFC00000 : Nat) = (2 ^ 10 - 1) <<< 22 by decide]
    simp only [Nat.testBit_and, Nat.testBit_shiftLeft, Nat.testBit_shiftRight,
      Nat.testBit_two_pow_sub_one]
    simp
  rw [h, Nat.and_pow_two_sub_one_eq_mod, Nat.shiftRight_eq_div_pow]

theorem or_low (q r : Nat) (h : r < 4096) : q * 4096 ||| r = q * 4096 + r := by
  have := Nat.mul_add_lt_is_or (show r < 2 ^ 12 from h) q
  rw [Nat.mul_comm] at this
  exact this.symm

theorem or_window (x : Nat) (h : x < 4194304) : 0xFFC00000 ||| x = 0xFFC00000 + x := by
  have := Nat.mul_add_lt_is_or (show x < 2 ^ 22 from h) 1023
  exact this.symm

theorem or_three (x : Nat) (h : x % 4096 = 0) : x ||| 0b11 = x + 3 := by
  have h1 : x = x / 4096 * 4096 := by omega
  rw [h1, or_low _ 3 (by decide)]

theorem or_two_mod_two (e : Nat) : (e ||| 0b10) % 2 = e % 2 := by
  have h := @Nat.or_mod_two_eq_one e 2
  have h2 : (e ||| 2) % 2 < 2 := Nat.mod_lt _ (by decide)
  have h3 : e % 2 < 2 := Nat.mod_lt _ (by decide)
  by_cases he : e % 2 = 1
  · rw [he]; exact h.2 (Or.inl he)
  · have : ¬ ((e ||| 2) % 2 = 1) := fun hc => by
      rcases h.1 hc with h4 | h4
      · exact he h4
      · exact absurd h4 (by decide)
    omega

/-! ## Memory accesses of the kernel -/

namespace Outcome

@[simp] theorem bind_ok {σ α β : Type} (v : α) (s : σ) (k : α → σ → Outcome σ β) :
    (Outcome.ok v s).bind k = k v s := rfl

@[simp] theorem bind_fatal {σ α β : Type} (s : σ) (k : α → σ → Outcome σ β) :
    (Outcome.fatal s : Outcome σ α).bind k = Outcome.fatal s := rfl

end Outcome

namespace Machine

@[simp] theorem write_mem_same (st : Machine) (pa v : Nat) : (st.write pa v).mem pa = v := by
  simp [write]

theorem write_mem_other (st : Machine) (pa v a : Nat) (h : a ≠ pa) :
    (st.write pa v).mem a = st.mem a := by
  simp [write, h]

@[simp] theorem write_cr0 (st : Machine) (pa v : Nat) : (st.write pa v).cr0 = st.cr0 := rfl

@[simp] theorem write_cr3 (st : Machine) (pa v : Nat) : (st.write pa v).cr3 = st.cr3 := rfl

@[simp] theorem write_frame_pools (st : Machine) (pa v : Nat) :
    (st.write pa v).frame_pools = st.frame_pools := rfl

@[simp] theorem write_shared_size (st : Machine) (pa v : Nat) :
    (st.write pa v).shared_size = st.shared_size := rfl

@[simp] theorem write_process_mem_pool (st : Machine) (pa v : Nat) :
    (st.write pa v).process_mem_pool = st.process_mem_pool := rfl

@[simp] theorem write_kernel_mem_pool (st : Machine) (pa v : Nat) :
    (st.write pa v).kernel_mem_pool = st.kernel_mem_pool := rfl

@[simp] theorem write_pde_addr (st : Machine) (pa v a : Nat) :
    (st.write pa v).pde_addr a = st.pde_addr a := rfl

/-- Translation looks at CR0, CR3 and memory only. -/
theorem translate_congr (st st1 : Machine) (hm : st1.mem = st.mem) (h0 : st1.cr0 = st.cr0)
    (h3 : st1.cr3 = st.cr3) (v : Nat) : st1.translate v = st.translate v := by
  simp only [translate, pde_addr, hm, h0, h3]

theorem translate_off (st : Machine) (v : Nat) (h : st.cr0 &&& 0x80000000 = 0) :
    st.translate v = some v := by
  simp [translate, h]

/-- The walk of a paged machine, when both entries it reads are present. -/
theorem translate_on (st : Machine) (v : Nat) (hon : st.paging_on)
    (h1 : entry_present (st.mem (st.pde_addr v)))
    (h2 : entry_present (st.mem (pte_addr (st.mem (st.pde_addr v)) v))) :
    st.translate v =
      some (entry_frame (st.mem (pte_addr (st.mem (st.pde_addr v)) v)) ||| (v &&& 0xFFF)) := by
  unfold paging_on at hon
  unfold entry_present at h1 h2
  rw [translate, if_neg hon, if_neg h1, if_neg h2]
  rfl

theorem translate_none_of_pde (st : Machine) (v : Nat) (hon : st.paging_on)
    (h1 : ¬ entry_present (st.mem (st.pde_addr v))) : st.translate v = none := by
  unfold paging_on at hon
  unfold entry_present at h1
  rw [translate, if_neg hon, if_pos (Classical.not_not.mp h1)]

theorem load_of_translate (h : Handler) (st : Machine) (v pa : Nat)
    (ht : st.translate v = some pa) : st.load h v = Outcome.ok (st.mem pa) st := by
  simp [load, ht]

theorem store_of_translate (h : Handler) (st : Machine) (v pa x : Nat)
    (ht : st.translate v = some pa) : st.store h v x = Outcome.ok () (st.write pa x) := by
  simp [store, ht]

theorem fill_zero (st : Machine) (P i : Nat) (val : Nat → Nat) : st.fill P i 0 val = st := by
  cases st
  simp only [fill]
  congr 1
  funext a
  rw [if_neg (by omega)]

theorem fill_succ (st : Machine) (P i k : Nat) (val : Nat → Nat) :
    (st.write (P + 4 * i) (val i)).fill P (i + 1) k val = st.fill P i (k + 1) val := by
  cases st
  simp only [fill, write]
  congr 1
  funext a
  by_cases ha : a = P + 4 * i
  · subst ha
    rw [if_neg (by omega), if_pos rfl, if_pos (by omega)]
    congr 1
    omega
  · by_cases hin : P + 4 * (i + 1) ≤ a ∧ a < P + 4 * (i + 1 + k) ∧ (a - P) % 4 = 0
    · rw [if_pos hin, if_pos (by omega)]
    · rw [if_neg hin, if_neg ha, if_neg (by omega)]

/-- A store loop whose every store resolves, `Inv` being kept by the stores: the loop
returns and has filled the words it addressed. -/
theorem store_loop_fill (h : Handler) (V P : Nat) (val : Nat → Nat) (Inv : Machine → Prop) :
    ∀ k i st, Inv st →
      (∀ st1 j, Inv st1 → i ≤ j → j < i + k →
        st1.translate (u32 (V + 4 * j)) = some (P + 4 * j) ∧
          Inv (st1.write (P + 4 * j) (val j))) →
      store_loop h V val k i st = Outcome.ok () (st.fill P i k val) := by
  intro k
  induction k with
  | zero =>
    intro i st _ _
    rw [store_loop, fill_zero]
  | succ k ih =>
    intro i st hinv hstep
    obtain ⟨ht, hinv1⟩ := hstep st i hinv (Nat.le_refl _) (by omega)
    rw [store_loop, store_of_translate h st _ _ _ ht, Outcome.bind_ok,
      ih (i + 1) _ hinv1 (fun st1 j h1 h2 h3 => hstep st1 j h1 (by omega) (by omega)),
      fill_succ]

@[simp] theorem fill_cr0 (st : Machine) (P i k : Nat) (val : Nat → Nat) :
    (st.fill P i k val).cr0 = st.cr0 := rfl

@[simp] theorem fill_cr3 (st : Machine) (P i k : Nat) (val : Nat → Nat) :
    (st.fill P i k val).cr3 = st.cr3 := rfl

@[simp] theorem fill_frame_pools (st : Machine) (P i k : Nat) (val : Nat → Nat) :
    (st.fill P i k val).frame_pools = st.frame_pools := rfl

theorem fill_mem_in (st : Machine) (P i k : Nat) (val : Nat → Nat) (j : Nat)
    (h1 : i ≤ j) (h2 : j < i + k) : (st.fill P i k val).mem (P + 4 * j) = val j := by
  simp only [fill]
  rw [if_pos (by omega)]
  congr 1
  omega

theorem fill_mem_out (st : Machine) (P i k : Nat) (val : Nat → Nat) (a : Nat)
    (h : a < P + 4 * i ∨ P + 4 * (i + k) ≤ a) : (st.fill P i k val).mem a = st.mem a := by
  simp only [fill]
  rw [if_neg (by omega)]

/-- With paging off every store of the loop is a physical write. -/
theorem store_loop_off (h : Handler) (V : Nat) (val : Nat → Nat) (k i : Nat) (st : Machine)
    (hoff : st.cr0 &&& 0x80000000 = 0) (hfit : V + 4 * (i + k) ≤ WORD) :
    store_loop h V val k i st = Outcome.ok () (st.fill V i k val) := by
  refine store_loop_fill h V V val (fun s => s.cr0 &&& 0x80000000 = 0) k i st hoff ?_
  intro st1 j h1 h2 h3
  refine ⟨?_, h1⟩
  rw [translate_off st1 _ h1, ContFramePool.u32_of_lt]
  omega

end Machine

namespace Machine

theorem or_fill_zero (st : Machine) (P i : Nat) : st.or_fill P i 0 = st := by
  cases st
  simp only [or_fill]
  congr 1
  funext a
  rw [if_neg (by omega)]

theorem or_fill_succ (st : Machine) (P i k : Nat) :
    (st.write (P + 4 * i) (st.mem (P + 4 * i) ||| 0b10)).or_fill P (i + 1) k
      = st.or_fill P i (k + 1) := by
  cases st
  simp only [or_fill, write]
  congr 1
  funext a
  by_cases ha : a = P + 4 * i
  · subst ha
    rw [if_neg (by omega), if_pos rfl, if_pos (by omega)]
  · by_cases hin : P + 4 * (i + 1) ≤ a ∧ a < P + 4 * (i + 1 + k) ∧ (a - P) % 4 = 0
    · rw [if_pos hin, if_neg ha, if_pos (by omega)]
    · rw [if_neg hin, if_neg ha, if_neg (by omega)]

@[simp] theorem or_fill_cr0 (st : Machine) (P i k : Nat) : (st.or_fill P i k).cr0 = st.cr0 :=
  rfl

theorem or_fill_mem_in (st : Machine) (P i k j : Nat) (h1 : i ≤ j) (h2 : j < i + k) :
    (st.or_fill P i k).mem (P + 4 * j) = st.mem (P + 4 * j) ||| 0b10 := by
  simp only [or_fill]
  rw [if_pos (by omega)]

theorem or_fill_mem_out (st : Machine) (P i k a : Nat)
    (h : a < P + 4 * i ∨ P + 4 * (i + k) ≤ a) : (st.or_fill P i k).mem a = st.mem a := by
  simp only [or_fill]
  rw [if_neg (by omega)]

theorem pool_get_frames_ok (st : Machine) (pool n f : Nat) (p q : ContFramePool)
    (hp : st.frame_pools[pool]? = some p) (hm : st.bitmap_direct p p.n_frames)
    (hg : ContFramePool.get_frames 0 p n = Outcome.ok f q) :
    st.pool_get_frames pool n
      = Outcome.ok f (st.set_pool pool q) := by
  simp [pool_get_frames, hp, hg, if_pos hm]

/-- With paging off every bitmap is reached. -/
theorem bitmap_direct_off (st : Machine) (p : ContFramePool) (frames : Nat)
    (hoff : st.cr0 &&& 0x80000000 = 0) : st.bitmap_direct p frames := by
  intro j _
  exact translate_off st _ hoff

end Machine

namespace PageTable

/-- With paging off the constructor's directory loop sets bit 1 of the words it addresses. -/
theorem construct_dir_loop_off (h : Handler) (D : Nat) :
    ∀ k i st, st.cr0 &&& 0x80000000 = 0 → D + 4 * (i + k) ≤ WORD →
      construct_dir_loop h D k i st = Outcome.ok () (st.or_fill D i k) := by
  intro k
  induction k with
  | zero =>
    intro i st _ _
    rw [construct_dir_loop, Machine.or_fill_zero]
  | succ k ih =>
    intro i st hoff hfit
    have hu : u32 (D + 4 * i) = D + 4 * i := ContFramePool.u32_of_lt _ (by omega)
    have ht := Machine.translate_off st (D + 4 * i) hoff
    rw [construct_dir_loop, hu, Machine.load_of_translate h st _ _ ht, Outcome.bind_ok,
      Machine.store_of_translate h st _ _ _ ht, Outcome.bind_ok,
      ih (i + 1) (st.write (D + 4 * i) (st.mem (D + 4 * i) ||| 0b10)) hoff (by omega),
      Machine.or_fill_succ]

end PageTable

theorem entry_bits_of_mod (y : Nat) (h : y % 8 = 3) :
    entry_present y ∧ entry_writable y ∧ ¬ entry_user y := by
  have h7 : y &&& 7 = 3 := by
    have := Nat.and_pow_two_sub_one_eq_mod y 3
    rw [h] at this
    exact this
  have e1 : y &&& 1 = 1 := by
    have : y &&& 1 = (y &&& 7) &&& 1 := by rw [Nat.and_assoc]; rfl
    rw [this, h7]; rfl
  have e2 : y &&& 2 = 2 := by
    have : y &&& 2 = (y &&& 7) &&& 2 := by rw [Nat.and_assoc]; rfl
    rw [this, h7]; rfl
  have e4 : y &&& 4 = 0 := by
    have : y &&& 4 = (y &&& 7) &&& 4 := by rw [Nat.and_assoc]; rfl
    rw [this, h7]; rfl
  unfold entry_present entry_writable entry_user
  rw [e1, e2, e4]
  decide

/-- An entry `x | 0b11` built from a page-aligned address `x` below 4 GiB. -/
theorem entry_of_aligned (x : Nat) (hx : x % 4096 = 0) (hw : x < WORD) :
    entry_frame (x ||| 0b11) = x ∧ entry_present (x ||| 0b11) ∧
      entry_writable (x ||| 0b11) ∧ ¬ entry_user (x ||| 0b11) := by
  rw [or_three x hx]
  refine ⟨?_, entry_bits_of_mod _ (by omega)⟩
  unfold entry_frame
  rw [and_hi]
  unfold WORD at hw
  omega

namespace Machine

@[simp] theorem set_pool_mem (st : Machine) (k : Nat) (q : ContFramePool) :
    (st.set_pool k q).mem = st.mem := rfl

@[simp] theorem set_pool_cr0 (st : Machine) (k : Nat) (q : ContFramePool) :
    (st.set_pool k q).cr0 = st.cr0 := rfl

@[simp] theorem set_pool_cr3 (st : Machine) (k : Nat) (q : ContFramePool) :
    (st.set_pool k q).cr3 = st.cr3 := rfl

@[simp] theorem set_pool_shared_size (st : Machine) (k : Nat) (q : ContFramePool) :
    (st.set_pool k q).shared_size = st.shared_size := rfl

@[simp] theorem set_pool_process_mem_pool (st : Machine) (k : Nat) (q : ContFramePool) :
    (st.set_pool k q).process_mem_pool = st.process_mem_pool := rfl

@[simp] theorem set_pool_frame_pools (st : Machine) (k : Nat) (q : ContFramePool) :
    (st.set_pool k q).frame_pools = st.frame_pools.set k q := rfl

theorem store_off (h : Handler) (st : Machine) (v x : Nat)
    (hoff : st.cr0 &&& 0x80000000 = 0) : st.store h v x = Outcome.ok () (st.write v x) :=
  store_of_translate h st v v x (translate_off st v hoff)

end Machine

namespace PageTable

/-- The constructor run with paging off, both pools supplying a frame: it returns, and the
state it leaves is the input state with the two pool objects updated and the four groups of
words written in the order of the source. -/
theorem construct_off (h : Handler) (st : Machine) (kp kq pp pq : ContFramePool) (f g : Nat)
    (hoff : st.cr0 &&& 0x80000000 = 0)
    (hk : st.frame_pools[st.kernel_mem_pool]? = some kp)
    (hkf : ContFramePool.get_frames 0 kp 1 = Outcome.ok f kq)
    (hp : (st.frame_pools.set st.kernel_mem_pool kq)[st.process_mem_pool]? = some pp)
    (hpf : ContFramePool.get_frames 0 pp 1 = Outcome.ok g pq)
    (hn : PAGE_SIZE ≤ st.shared_size)
    (hD : f * PAGE_SIZE + 4 * (st.shared_size / PAGE_SIZE) ≤ WORD)
    (hT : g * PAGE_SIZE + 4 * (st.shared_size / PAGE_SIZE) ≤ WORD) :
    construct h st = Outcome.ok { page_directory := f * PAGE_SIZE }
      (st.constructed kq pq f g) := by
  have hn1 : 1 ≤ st.shared_size / PAGE_SIZE := by
    unfold PAGE_SIZE at hn ⊢
    omega
  have hf : u32 (f * PAGE_SIZE) = f * PAGE_SIZE := ContFramePool.u32_of_lt _ (by omega)
  have hg : u32 (g * PAGE_SIZE) = g * PAGE_SIZE := ContFramePool.u32_of_lt _ (by omega)
  have hs : sub32 (st.shared_size / PAGE_SIZE) 1 = st.shared_size / PAGE_SIZE - 1 :=
    ContFramePool.sub32_of_le _ _ hn1
  have hu : u32 (f * PAGE_SIZE + 4 * (st.shared_size / PAGE_SIZE - 1))
      = f * PAGE_SIZE + 4 * (st.shared_size / PAGE_SIZE - 1) :=
    ContFramePool.u32_of_lt _ (by omega)
  have hu0 : u32 (f * PAGE_SIZE + 4 * 0) = f * PAGE_SIZE := by
    rw [Nat.mul_zero, Nat.add_zero, hf]
  rw [construct, Machine.pool_get_frames_ok st _ 1 f kp kq hk
    (Machine.bitmap_direct_off _ _ _ hoff) hkf, Outcome.bind_ok]
  simp only [Machine.set_pool_shared_size, Machine.set_pool_process_mem_pool, hf, hs, hu]
  rw [Machine.store_off h (st.set_pool st.kernel_mem_pool kq) _ _ hoff, Outcome.bind_ok]
  simp only [Machine.write_process_mem_pool, Machine.set_pool_process_mem_pool]
  rw [Machine.pool_get_frames_ok
      ((st.set_pool st.kernel_mem_pool kq).write
        (f * PAGE_SIZE + 4 * (st.shared_size / PAGE_SIZE - 1)) (f * PAGE_SIZE ||| 0b11))
      _ 1 g pp pq hp (Machine.bitmap_direct_off _ _ _ hoff) hpf, Outcome.bind_ok]
  simp only [hg, hu0]
  rw [Machine.store_off h
      (((st.set_pool st.kernel_mem_pool kq).write
        (f * PAGE_SIZE + 4 * (st.shared_size / PAGE_SIZE - 1))
        (f * PAGE_SIZE ||| 0b11)).set_pool st.process_mem_pool pq) _ _ hoff, Outcome.bind_ok]
  rw [construct_dir_loop_off h _ _ _
      ((((st.set_pool st.kernel_mem_pool kq).write
        (f * PAGE_SIZE + 4 * (st.shared_size / PAGE_SIZE - 1))
        (f * PAGE_SIZE ||| 0b11)).set_pool st.process_mem_pool pq).write
        (f * PAGE_SIZE) (g * PAGE_SIZE ||| 0b11)) hoff (by omega), Outcome.bind_ok]
  rw [construct_table_loop, Machine.store_loop_off h _ _ _ _
      (((((st.set_pool st.kernel_mem_pool kq).write
        (f * PAGE_SIZE + 4 * (st.shared_size / PAGE_SIZE - 1))
        (f * PAGE_SIZE ||| 0b11)).set_pool st.process_mem_pool pq).write
        (f * PAGE_SIZE) (g * PAGE_SIZE ||| 0b11)).or_fill (f * PAGE_SIZE) 1
        (st.shared_size / PAGE_SIZE - 1 - 1)) hoff (by omega), Outcome.bind_ok]
  rfl

end PageTable

namespace Machine

theorem constructed_mem (st : Machine) (kq pq : ContFramePool) (f g a : Nat) :
    (st.constructed kq pq f g).mem a =
      (fill (or_fill (write (set_pool (write (set_pool st st.kernel_mem_pool kq)
          (f * PAGE_SIZE + 4 * (st.shared_size / PAGE_SIZE - 1)) (f * PAGE_SIZE ||| 0b11))
          st.process_mem_pool pq) (f * PAGE_SIZE) (g * PAGE_SIZE ||| 0b11))
          (f * PAGE_SIZE) 1 (st.shared_size / PAGE_SIZE - 1 - 1))
        (g * PAGE_SIZE) 0 (st.shared_size / PAGE_SIZE)
        (fun i => u32 (PAGE_SIZE * i) ||| 0b11)).mem a := rfl

theorem constructed_mem_table (st : Machine) (kq pq : ContFramePool) (f g i : Nat)
    (hi : i < st.shared_size / PAGE_SIZE) :
    (st.constructed kq pq f g).mem (g * PAGE_SIZE + 4 * i) = u32 (PAGE_SIZE * i) ||| 0b11 := by
  rw [constructed_mem, fill_mem_in _ _ _ _ _ i (Nat.zero_le _) (by omega)]

theorem constructed_mem_dir0 (st : Machine) (kq pq : ContFramePool) (f g : Nat)
    (hsep : f * PAGE_SIZE < g * PAGE_SIZE ∨
      g * PAGE_SIZE + 4 * (st.shared_size / PAGE_SIZE) ≤ f * PAGE_SIZE) :
    (st.constructed kq pq f g).mem (f * PAGE_SIZE) = g * PAGE_SIZE ||| 0b11 := by
  rw [constructed_mem, fill_mem_out _ _ _ _ _ _ (by omega),
    or_fill_mem_out _ _ _ _ _ (by omega)]
  exact write_mem_same _ _ _

end Machine

/-! ## Addresses of the recursive windows -/

namespace Machine

theorem pde_addr_eq (st : Machine) (v : Nat) :
    st.pde_addr v = st.cr3 / 4096 % 1048576 * 4096 + 4 * (v / 4194304 % 1024) := by
  unfold pde_addr
  rw [and_hi, and_3ff, Nat.shiftRight_eq_div_pow, Nat.shiftLeft_eq, or_low _ _ (by omega)]
  omega

theorem pte_addr_eq (e v : Nat) :
    pte_addr e v = e / 4096 % 1048576 * 4096 + 4 * (v / 4096 % 1024) := by
  unfold pte_addr
  rw [and_hi, and_3ff, Nat.shiftRight_eq_div_pow, Nat.shiftLeft_eq, or_low _ _ (by omega)]
  omega

theorem entry_frame_eq (e : Nat) : entry_frame e = e / 4096 % 1048576 * 4096 := and_hi e

theorem phys_eq (e v : Nat) :
    entry_frame e ||| (v &&& 0xFFF) = e / 4096 % 1048576 * 4096 + v % 4096 := by
  rw [entry_frame_eq, and_fff, or_low _ _ (Nat.mod_lt _ (by decide))]

/-- The address `handle_fault` forms for the leaf entry of `a`: the table window of the
directory index of `a`, at the table index of `a`. -/
theorem leaf_vaddr_eq (a : Nat) (ha : a < WORD) :
    u32 ((u32 (0x3FF <<< 22) ||| u32 ((a >>> 22) <<< 12))
        + 4 * ((a &&& (0x03FF <<< 12)) >>> 12))
      = 0xFFC00000 + a / 4194304 * 4096 + 4 * (a / 4096 % 1024) := by
  unfold WORD at ha
  have h1 : u32 (0x3FF <<< 22) = 0xFFC00000 := by decide
  have h2 : u32 ((a >>> 22) <<< 12) = a / 4194304 * 4096 := by
    rw [Nat.shiftRight_eq_div_pow, Nat.shiftLeft_eq]
    exact ContFramePool.u32_of_lt _ (by unfold WORD; omega)
  rw [h1, h2, and_mid, or_window _ (by omega)]
  exact ContFramePool.u32_of_lt _ (by unfold WORD; omega)

/-- The address `handle_fault` forms for the directory entry of `a`: the directory window at
the directory index of `a`. -/
theorem dir_vaddr_eq (a : Nat) (ha : a < WORD) :
    u32 (u32 (0xFFFFF <<< 12) + 4 * (a >>> 22)) = 0xFFFFF000 + 4 * (a / 4194304) := by
  unfold WORD at ha
  have h1 : u32 (0xFFFFF <<< 12) = 0xFFFFF000 := by decide
  rw [h1, Nat.shiftRight_eq_div_pow]
  exact ContFramePool.u32_of_lt _ (by unfold WORD; omega)

/-- The hardware walk of the leaf-entry address lands on the table entry of `a`, when the
self-map slot is present and holds the directory's frame and the directory entry of `a` is
present. -/
theorem translate_leaf_window (st : Machine) (a : Nat) (ha : a < WORD) (hon : st.paging_on)
    (hself1 : entry_present (st.mem (st.pde_addr 0xFFC00000)))
    (hself2 : entry_frame (st.mem (st.pde_addr 0xFFC00000)) = entry_frame st.cr3)
    (hpde : entry_present (st.mem (st.pde_addr a))) :
    st.translate (0xFFC00000 + a / 4194304 * 4096 + 4 * (a / 4096 % 1024))
      = some (pte_addr (st.mem (st.pde_addr a)) a) := by
  unfold WORD at ha
  have e1 : st.pde_addr (0xFFC00000 + a / 4194304 * 4096 + 4 * (a / 4096 % 1024))
      = st.pde_addr 0xFFC00000 := by
    rw [pde_addr_eq, pde_addr_eq]
    omega
  have e2 : pte_addr (st.mem (st.pde_addr 0xFFC00000))
      (0xFFC00000 + a / 4194304 * 4096 + 4 * (a / 4096 % 1024)) = st.pde_addr a := by
    revert hself2
    generalize st.mem (st.pde_addr 0xFFC00000) = es
    intro hself2
    rw [entry_frame_eq, entry_frame_eq] at hself2
    rw [pte_addr_eq, pde_addr_eq, hself2]
    omega
  have e3 : entry_frame (st.mem (st.pde_addr a)) |||
      ((0xFFC00000 + a / 4194304 * 4096 + 4 * (a / 4096 % 1024)) &&& 0xFFF)
      = pte_addr (st.mem (st.pde_addr a)) a := by
    generalize st.mem (st.pde_addr a) = pde
    rw [phys_eq, pte_addr_eq]
    omega
  rw [translate_on st _ hon (by rw [e1]; exact hself1) (by rw [e1, e2]; exact hpde), e1, e2,
    e3]

/-- The hardware walk of the directory-entry address lands on the directory entry of `a`,
when the self-map slot is present and holds the directory's frame. -/
theorem translate_dir_window (st : Machine) (a : Nat) (ha : a < WORD) (hon : st.paging_on)
    (hself1 : entry_present (st.mem (st.pde_addr 0xFFC00000)))
    (hself2 : entry_frame (st.mem (st.pde_addr 0xFFC00000)) = entry_frame st.cr3) :
    st.translate (0xFFFFF000 + 4 * (a / 4194304)) = some (st.pde_addr a) := by
  unfold WORD at ha
  have e1 : st.pde_addr (0xFFFFF000 + 4 * (a / 4194304)) = st.pde_addr 0xFFC00000 := by
    rw [pde_addr_eq, pde_addr_eq]
    omega
  have e2 : pte_addr (st.mem (st.pde_addr 0xFFC00000)) (0xFFFFF000 + 4 * (a / 4194304))
      = st.pde_addr 0xFFC00000 := by
    revert hself2
    generalize st.mem (st.pde_addr 0xFFC00000) = es
    intro hself2
    rw [entry_frame_eq, entry_frame_eq] at hself2
    rw [pte_addr_eq, pde_addr_eq, hself2]
    omega
  have e3 : entry_frame (st.mem (st.pde_addr 0xFFC00000)) |||
      ((0xFFFFF000 + 4 * (a / 4194304)) &&& 0xFFF) = st.pde_addr a := by
    revert hself2
    generalize st.mem (st.pde_addr 0xFFC00000) = es
    intro hself2
    rw [entry_frame_eq, entry_frame_eq] at hself2
    rw [phys_eq, pde_addr_eq, hself2]
    omega
  rw [translate_on st _ hon (by rw [e1]; exact hself1) (by rw [e1, e2]; exact hself1), e1, e2,
    e3]

end Machine

namespace PageTable

/-- What `handle_fault` does on a not-present fault at `a` whose directory entry is present,
when the directory is readable at its physical address, the self-map slot holds the
directory and the process pool hands out frame `g`: the table entry of `a` becomes
`g * PAGE_SIZE | 0b11`; nothing else in memory changes. -/
theorem handle_fault_body_leaf (nested : Handler) (st : Machine) (err a g : Nat)
    (p q : ContFramePool)
    (herr : err &&& 1 = 0) (ha : a < WORD) (hon : st.paging_on)
    (hdir : st.translate (u32 (st.cr3 + 4 * (a >>> 22))) = some (st.pde_addr a))
    (hpde : entry_present (st.mem (st.pde_addr a)))
    (hself1 : entry_present (st.mem (st.pde_addr 0xFFC00000)))
    (hself2 : entry_frame (st.mem (st.pde_addr 0xFFC00000)) = entry_frame st.cr3)
    (hp : st.frame_pools[st.process_mem_pool]? = some p)
    (hg : ContFramePool.get_frames 0 p 1 = Outcome.ok g q)
    (hm : st.bitmap_direct p p.n_frames) :
    handle_fault_body nested st err a =
      Outcome.ok ()
        ((st.set_pool st.process_mem_pool q).write (Machine.pte_addr (st.mem (st.pde_addr a)) a)
          (u32 (g * PAGE_SIZE) ||| 0b11)) := by
  have hpde1 : ¬ (st.mem (st.pde_addr a) &&& 1 = 0) := hpde
  have ht : (st.set_pool st.process_mem_pool q).translate
      (0xFFC00000 + a / 4194304 * 4096 + 4 * (a / 4096 % 1024))
      = some (Machine.pte_addr (st.mem (st.pde_addr a)) a) :=
    Machine.translate_leaf_window (st.set_pool st.process_mem_pool q) a ha hon hself1 hself2 hpde
  rw [handle_fault_body, if_pos herr, Machine.load_of_translate nested st _ _ hdir,
    Outcome.bind_ok, if_neg hpde1, Outcome.bind_ok,
    Machine.pool_get_frames_ok st _ 1 g p q hp hm hg, Outcome.bind_ok,
    Machine.leaf_vaddr_eq a ha, Machine.store_of_translate nested _ _ _ _ ht]

end PageTable

namespace ContFramePool

/-- A request for one frame on a pool with a free frame: the lowest free frame is handed out
and becomes `HeadOfSequence`; nothing else in the pool changes but the count. -/
theorem get_frames_one (start0 : Nat) (p : ContFramePool) (hcount : 1 ≤ p.n_free_frames)
    (hword : p.base_frame_no + p.n_frames ≤ WORD)
    (hrun : ∃ j, j + 1 ≤ p.n_frames ∧ all_free p j 1) :
    ∃ i q, i < p.n_frames ∧ get_state p i = FrameState.Free ∧
      get_frames start0 p 1 = Outcome.ok (p.base_frame_no + i) q ∧
      get_state q i = FrameState.HoS ∧
      (∀ t, t ≠ i → get_state q t = get_state p t) ∧
      q.n_free_frames + 1 = p.n_free_frames ∧
      q.base_frame_no = p.base_frame_no ∧ q.n_frames = p.n_frames ∧
      ∀ j, j < i → get_state p j ≠ FrameState.Free := by
  obtain ⟨i, hfit, hfree, hlow⟩ := exists_lowest_run p 1 hrun
  refine ⟨i, { get_frames_mark i 1 0 p with n_free_frames := sub32 p.n_free_frames 1 },
    by omega, ?_, ?_, ?_, ?_, ?_, ?_, ?_, ?_⟩
  · have := hfree 0 (by omega)
    rwa [Nat.add_zero] at this
  · rw [get_frames_found start0 p 1 i (Nat.le_refl _) hcount hfit hfree hlow,
      u32_of_lt _ (by omega), Nat.add_comm]
  · show get_state (get_frames_mark i 1 0 p) i = _
    rw [get_frames_mark_state, if_pos (by omega), if_pos rfl]
  · intro t ht
    show get_state (get_frames_mark i 1 0 p) t = _
    rw [get_frames_mark_state, if_neg (by omega)]
  · show sub32 p.n_free_frames 1 + 1 = _
    rw [sub32_of_le _ _ hcount]; omega
  · exact (get_frames_mark_fields i 1 0 p).1
  · exact (get_frames_mark_fields i 1 0 p).2.1
  · intro j hj hfj
    refine hlow j hj ?_
    intro k hk
    have hk0 : k = 0 := by omega
    subst hk0
    exact hfj

end ContFramePool

theorem u32_page_aligned (g : Nat) :
    u32 (g * PAGE_SIZE) % 4096 = 0 ∧ u32 (g * PAGE_SIZE) < WORD := by
  unfold u32 WORD PAGE_SIZE
  omega

namespace PageTable

theorem handle_fault_eq_body (d : Nat) :
    ∃ nested, handle_fault d = handle_fault_body nested := by
  cases d with
  | zero => exact ⟨_, rfl⟩
  | succ d => exact ⟨_, rfl⟩

/-- A fault whose error code has bit 0 set: the handler body does nothing. -/
theorem handle_fault_body_protection (nested : Handler) (st : Machine) (err a : Nat)
    (herr : err &&& 1 ≠ 0) : handle_fault_body nested st err a = Outcome.ok () st := by
  rw [handle_fault_body, if_neg herr]

end PageTable

namespace Machine

/-- After the leaf entry of a never-backed address `a` has been set to a present entry `v`,
the hardware walk of `a` resolves. -/
theorem translate_after_leaf (st : Machine) (a v : Nat) (hon : st.paging_on)
    (hpde : entry_present (st.mem (st.pde_addr a)))
    (hnever : st.translate a = none) (hv : entry_present v) :
    (st.write (pte_addr (st.mem (st.pde_addr a)) a) v).translate a
      = some (entry_frame v ||| (a &&& 0xFFF)) := by
  have hne : st.pde_addr a ≠ pte_addr (st.mem (st.pde_addr a)) a := by
    intro heq
    have hpte : entry_present (st.mem (pte_addr (st.mem (st.pde_addr a)) a)) := by
      rw [← heq]; exact hpde
    rw [translate_on st a hon hpde hpte] at hnever
    cases hnever
  have h1 : (st.write (pte_addr (st.mem (st.pde_addr a)) a) v).mem (st.pde_addr a)
      = st.mem (st.pde_addr a) := write_mem_other _ _ _ _ hne
  have hon1 : (st.write (pte_addr (st.mem (st.pde_addr a)) a) v).paging_on := hon
  rw [translate_on _ a hon1 (by rw [write_pde_addr, h1]; exact hpde)
    (by rw [write_pde_addr, h1, write_mem_same]; exact hv), write_pde_addr, h1, write_mem_same]

end Machine

namespace Machine

/-- The hardware walk inside one mapped page: the words of the page at `V` resolve to the
words of the frame its table entry names. -/
theorem translate_page (st : Machine) (V j e1 e2 : Nat) (hV : V % 4096 = 0) (hj : j < 1024)
    (hon : st.paging_on)
    (h1 : st.mem (st.pde_addr V) = e1) (he1 : entry_present e1)
    (h2 : st.mem (pte_addr e1 V) = e2) (he2 : entry_present e2) :
    st.translate (V + 4 * j) = some (entry_frame e2 + 4 * j) := by
  have e1a : st.pde_addr (V + 4 * j) = st.pde_addr V := by
    rw [pde_addr_eq, pde_addr_eq]
    omega
  have e2a : pte_addr e1 (V + 4 * j) = pte_addr e1 V := by
    rw [pte_addr_eq, pte_addr_eq]
    omega
  have e3 : entry_frame e2 ||| ((V + 4 * j) &&& 0xFFF) = entry_frame e2 + 4 * j := by
    rw [phys_eq, entry_frame_eq]
    omega
  rw [translate_on st _ hon (by rw [e1a, h1]; exact he1)
    (by rw [e1a, h1, e2a, h2]; exact he2), e1a, h1, e2a, h2, e3]

/-- The table-initialisation loop of `handle_fault` when the page at the virtual address `T`
is mapped to the frame at `P` and the two entries of that walk lie outside the frame: the
1024 stores land in the frame at `P`. -/
theorem store_loop_page (h : Handler) (st : Machine) (T e1 e2 : Nat) (val : Nat → Nat)
    (hT : T % 4096 = 0) (hTw : T < WORD) (hon : st.paging_on)
    (h1 : st.mem (st.pde_addr T) = e1) (he1 : entry_present e1)
    (h2 : st.mem (pte_addr e1 T) = e2) (he2 : entry_present e2)
    (hs1 : st.pde_addr T < entry_frame e2 ∨ entry_frame e2 + 4096 ≤ st.pde_addr T)
    (hs2 : pte_addr e1 T < entry_frame e2 ∨ entry_frame e2 + 4096 ≤ pte_addr e1 T) :
    store_loop h T val 1024 0 st = Outcome.ok () (st.fill (entry_frame e2) 0 1024 val) := by
  refine store_loop_fill h T (entry_frame e2) val
    (fun s => s.paging_on ∧ s.cr3 = st.cr3 ∧ s.mem (st.pde_addr T) = e1 ∧
      s.mem (pte_addr e1 T) = e2) 1024 0 st ⟨hon, rfl, h1, h2⟩ ?_
  intro s j ⟨hson, hcr3, hm1, hm2⟩ _ hj
  have hpd : s.pde_addr T = st.pde_addr T := by
    unfold pde_addr
    rw [hcr3]
  have hu : u32 (T + 4 * j) = T + 4 * j :=
    ContFramePool.u32_of_lt _ (by unfold WORD at hTw ⊢; omega)
  refine ⟨?_, hson, hcr3, ?_, ?_⟩
  · rw [hu]
    exact translate_page s T j e1 e2 hT (by omega) hson (by rw [hpd]; exact hm1) he1 hm2 he2
  · rw [write_mem_other _ _ _ _ (by omega)]
    exact hm1
  · rw [write_mem_other _ _ _ _ (by omega)]
    exact hm2

end Machine

namespace Machine

@[simp] theorem fill_process_mem_pool (st : Machine) (P i k : Nat) (val : Nat → Nat) :
    (st.fill P i k val).process_mem_pool = st.process_mem_pool := rfl

theorem set_pool_get (st : Machine) (k : Nat) (p q : ContFramePool)
    (hp : st.frame_pools[k]? = some p) : (st.set_pool k q).frame_pools[k]? = some q := by
  have hlt : k < st.frame_pools.length := by
    rcases Nat.lt_or_ge k st.frame_pools.length with h | h
    · exact h
    · rw [List.getElem?_eq_none h] at hp
      cases hp
  simp [set_pool, hlt]

end Machine

namespace PageTable

/-- What `handle_fault` does on a not-present fault at `a` whose directory entry is absent,
when the directory is readable at its physical address, the self-map slot holds the
directory, the process pool hands out frame `f` and then frame `g`, and the page at the
virtual address `T = f * PAGE_SIZE` is mapped to the frame `P` named by the table entry
`e2`: the directory entry of `a` becomes `T | 0b11`, the 1024 words of the frame at `P`
become `0b100`, and the word of the frame at `T` at the table index of `a` becomes
`g * PAGE_SIZE | 0b11`. -/
theorem handle_fault_body_dir (nested : Handler) (st : Machine) (err a f g e1 e2 : Nat)
    (p q1 q2 : ContFramePool)
    (herr : err &&& 1 = 0) (ha : a < WORD) (hon : st.paging_on)
    (hdir : st.translate (u32 (st.cr3 + 4 * (a >>> 22))) = some (st.pde_addr a))
    (hpde : ¬ entry_present (st.mem (st.pde_addr a)))
    (hself1 : entry_present (st.mem (st.pde_addr 0xFFC00000)))
    (hself2 : entry_frame (st.mem (st.pde_addr 0xFFC00000)) = entry_frame st.cr3)
    (hp : st.frame_pools[st.process_mem_pool]? = some p)
    (hg1 : ContFramePool.get_frames 0 p 1 = Outcome.ok f q1)
    (hg2 : ContFramePool.get_frames 0 q1 1 = Outcome.ok g q2)
    (h1 : st.mem (st.pde_addr (u32 (f * PAGE_SIZE))) = e1) (he1 : entry_present e1)
    (h2 : st.mem (Machine.pte_addr e1 (u32 (f * PAGE_SIZE))) = e2) (he2 : entry_present e2)
    (hn1 : st.pde_addr (u32 (f * PAGE_SIZE)) ≠ st.pde_addr a)
    (hn2 : Machine.pte_addr e1 (u32 (f * PAGE_SIZE)) ≠ st.pde_addr a)
    (hs1 : st.pde_addr (u32 (f * PAGE_SIZE)) < entry_frame e2 ∨
      entry_frame e2 + 4096 ≤ st.pde_addr (u32 (f * PAGE_SIZE)))
    (hs2 : Machine.pte_addr e1 (u32 (f * PAGE_SIZE)) < entry_frame e2 ∨
      entry_frame e2 + 4096 ≤ Machine.pte_addr e1 (u32 (f * PAGE_SIZE)))
    (hs3 : st.pde_addr a < entry_frame e2 ∨ entry_frame e2 + 4096 ≤ st.pde_addr a)
    (hs4 : st.pde_addr 0xFFC00000 < entry_frame e2 ∨
      entry_frame e2 + 4096 ≤ st.pde_addr 0xFFC00000)
    (hm1 : st.bitmap_direct p p.n_frames)
    (hm2 : (((st.set_pool st.process_mem_pool q1).write (st.pde_addr a)
        (u32 (f * PAGE_SIZE) ||| 0b11)).fill (entry_frame e2) 0 1024
        (fun _ => 0b100)).bitmap_direct q1 q1.n_frames) :
    handle_fault_body nested st err a =
      Outcome.ok ()
        (((((st.set_pool st.process_mem_pool q1).write (st.pde_addr a)
              (u32 (f * PAGE_SIZE) ||| 0b11)).fill (entry_frame e2) 0 1024
              (fun _ => 0b100)).set_pool st.process_mem_pool q2).write
          (Machine.pte_addr (u32 (f * PAGE_SIZE) ||| 0b11) a)
          (u32 (g * PAGE_SIZE) ||| 0b11)) := by
  have hal := u32_page_aligned f
  have hT := entry_of_aligned (u32 (f * PAGE_SIZE)) hal.1 hal.2
  have hpde0 : st.mem (st.pde_addr a) &&& 1 = 0 := Classical.not_not.mp hpde
  have hne : st.pde_addr 0xFFC00000 ≠ st.pde_addr a := by
    intro heq
    rw [heq] at hself1
    exact hpde hself1
  -- the store of the directory entry
  have ht3 : (st.set_pool st.process_mem_pool q1).translate (0xFFFFF000 + 4 * (a / 4194304))
      = some (st.pde_addr a) :=
    Machine.translate_dir_window (st.set_pool st.process_mem_pool q1) a ha hon hself1 hself2
  -- the initialisation loop
  have hloop : handle_fault_init nested (u32 (f * PAGE_SIZE)) 1024 0
      ((st.set_pool st.process_mem_pool q1).write (st.pde_addr a)
        (u32 (f * PAGE_SIZE) ||| 0b11))
      = Outcome.ok ()
        (((st.set_pool st.process_mem_pool q1).write (st.pde_addr a)
          (u32 (f * PAGE_SIZE) ||| 0b11)).fill (entry_frame e2) 0 1024 (fun _ => 0b100)) := by
    refine Machine.store_loop_page nested _ (u32 (f * PAGE_SIZE)) e1 e2 _ hal.1 hal.2 hon ?_ he1
      ?_ he2 hs1 hs2
    · show Machine.mem _ (st.pde_addr (u32 (f * PAGE_SIZE))) = e1
      rw [Machine.write_mem_other _ _ _ _ hn1]
      exact h1
    · rw [Machine.write_mem_other _ _ _ _ hn2]
      exact h2
  -- the second frame
  have hp2 : (((st.set_pool st.process_mem_pool q1).write (st.pde_addr a)
      (u32 (f * PAGE_SIZE) ||| 0b11)).fill (entry_frame e2) 0 1024
      (fun _ => 0b100)).frame_pools[st.process_mem_pool]? = some q1 :=
    Machine.set_pool_get st _ p q1 hp
  -- the store of the leaf entry
  have hmA : ((((st.set_pool st.process_mem_pool q1).write (st.pde_addr a)
      (u32 (f * PAGE_SIZE) ||| 0b11)).fill (entry_frame e2) 0 1024
      (fun _ => 0b100)).set_pool st.process_mem_pool q2).mem (st.pde_addr a)
      = u32 (f * PAGE_SIZE) ||| 0b11 := by
    rw [Machine.set_pool_mem, Machine.fill_mem_out _ _ _ _ _ _ (by omega)]
    exact Machine.write_mem_same _ _ _
  have hmS : ((((st.set_pool st.process_mem_pool q1).write (st.pde_addr a)
      (u32 (f * PAGE_SIZE) ||| 0b11)).fill (entry_frame e2) 0 1024
      (fun _ => 0b100)).set_pool st.process_mem_pool q2).mem (st.pde_addr 0xFFC00000)
      = st.mem (st.pde_addr 0xFFC00000) := by
    rw [Machine.set_pool_mem, Machine.fill_mem_out _ _ _ _ _ _ (by omega),
      Machine.write_mem_other _ _ _ _ hne]
    rfl
  have ht6 : ((((st.set_pool st.process_mem_pool q1).write (st.pde_addr a)
      (u32 (f * PAGE_SIZE) ||| 0b11)).fill (entry_frame e2) 0 1024
      (fun _ => 0b100)).set_pool st.process_mem_pool q2).translate
      (0xFFC00000 + a / 4194304 * 4096 + 4 * (a / 4096 % 1024))
      = some (Machine.pte_addr (u32 (f * PAGE_SIZE) ||| 0b11) a) := by
    have := Machine.translate_leaf_window
      ((((st.set_pool st.process_mem_pool q1).write (st.pde_addr a)
        (u32 (f * PAGE_SIZE) ||| 0b11)).fill (entry_frame e2) 0 1024
        (fun _ => 0b100)).set_pool st.process_mem_pool q2) a ha hon
      (by
        show entry_present (Machine.mem _ (st.pde_addr 0xFFC00000))
        rw [hmS]; exact hself1)
      (by
        show entry_frame (Machine.mem _ (st.pde_addr 0xFFC00000)) = entry_frame st.cr3
        rw [hmS]; exact hself2)
      (by
        show entry_present (Machine.mem _ (st.pde_addr a))
        rw [hmA]; exact hT.2.1)
    rw [this]
    show some (Machine.pte_addr (Machine.mem _ (st.pde_addr a)) a) = _
    rw [hmA]
  rw [handle_fault_body, if_pos herr, Machine.load_of_translate nested st _ _ hdir,
    Outcome.bind_ok, if_pos hpde0, Machine.pool_get_frames_ok st _ 1 f p q1 hp hm1 hg1,
    Outcome.bind_ok, Machine.dir_vaddr_eq a ha,
    Machine.store_of_translate nested _ _ _ _ ht3, Outcome.bind_ok, hloop, Outcome.bind_ok]
  simp only [Machine.fill_process_mem_pool, Machine.write_process_mem_pool,
    Machine.set_pool_process_mem_pool]
  rw [Machine.pool_get_frames_ok _ _ 1 g q1 q2 hp2 hm2 hg2, Outcome.bind_ok,
    Machine.leaf_vaddr_eq a ha, Machine.store_of_translate nested _ _ _ _ ht6]

end PageTable

/-! ## What the handler and `free_page` leave alone -/

namespace Outcome

theorem bind_state_keeps {σ α β γ : Type} (π : σ → γ) (o : Outcome σ α)
    (k : α → σ → Outcome σ β) (c : γ) (ho : π o.state = c)
    (hk : ∀ v s, π s = c → π (k v s).state = c) : π (o.bind k).state = c := by
  cases o with
  | ok v s => exact hk v s ho
  | fatal s => exact ho

end Outcome

namespace Machine

theorem keeps_set_pool {α : Type} (π : Machine → α) (hπ : Keeps π) (st : Machine) (k : Nat)
    (q : ContFramePool) : π (st.set_pool k q) = π st := hπ.2 st _

theorem load_keeps {α : Type} (π : Machine → α) (h : Handler)
    (hh : HandlerKeeps π h) (st : Machine) (v : Nat) : π (st.load h v).state = π st := by
  unfold load
  cases st.translate v with
  | some pa => rfl
  | none =>
    refine Outcome.bind_state_keeps π _ _ _ (hh st 0 v) ?_
    intro _ s hs
    cases s.translate v with
    | some pa => exact hs
    | none => exact hs

theorem store_keeps {α : Type} (π : Machine → α) (hπ : Keeps π) (h : Handler)
    (hh : HandlerKeeps π h) (st : Machine) (v x : Nat) : π (st.store h v x).state = π st := by
  unfold store
  cases st.translate v with
  | some pa => exact hπ.1 st pa x
  | none =>
    refine Outcome.bind_state_keeps π _ _ _ (hh st 2 v) ?_
    intro _ s hs
    cases s.translate v with
    | some pa => exact (hπ.1 s pa x).trans hs
    | none => exact hs

theorem pool_get_frames_keeps {α : Type} (π : Machine → α) (hπ : Keeps π) (st : Machine)
    (k n : Nat) : π (st.pool_get_frames k n).state = π st := by
  unfold pool_get_frames
  split
  · rfl
  · split
    · split
      · exact hπ.2 st _
      · exact hπ.2 st _
    · rfl

theorem pool_release_frames_keeps {α : Type} (π : Machine → α) (hπ : Keeps π) (st : Machine)
    (f : Nat) : π (st.pool_release_frames f).state = π st := by
  unfold pool_release_frames
  split
  · split
    · exact hπ.2 st _
    · exact hπ.2 st _
  · rfl

theorem store_loop_keeps {α : Type} (π : Machine → α) (hπ : Keeps π) (h : Handler)
    (hh : HandlerKeeps π h) (p : Nat) (val : Nat → Nat) :
    ∀ k i st, π (store_loop h p val k i st).state = π st := by
  intro k
  induction k with
  | zero => intro i st; rfl
  | succ k ih =>
    intro i st
    rw [store_loop]
    refine Outcome.bind_state_keeps π _ _ _ (store_keeps π hπ h hh st _ _) ?_
    intro _ s hs
    rw [ih, hs]

end Machine

namespace PageTable

theorem handle_fault_body_keeps {α : Type} (π : Machine → α) (hπ : Machine.Keeps π)
    (nested : Handler) (hh : Machine.HandlerKeeps π nested) :
    Machine.HandlerKeeps π (handle_fault_body nested) := by
  intro st err a
  unfold handle_fault_body
  split
  · refine Outcome.bind_state_keeps π _ _ _ (Machine.load_keeps π nested hh st _) ?_
    intro pde s1 hs1
    refine Outcome.bind_state_keeps π _ _ _ ?_ ?_
    · split
      · refine Outcome.bind_state_keeps π _ _ _
          ((Machine.pool_get_frames_keeps π hπ s1 _ _).trans hs1) ?_
        intro f s2 hs2
        refine Outcome.bind_state_keeps π _ _ _
          ((Machine.store_keeps π hπ nested hh s2 _ _).trans hs2) ?_
        intro _ s3 hs3
        exact (Machine.store_loop_keeps π hπ nested hh _ _ _ _ s3).trans hs3
      · exact hs1
    · intro _ s4 hs4
      refine Outcome.bind_state_keeps π _ _ _
        ((Machine.pool_get_frames_keeps π hπ s4 _ _).trans hs4) ?_
      intro g s5 hs5
      exact (Machine.store_keeps π hπ nested hh s5 _ _).trans hs5
  · rfl

/-- The handler, at any depth, changes memory and pool objects only. -/
theorem handle_fault_keeps {α : Type} (π : Machine → α) (hπ : Machine.Keeps π) :
    ∀ d, Machine.HandlerKeeps π (handle_fault d) := by
  intro d
  induction d with
  | zero => exact handle_fault_body_keeps π hπ _ (fun st _ _ => rfl)
  | succ d ih => exact handle_fault_body_keeps π hπ _ ih

theorem construct_dir_loop_keeps {α : Type} (π : Machine → α) (hπ : Machine.Keeps π)
    (h : Handler) (hh : Machine.HandlerKeeps π h) (D : Nat) :
    ∀ k i st, π (construct_dir_loop h D k i st).state = π st := by
  intro k
  induction k with
  | zero => intro i st; rfl
  | succ k ih =>
    intro i st
    rw [construct_dir_loop]
    refine Outcome.bind_state_keeps π _ _ _ (Machine.load_keeps π h hh st _) ?_
    intro e s1 hs1
    refine Outcome.bind_state_keeps π _ _ _
      ((Machine.store_keeps π hπ h hh s1 _ _).trans hs1) ?_
    intro _ s2 hs2
    rw [ih, hs2]

/-- The constructor changes memory, pool objects and `paging_enabled` only. -/
theorem construct_keeps {α : Type} (π : Machine → α) (hπ : Machine.Keeps π)
    (hflag : ∀ st v, π (Machine.set_paging_enabled st v) = π st)
    (h : Handler) (hh : Machine.HandlerKeeps π h) (st : Machine) :
    π (construct h st).state = π st := by
  unfold construct
  refine Outcome.bind_state_keeps π _ _ _ (Machine.pool_get_frames_keeps π hπ st _ _) ?_
  intro f s1 hs1
  refine Outcome.bind_state_keeps π _ _ _
    ((Machine.store_keeps π hπ h hh s1 _ _).trans hs1) ?_
  intro _ s2 hs2
  refine Outcome.bind_state_keeps π _ _ _
    ((Machine.pool_get_frames_keeps π hπ s2 _ _).trans hs2) ?_
  intro g s3 hs3
  refine Outcome.bind_state_keeps π _ _ _
    ((Machine.store_keeps π hπ h hh s3 _ _).trans hs3) ?_
  intro _ s4 hs4
  refine Outcome.bind_state_keeps π _ _ _
    ((construct_dir_loop_keeps π hπ h hh _ _ _ s4).trans hs4) ?_
  intro _ s5 hs5
  refine Outcome.bind_state_keeps π _ _ _
    ((Machine.store_loop_keeps π hπ h hh _ _ _ _ s5).trans hs5) ?_
  intro _ s6 hs6
  exact (hflag s6 0).trans hs6

/-- Source function `free_page` changes memory, pool objects, CR3 and `current_page_table`
only. -/
theorem free_page_keeps {α : Type} (π : Machine → α) (hπ : Machine.Keeps π)
    (hload : ∀ this st, π (load this st) = π st) (d : Nat) (this : PageTable) (st : Machine)
    (v : Nat) : π (free_page d this st v).state = π st := by
  have hh := handle_fault_keeps π hπ d
  unfold free_page
  refine Outcome.bind_state_keeps π _ _ _ (Machine.load_keeps π _ hh st _) ?_
  intro e s1 hs1
  refine Outcome.bind_state_keeps π _ _ _
    ((Machine.pool_release_frames_keeps π hπ s1 _).trans hs1) ?_
  intro _ s2 hs2
  refine Outcome.bind_state_keeps π _ _ _ ((Machine.load_keeps π _ hh s2 _).trans hs2) ?_
  intro e2 s3 hs3
  refine Outcome.bind_state_keeps π _ _ _
    ((Machine.store_keeps π hπ _ hh s3 _ _).trans hs3) ?_
  intro _ s4 hs4
  exact (hload this s4).trans hs4

theorem keeps_paging_enabled : Machine.Keeps Machine.paging_enabled :=
  ⟨fun _ _ _ => rfl, fun _ _ => rfl⟩

theorem keeps_cr0 : Machine.Keeps Machine.cr0 := ⟨fun _ _ _ => rfl, fun _ _ => rfl⟩

theorem keeps_vm_pool_list : Machine.Keeps Machine.vm_pool_list :=
  ⟨fun _ _ _ => rfl, fun _ _ => rfl⟩

end PageTable

/-! ## The handler never reads the VM-pool registry -/

namespace Outcome

theorem bind_map_state {σ α β : Type} (f : σ → σ) (o : Outcome σ α)
    (k k1 : α → σ → Outcome σ β) (hk : ∀ v s, k v (f s) = (k1 v s).map_state f) :
    (o.map_state f).bind k = (o.bind k1).map_state f := by
  cases o with
  | ok v s => exact hk v s
  | fatal s => rfl

end Outcome

namespace Machine

theorem with_vm_pools_translate (st : Machine) (l : List VMPool) (v : Nat) :
    (st.with_vm_pools l).translate v = st.translate v := rfl

theorem load_with_vm_pools (h : Handler) (hh : IgnoresVMPools h) (st : Machine)
    (l : List VMPool) (v : Nat) :
    (st.with_vm_pools l).load h v
      = (st.load h v).map_state (fun s => s.with_vm_pools l) := by
  unfold load
  rw [with_vm_pools_translate]
  cases st.translate v with
  | some pa => rfl
  | none =>
    show (h (st.with_vm_pools l) 0 v).bind _ = _
    rw [hh]
    refine Outcome.bind_map_state _ _ _ _ ?_
    intro _ s
    show (match (s.with_vm_pools l).translate v with
      | some pa => Outcome.ok ((s.with_vm_pools l).mem pa) (s.with_vm_pools l)
      | none => Outcome.fatal (s.with_vm_pools l)) = _
    rw [with_vm_pools_translate]
    cases s.translate v with
    | some pa => rfl
    | none => rfl

theorem store_with_vm_pools (h : Handler) (hh : IgnoresVMPools h) (st : Machine)
    (l : List VMPool) (v x : Nat) :
    (st.with_vm_pools l).store h v x
      = (st.store h v x).map_state (fun s => s.with_vm_pools l) := by
  unfold store
  rw [with_vm_pools_translate]
  cases st.translate v with
  | some pa => rfl
  | none =>
    show (h (st.with_vm_pools l) 2 v).bind _ = _
    rw [hh]
    refine Outcome.bind_map_state _ _ _ _ ?_
    intro _ s
    show (match (s.with_vm_pools l).translate v with
      | some pa => Outcome.ok () ((s.with_vm_pools l).write pa x)
      | none => Outcome.fatal (s.with_vm_pools l)) = _
    rw [with_vm_pools_translate]
    cases s.translate v with
    | some pa => rfl
    | none => rfl

theorem pool_get_frames_with_vm_pools (st : Machine) (l : List VMPool) (k n : Nat) :
    (st.with_vm_pools l).pool_get_frames k n
      = (st.pool_get_frames k n).map_state (fun s => s.with_vm_pools l) := by
  unfold pool_get_frames
  show (match st.frame_pools[k]? with
    | none => Outcome.fatal (st.with_vm_pools l)
    | some p =>
      if st.bitmap_direct p p.n_frames then
        match ContFramePool.get_frames 0 p n with
        | Outcome.ok f q => Outcome.ok f ((st.with_vm_pools l).set_pool k q)
        | Outcome.fatal q => Outcome.fatal ((st.with_vm_pools l).set_pool k q)
      else Outcome.fatal (st.with_vm_pools l)) = _
  cases st.frame_pools[k]? with
  | none => rfl
  | some p =>
    by_cases hm : st.bitmap_direct p p.n_frames
    · simp only [if_pos hm]
      cases ContFramePool.get_frames 0 p n with
      | ok f q => rfl
      | fatal q => rfl
    · simp only [if_neg hm]
      rfl

theorem store_loop_with_vm_pools (h : Handler) (hh : IgnoresVMPools h) (l : List VMPool)
    (p : Nat) (val : Nat → Nat) :
    ∀ k i st, store_loop h p val k i (with_vm_pools st l)
      = (store_loop h p val k i st).map_state (fun s => s.with_vm_pools l) := by
  intro k
  induction k with
  | zero => intro i st; rfl
  | succ k ih =>
    intro i st
    rw [store_loop, store_loop, store_with_vm_pools h hh]
    exact Outcome.bind_map_state _ _ _ _ (fun _ s => ih (i + 1) s)

end Machine

namespace PageTable

theorem handle_fault_body_ignores (nested : Handler) (hh : Machine.IgnoresVMPools nested) :
    Machine.IgnoresVMPools (handle_fault_body nested) := by
  intro st l err a
  unfold handle_fault_body
  by_cases herr : err &&& 1 = 0
  · rw [if_pos herr, if_pos herr]
    show ((st.with_vm_pools l).load nested (u32 (st.cr3 + 4 * (a >>> 22)))).bind _ = _
    rw [Machine.load_with_vm_pools nested hh]
    refine Outcome.bind_map_state _ _ _ _ ?_
    intro pde s1
    have hfirst : (if pde &&& 1 = 0 then
          ((s1.with_vm_pools l).pool_get_frames (s1.with_vm_pools l).process_mem_pool 1).bind
            fun f st2 =>
            (st2.store nested (u32 (u32 (0xFFFFF <<< 12) + 4 * (a >>> 22)))
                (u32 (f * PAGE_SIZE) ||| 0b11)).bind fun _ st3 =>
            handle_fault_init nested (u32 (f * PAGE_SIZE)) 1024 0 st3
        else Outcome.ok () (s1.with_vm_pools l))
        = Outcome.map_state (fun s => s.with_vm_pools l)
          (if pde &&& 1 = 0 then
            (s1.pool_get_frames s1.process_mem_pool 1).bind fun f st2 =>
            (st2.store nested (u32 (u32 (0xFFFFF <<< 12) + 4 * (a >>> 22)))
                (u32 (f * PAGE_SIZE) ||| 0b11)).bind fun _ st3 =>
            handle_fault_init nested (u32 (f * PAGE_SIZE)) 1024 0 st3
          else Outcome.ok () s1) := by
      by_cases hp : pde &&& 1 = 0
      · rw [if_pos hp, if_pos hp]
        show ((s1.with_vm_pools l).pool_get_frames s1.process_mem_pool 1).bind _ = _
        rw [Machine.pool_get_frames_with_vm_pools]
        refine Outcome.bind_map_state _ _ _ _ ?_
        intro f s2
        show ((s2.with_vm_pools l).store nested _ _).bind _ = _
        rw [Machine.store_with_vm_pools nested hh]
        refine Outcome.bind_map_state _ _ _ _ ?_
        intro _ s3
        exact Machine.store_loop_with_vm_pools nested hh l _ _ _ _ s3
      · rw [if_neg hp, if_neg hp]
        rfl
    rw [hfirst]
    refine Outcome.bind_map_state _ _ _ _ ?_
    intro _ s4
    show ((s4.with_vm_pools l).pool_get_frames s4.process_mem_pool 1).bind _ = _
    rw [Machine.pool_get_frames_with_vm_pools]
    refine Outcome.bind_map_state _ _ _ _ ?_
    intro g s5
    exact Machine.store_with_vm_pools nested hh s5 l _ _
  · rw [if_neg herr, if_neg herr]
    rfl

/-- The handler, at any depth, never reads the VM-pool registry. -/
theorem handle_fault_ignores : ∀ d, Machine.IgnoresVMPools (handle_fault d) := by
  intro d
  induction d with
  | zero => exact handle_fault_body_ignores _ (fun _ _ _ _ => rfl)
  | succ d ih => exact handle_fault_body_ignores _ ih

end PageTable

/-! ## The handler at any depth, in closed form -/

namespace PageTable

/-- The leaf-level case of `handle_fault`, at any depth. -/
theorem handle_fault_leaf (d : Nat) (st : Machine) (err a g : Nat) (p q : ContFramePool)
    (herr : err &&& 1 = 0) (ha : a < WORD) (hon : st.paging_on)
    (hdir : st.translate (u32 (st.cr3 + 4 * (a >>> 22))) = some (st.pde_addr a))
    (hpde : entry_present (st.mem (st.pde_addr a)))
    (hself1 : entry_present (st.mem (st.pde_addr 0xFFC00000)))
    (hself2 : entry_frame (st.mem (st.pde_addr 0xFFC00000)) = entry_frame st.cr3)
    (hp : st.frame_pools[st.process_mem_pool]? = some p)
    (hg : ContFramePool.get_frames 0 p 1 = Outcome.ok g q)
    (hm : st.bitmap_direct p p.n_frames) :
    handle_fault d st err a = Outcome.ok () (st.faulted_leaf q a g) := by
  obtain ⟨nested, hd⟩ := handle_fault_eq_body d
  rw [hd]
  exact handle_fault_body_leaf nested st err a g p q herr ha hon hdir hpde hself1 hself2 hp hg
    hm

/-- The directory-level case of `handle_fault`, at any depth, when the page at the virtual
address of the new table is mapped to the frame named by `e2`. -/
theorem handle_fault_dir (d : Nat) (st : Machine) (err a f g e1 e2 : Nat)
    (p q1 q2 : ContFramePool)
    (herr : err &&& 1 = 0) (ha : a < WORD) (hon : st.paging_on)
    (hdir : st.translate (u32 (st.cr3 + 4 * (a >>> 22))) = some (st.pde_addr a))
    (hpde : ¬ entry_present (st.mem (st.pde_addr a)))
    (hself1 : entry_present (st.mem (st.pde_addr 0xFFC00000)))
    (hself2 : entry_frame (st.mem (st.pde_addr 0xFFC00000)) = entry_frame st.cr3)
    (hp : st.frame_pools[st.process_mem_pool]? = some p)
    (hg1 : ContFramePool.get_frames 0 p 1 = Outcome.ok f q1)
    (hg2 : ContFramePool.get_frames 0 q1 1 = Outcome.ok g q2)
    (h1 : st.mem (st.pde_addr (u32 (f * PAGE_SIZE))) = e1) (he1 : entry_present e1)
    (h2 : st.mem (Machine.pte_addr e1 (u32 (f * PAGE_SIZE))) = e2) (he2 : entry_present e2)
    (hn1 : st.pde_addr (u32 (f * PAGE_SIZE)) ≠ st.pde_addr a)
    (hn2 : Machine.pte_addr e1 (u32 (f * PAGE_SIZE)) ≠ st.pde_addr a)
    (hs1 : st.pde_addr (u32 (f * PAGE_SIZE)) < entry_frame e2 ∨
      entry_frame e2 + 4096 ≤ st.pde_addr (u32 (f * PAGE_SIZE)))
    (hs2 : Machine.pte_addr e1 (u32 (f * PAGE_SIZE)) < entry_frame e2 ∨
      entry_frame e2 + 4096 ≤ Machine.pte_addr e1 (u32 (f * PAGE_SIZE)))
    (hs3 : st.pde_addr a < entry_frame e2 ∨ entry_frame e2 + 4096 ≤ st.pde_addr a)
    (hs4 : st.pde_addr 0xFFC00000 < entry_frame e2 ∨
      entry_frame e2 + 4096 ≤ st.pde_addr 0xFFC00000)
    (hm1 : st.bitmap_direct p p.n_frames)
    (hm2 : (((st.set_pool st.process_mem_pool q1).write (st.pde_addr a)
        (u32 (f * PAGE_SIZE) ||| 0b11)).fill (entry_frame e2) 0 1024
        (fun _ => 0b100)).bitmap_direct q1 q1.n_frames) :
    handle_fault d st err a
      = Outcome.ok () (st.faulted_dir q1 q2 a f g (entry_frame e2)) := by
  obtain ⟨nested, hd⟩ := handle_fault_eq_body d
  rw [hd]
  exact handle_fault_body_dir nested st err a f g e1 e2 p q1 q2 herr ha hon hdir hpde hself1
    hself2 hp hg1 hg2 h1 he1 h2 he2 hn1 hn2 hs1 hs2 hs3 hs4 hm1 hm2

/-- A not-present fault on a machine whose process pool has its bitmap out of reach: the
handler, at any depth, halts at its first `process_mem_pool->get_frames`. -/
theorem handle_fault_bitmap_unreachable (d : Nat) (st : Machine) (err a : Nat)
    (p : ContFramePool) (herr : err &&& 1 = 0)
    (hdir : st.translate (u32 (st.cr3 + 4 * (a >>> 22))) = some (st.pde_addr a))
    (hp : st.frame_pools[st.process_mem_pool]? = some p)
    (hm : ¬ st.bitmap_direct p p.n_frames) :
    handle_fault d st err a = Outcome.fatal st := by
  obtain ⟨nested, hd⟩ := handle_fault_eq_body d
  have hpg : st.pool_get_frames st.process_mem_pool 1 = Outcome.fatal st := by
    simp [Machine.pool_get_frames, hp, hm]
  rw [hd, handle_fault_body, if_pos herr, Machine.load_of_translate nested st _ _ hdir,
    Outcome.bind_ok]
  by_cases hpde : st.mem (st.pde_addr a) &&& 1 = 0
  · rw [if_pos hpde, hpg]
    rfl
  · rw [if_neg hpde, Outcome.bind_ok, hpg]
    rfl

/-- A fault whose error code has bit 0 set: the handler, at any depth, does nothing. -/
theorem handle_fault_protection (d : Nat) (st : Machine) (err a : Nat)
    (herr : err &&& 1 ≠ 0) : handle_fault d st err a = Outcome.ok () st := by
  obtain ⟨nested, hd⟩ := handle_fault_eq_body d
  rw [hd]
  exact handle_fault_body_protection nested st err a herr

end PageTable

namespace Machine

/-- A store that faults, is served by the handler and resolves on the retry. -/
theorem store_fault (h : Handler) (st st1 : Machine) (v x pa : Nat)
    (ht : st.translate v = none) (hh : h st 2 v = Outcome.ok () st1)
    (ht1 : st1.translate v = some pa) : st.store h v x = Outcome.ok () (st1.write pa x) := by
  simp [store, ht, hh, ht1]

end Machine

namespace VMPool

/-- The constructor, given what its two stores do. -/
theorem construct_of_stores (d : Nat) (raw : VMPool) (st s2 s3 : Machine)
    (b sz fp : Nat) (pt : PageTable)
    (h1 : (PageTable.register_pool st
        { raw with base_address := b, size := sz, frame_pool := fp, page_table := pt }).store
        (PageTable.handle_fault d) (u32 (b + 8 * 0)) b = Outcome.ok () s2)
    (h2 : s2.store (PageTable.handle_fault d) (u32 (b + 8 * 0 + 4)) PAGE_SIZE
      = Outcome.ok () s3) :
    construct d raw st b sz fp pt
      = Outcome.ok
        { base_address := b, size := sz, frame_pool := fp, page_table := pt,
          vmpool_regions := b, allocated_regions := 1,
          free_memory := sub32 raw.free_memory PAGE_SIZE }
        { s3 with
          vm_pool_list := s3.vm_pool_list.dropLast ++
            [{ base_address := b, size := sz, frame_pool := fp, page_table := pt,
               vmpool_regions := b, allocated_regions := 1,
               free_memory := sub32 raw.free_memory PAGE_SIZE }] } := by
  simp only [construct, Outcome.bind_ok, h1, h2]

end VMPool

/-! ## The code on the concrete machines -/

namespace Machine

/-- The first fault of the machine `paged` at 1 GiB: a table (frame 18) and a page (frame 19)
are drawn. -/
theorem paged_fault (d : Nat) :
    PageTable.handle_fault d paged 2 0x40000000
      = Outcome.ok () (paged.faulted_dir ppool2 ppool3 0x40000000 18 19 0x12000) :=
  PageTable.handle_fault_dir d paged 2 0x40000000 18 19 0x11003 0x12003 ppool1 ppool2 ppool3
    (by decide) (by decide) (by decide) (by decide) (by decide) (by decide) (by decide)
    rfl rfl rfl (by decide) (by decide) (by decide) (by decide) (by decide)
    (by decide) (by decide) (by decide) (by decide) (by decide)
    (by decide) (by decide)

/-- The same fault with the pool registered: the registry plays no part. -/
theorem paged_a_fault (d : Nat) :
    PageTable.handle_fault d paged_a 2 0x40000000 = Outcome.ok () touched := by
  have h := PageTable.handle_fault_ignores d paged paged_a.vm_pool_list 2 0x40000000
  rw [paged_fault d] at h
  exact h

/-- The constructor `VMPool(0x40000000, 1 MiB, process pool, page table)` on the machine
`paged`, in storage holding zeros. -/
theorem paged_vmpool_construct (d : Nat) :
    VMPool.construct d raw_pool paged 0x40000000 0x100000 1 { page_directory := 0x9000 }
      = Outcome.ok pool_a backed :=
  VMPool.construct_of_stores d raw_pool paged (touched.write 0x13000 0x40000000)
    ((touched.write 0x13000 0x40000000).write 0x13004 PAGE_SIZE) 0x40000000 0x100000 1
    { page_directory := 0x9000 }
    (store_fault _ paged_a touched _ _ 0x13000 (by decide) (paged_a_fault d) (by decide))
    (store_of_translate _ _ _ 0x13004 _ (by decide))

/-- A fault of the machine `backed` at 0x40200000, in the region that has a table: one
page (frame 20) is drawn. -/
theorem backed_fault (d : Nat) :
    PageTable.handle_fault d backed 2 0x40200000
      = Outcome.ok ()
        (backed.faulted_leaf (ContFramePool.get_frames 0 ppool3 1).state 0x40200000 20) :=
  PageTable.handle_fault_leaf d backed 2 0x40200000 20 ppool3 _
    (by decide) (by decide) (by decide) (by decide) (by decide) (by decide) (by decide)
    rfl rfl (by decide)

/-- The constructor on the machine `boot_mid`: directory frame 10, table frame 1020. -/
theorem boot_mid_construct (h : Handler) :
    PageTable.construct h boot_mid = Outcome.ok { page_directory := 0xA000 }
      (boot_mid.constructed kpool2 (ppool_mid_after 1) 10 1020) :=
  PageTable.construct_off h boot_mid kpool1 kpool2 ppool_mid (ppool_mid_after 1) 10 1020
    (by decide) rfl rfl rfl rfl (by decide) (by decide) (by decide)

/-- The store `*(0x400000) = 0x1111` on the machine `paged_mid`. -/
theorem paged_mid_store (d : Nat) :
    paged_mid.store (PageTable.handle_fault d) 0x400000 0x1111 = Outcome.ok () mid1 :=
  store_fault _ paged_mid
    (paged_mid.faulted_dir (ppool_mid_after 2) (ppool_mid_after 3) 0x400000 1021 1022 0x3FD000)
    _ _ 0x3FE000 (by decide)
    (PageTable.handle_fault_dir d paged_mid 2 0x400000 1021 1022 0x3FC003 0x3FD003
      (ppool_mid_after 1) (ppool_mid_after 2) (ppool_mid_after 3)
      (by decide) (by decide) (by decide) (by decide) (by decide) (by decide) (by decide)
      rfl rfl rfl (by decide) (by decide) (by decide) (by decide) (by decide)
      (by decide) (by decide) (by decide) (by decide) (by decide) (by decide) (by decide))
    (by decide)

/-- The store `*(0x401000) = 0x1234` on the machine `mid1`. -/
theorem mid1_store (d : Nat) :
    mid1.store (PageTable.handle_fault d) 0x401000 0x1234 = Outcome.ok () mid2 :=
  store_fault _ mid1 (mid1.faulted_leaf (ppool_mid_after 4) 0x401000 1023) _ _ 0x3FF000
    (by decide)
    (PageTable.handle_fault_leaf d mid1 2 0x401000 1023 (ppool_mid_after 3) _
      (by decide) (by decide) (by decide) (by decide) (by decide) (by decide) (by decide)
      rfl rfl (by decide))
    (by decide)

/-- The store `*(0x402000) = 0x5678` on the machine `mid2`. -/
theorem mid2_store (d : Nat) :
    mid2.store (PageTable.handle_fault d) 0x402000 0x5678 = Outcome.ok () mid3 :=
  store_fault _ mid2 (mid2.faulted_leaf (ppool_mid_after 5) 0x402000 1024) _ _ 0x400000
    (by decide)
    (PageTable.handle_fault_leaf d mid2 2 0x402000 1024 (ppool_mid_after 4) _
      (by decide) (by decide) (by decide) (by decide) (by decide) (by decide) (by decide)
      rfl rfl (by decide))
    (by decide)

/-- The fault at 8 MiB on the machine `mid3`: the table is frame 1025, the page frame 1026,
and the table-initialisation stores go to the frame at 0x3FF000. -/
theorem mid3_fault (d : Nat) :
    PageTable.handle_fault d mid3 2 0x800000 = Outcome.ok () mid4 :=
  PageTable.handle_fault_dir d mid3 2 0x800000 1025 1026 0x3FD003 0x3FF003 (ppool_mid_after 5)
    (ppool_mid_after 6) (ppool_mid_after 7)
    (by decide) (by decide) (by decide) (by decide) (by decide) (by decide) (by decide)
    rfl rfl rfl (by decide) (by decide) (by decide) (by decide) (by decide)
    (by decide) (by decide) (by decide) (by decide) (by decide)
    (by decide) (by decide)

end Machine

/-! ## The claims on the page-table manager and the VM pool constructor -/

namespace PageTable

/-- C11 (code defect): the table-initialisation loop of `handle_fault` stores through the
physical address of the new table used as a virtual address.  On the machine `boot_mid`
(memory zero but for the word 0x00BAD001 at 0x40101C) the kernel builds its page table, loads
it and enables paging (`paged_mid`); the stores to 0x400000, 0x401000 and 0x402000 fault and
are served, the second leaving 0x1234 in frame 1023, the page of 0x401000.  The fault at
8 MiB (directory entry 2 absent) then returns, at any depth of re-entry, with directory
entry 2 naming frame 1025 (address 0x401000) as the new table; the 1024 stores of `0b100`
have gone to frame 1023, the page mapped at the virtual address 0x401000, whose word is now
4; the new table itself still holds 0x00BAD001 in entry 7, a present entry, so that the
never-touched address 0x807000 resolves to the frame at 0xBAD000. -/
theorem handle_fault_init_misses_table (d : Nat) :
    (construct (handle_fault d) Machine.boot_mid
        = Outcome.ok { page_directory := 0xA000 }
          (Machine.boot_mid.constructed Machine.kpool2 (Machine.ppool_mid_after 1) 10 1020) ∧
      Machine.paged_mid.store (handle_fault d) 0x400000 0x1111 = Outcome.ok () Machine.mid1 ∧
      Machine.mid1.store (handle_fault d) 0x401000 0x1234 = Outcome.ok () Machine.mid2 ∧
      Machine.mid2.store (handle_fault d) 0x402000 0x5678 = Outcome.ok () Machine.mid3 ∧
      handle_fault d Machine.mid3 2 0x800000 = Outcome.ok () Machine.mid4) ∧
    (¬ entry_present (Machine.mid3.mem (0xA000 + 4 * 2)) ∧
      Machine.mid4.mem (0xA000 + 4 * 2) = 0x401003) ∧
    (Machine.boot_mid.mem (0x401000 + 4 * 7) = 0x00BAD001 ∧
      Machine.mid4.mem (0x401000 + 4 * 7) = 0x00BAD001 ∧
      entry_present (Machine.mid4.mem (0x401000 + 4 * 7)) ∧
      Machine.mid4.translate 0x807000 = some 0xBAD000) ∧
    (Machine.mid3.translate 0x401000 = some 0x3FF000 ∧
      Machine.mid3.mem 0x3FF000 = 0x1234 ∧ Machine.mid4.mem 0x3FF000 = 0b100) :=
  ⟨⟨Machine.boot_mid_construct _, Machine.paged_mid_store d, Machine.mid1_store d,
      Machine.mid2_store d, Machine.mid3_fault d⟩,
    ⟨by decide, by decide⟩, ⟨by decide, by decide, by decide, by decide⟩,
    by decide, by decide, by decide⟩

/-- The fault obtained with the process pool above the shared region: on the machine
`paged_hi` the first fault at 1 GiB draws frame 1025 for the table, whose address is not
mapped, so the first store of the table-initialisation loop faults inside the handler; with
no re-entry (depth 0) the kernel halts. -/
theorem handle_fault_init_faults :
    (handle_fault 0 Machine.paged_hi 2 0x40000000).isFatal = true := by
  decide

end PageTable

namespace Machine

/-- A never-backed address whose directory entry is present: the directory entry and the
table entry of the walk are different words. -/
theorem pde_ne_pte_of_never (st : Machine) (a : Nat) (hon : st.paging_on)
    (hpde : entry_present (st.mem (st.pde_addr a))) (hnever : st.translate a = none) :
    st.pde_addr a ≠ pte_addr (st.mem (st.pde_addr a)) a := by
  intro heq
  have hpte : entry_present (st.mem (pte_addr (st.mem (st.pde_addr a)) a)) := by
    rw [← heq]; exact hpde
  rw [translate_on st a hon hpde hpte] at hnever
  cases hnever

end Machine

namespace PageTable

end PageTable

namespace PageTable

/-- C13 (counterexample): on the machine `backed` the only registered pool is `pool_a`, whose
window ends at 0x40100000; the address 0x40200000 lies in no registered window and is not
backed; `handle_fault` draws a frame for it (the process pool's Free frames fall from 12 to
11) and installs a leaf entry, after which the address resolves to frame 20. -/
theorem handle_fault_backs_unregistered :
    Machine.backed.vm_pool_list = [Machine.pool_a] ∧
    ¬ (Machine.pool_a.base_address ≤ 0x40200000 ∧
      0x40200000 < Machine.pool_a.base_address + Machine.pool_a.size) ∧
    Machine.backed.translate 0x40200000 = none ∧
    ∃ st1, handle_fault 0 Machine.backed 2 0x40200000 = Outcome.ok () st1 ∧
      Machine.backed.free_frames Machine.backed.process_mem_pool = some 12 ∧
      st1.free_frames Machine.backed.process_mem_pool = some 11 ∧
      st1.translate 0x40200000 = some 0x14000 :=
  ⟨rfl, by decide, by decide, _, Machine.backed_fault 0, by decide, by decide, by decide⟩

/-- C13 (amended): `handle_fault` never consults the VM-pool registry.  For every machine,
registry, error code and faulting address, at any depth, the handler run with the registry
`pools` does to memory, page tables and frame pools exactly what it does with the machine's
own registry, and it leaves the registry as it finds it; so a fault at an address inside no
registered window is served like a fault inside one. -/
theorem handle_fault_ignores_registry (d : Nat) (st : Machine) (pools : List VMPool)
    (err a : Nat) :
    handle_fault d (st.with_vm_pools pools) err a
        = (handle_fault d st err a).map_state (fun s => s.with_vm_pools pools) ∧
      (handle_fault d st err a).state.vm_pool_list = st.vm_pool_list :=
  ⟨handle_fault_ignores d st pools err a, handle_fault_keeps _ keeps_vm_pool_list d st err a⟩

/-- C14 (counterexample): a fault with error code 3 (a write that violates the protection
of a present page) on the machine `paged`: `handle_fault` returns normally. -/
theorem handle_fault_protection_returns :
    3 &&& 1 ≠ 0 ∧ (handle_fault 0 Machine.paged 3 0x40000000).isFatal = false :=
  ⟨by decide, by rw [handle_fault_protection 0 Machine.paged 3 0x40000000 (by decide)]; rfl⟩

/-- C14 (amended): for every fault whose error code has bit 0 set (the cause is not "page
not present"), `handle_fault` at any depth returns normally to the faulting code and leaves
the whole machine as it found it: no frame is drawn, no entry written, and nothing halts. -/
theorem handle_fault_other_cause (d : Nat) (st : Machine) (err a : Nat)
    (herr : err &&& 1 ≠ 0) : handle_fault d st err a = Outcome.ok () st :=
  handle_fault_protection d st err a herr

/-- Witness of C14 (amended): error code 1 on the machine `paged_a`. -/
theorem handle_fault_other_cause_witness :
    1 &&& 1 ≠ 0 ∧
      handle_fault 1 Machine.paged_a 1 0x40000000 = Outcome.ok () Machine.paged_a :=
  ⟨by decide, handle_fault_other_cause 1 Machine.paged_a 1 0x40000000 (by decide)⟩

/-- C15 (code defect): `free_page` stores `entry | 0b10`, which leaves the present bit as it
is.  On the machine `backed` the page at 0x40000000 is mapped to frame 19 by the leaf entry
0x13003 at 0x12000, frame 19 being a `HeadOfSequence` frame of the process pool;
`free_page(0x40000000)` returns, frame 19 of the process pool is Free
afterwards, and the leaf entry is still 0x13003, present, so the address still resolves to
the released frame. -/
theorem free_page_leaves_present :
    (Machine.backed.mem 0x12000 = 0x13003 ∧
      Machine.backed.translate 0x40000000 = some 0x13000 ∧
      (Machine.backed.frame_pools[1]?.map (fun p => ContFramePool.get_state p (19 - 16)))
        = some FrameState.HoS) ∧
    (free_page 0 { page_directory := 0x9000 } Machine.backed 0x40000000).isFatal = false ∧
    ((free_page 0 { page_directory := 0x9000 } Machine.backed 0x40000000).state.frame_pools[1]?.map
      (fun p => ContFramePool.get_state p (19 - 16))) = some FrameState.Free ∧
    (free_page 0 { page_directory := 0x9000 } Machine.backed 0x40000000).state.mem 0x12000
      = 0x13003 ∧
    entry_present
      ((free_page 0 { page_directory := 0x9000 } Machine.backed 0x40000000).state.mem
        0x12000) ∧
    (free_page 0 { page_directory := 0x9000 } Machine.backed 0x40000000).state.translate
      0x40000000 = some 0x13000 :=
  ⟨⟨by decide, by decide, by decide⟩, by decide, by decide, by decide, by decide, by decide⟩

end PageTable

namespace PageTable

/-- C16 (amended): when the constructor runs with paging off, a `shared_size` of at least one
page, both pools supplying a frame, the words written fitting the address space and the
directory's first word lying outside the table words written (as whenever `shared_size` is
at most 4 MiB and the two frames differ), it returns, and afterwards for every page index
`i < shared_size / PAGE_SIZE` the first page table's entry `i` equals `i * PAGE_SIZE` with
present and writable set and the user bit clear, and directory entry 0 points at that table
with present and writable set. -/
theorem construct_identity_map (h : Handler) (st : Machine) (kp kq pp pq : ContFramePool)
    (f g : Nat)
    (hoff : st.cr0 &&& 0x80000000 = 0)
    (hk : st.frame_pools[st.kernel_mem_pool]? = some kp)
    (hkf : ContFramePool.get_frames 0 kp 1 = Outcome.ok f kq)
    (hp : (st.frame_pools.set st.kernel_mem_pool kq)[st.process_mem_pool]? = some pp)
    (hpf : ContFramePool.get_frames 0 pp 1 = Outcome.ok g pq)
    (hn : PAGE_SIZE ≤ st.shared_size) (hsz : st.shared_size < WORD)
    (hD : f * PAGE_SIZE + 4 * (st.shared_size / PAGE_SIZE) ≤ WORD)
    (hT : g * PAGE_SIZE + 4 * (st.shared_size / PAGE_SIZE) ≤ WORD)
    (hsep : f * PAGE_SIZE < g * PAGE_SIZE ∨
      g * PAGE_SIZE + 4 * (st.shared_size / PAGE_SIZE) ≤ f * PAGE_SIZE) :
    ∃ st1, construct h st = Outcome.ok { page_directory := f * PAGE_SIZE } st1 ∧
      (∀ i, i < st.shared_size / PAGE_SIZE →
        st1.mem (g * PAGE_SIZE + 4 * i) = PAGE_SIZE * i ||| 0b11 ∧
        entry_frame (st1.mem (g * PAGE_SIZE + 4 * i)) = PAGE_SIZE * i ∧
        entry_present (st1.mem (g * PAGE_SIZE + 4 * i)) ∧
        entry_writable (st1.mem (g * PAGE_SIZE + 4 * i)) ∧
        ¬ entry_user (st1.mem (g * PAGE_SIZE + 4 * i))) ∧
      st1.mem (f * PAGE_SIZE) = g * PAGE_SIZE ||| 0b11 ∧
      entry_frame (st1.mem (f * PAGE_SIZE)) = g * PAGE_SIZE ∧
      entry_present (st1.mem (f * PAGE_SIZE)) ∧
      entry_writable (st1.mem (f * PAGE_SIZE)) := by
  refine ⟨st.constructed kq pq f g, construct_off h st kp kq pp pq f g hoff hk hkf hp hpf hn hD hT,
    ?_, ?_⟩
  · intro i hi
    have hlt : PAGE_SIZE * i < WORD := by
      unfold PAGE_SIZE at hi ⊢
      unfold WORD at hsz ⊢
      omega
    have hmem : (st.constructed kq pq f g).mem (g * PAGE_SIZE + 4 * i)
        = PAGE_SIZE * i ||| 0b11 := by
      rw [Machine.constructed_mem_table st kq pq f g i hi, ContFramePool.u32_of_lt _ hlt]
    have hb := entry_of_aligned (PAGE_SIZE * i) (by unfold PAGE_SIZE; omega) hlt
    rw [hmem]
    exact ⟨rfl, hb⟩
  · have hmem := Machine.constructed_mem_dir0 st kq pq f g hsep
    have hb := entry_of_aligned (g * PAGE_SIZE) (by unfold PAGE_SIZE; omega)
      (by unfold PAGE_SIZE at hT hn ⊢; omega)
    rw [hmem]
    exact ⟨rfl, hb.1, hb.2.1, hb.2.2.1⟩

end PageTable

namespace Machine

/-- The constructor on the machine `boot_8m`: directory frame 18, table frame 17. -/
theorem boot_8m_construct (h : Handler) :
    PageTable.construct h boot_8m = Outcome.ok { page_directory := 0x12000 }
      (boot_8m.constructed (ContFramePool.get_frames 0 kpool_next 1).state
        (ContFramePool.get_frames 0 ppool_low 1).state 18 17) :=
  PageTable.construct_off h boot_8m kpool_next _ ppool_low _ 18 17 (by decide) rfl rfl rfl rfl
    (by decide) (by decide) (by decide)

/-- The constructor on the machine `boot_dirty`: directory frame 9, table frame 17. -/
theorem boot_dirty_construct (h : Handler) :
    PageTable.construct h boot_dirty = Outcome.ok { page_directory := 0x9000 }
      (boot_dirty.constructed kpool1 ppool1 9 17) :=
  PageTable.construct_off h boot_dirty kpool kpool1 ppool ppool1 9 17 (by decide) rfl rfl rfl
    rfl (by decide) (by decide) (by decide)

/-- The constructor on the machine `boot_2m`: directory frame 9, table frame 17. -/
theorem boot_2m_construct (h : Handler) :
    PageTable.construct h boot_2m = Outcome.ok { page_directory := 0x9000 }
      (boot_2m.constructed kpool1 ppool1 9 17) :=
  PageTable.construct_off h boot_2m kpool kpool1 ppool ppool1 9 17 (by decide) rfl rfl rfl
    rfl (by decide) (by decide) (by decide)

end Machine

namespace PageTable

/-- C16 (counterexample): with `shared_size` 8 MiB the constructor writes 2048 table entries;
on the machine `boot_8m` the table is frame 17 and the directory frame 18, so table entry
1024 lands on directory entry 0, which ends as 0x400003 and does not point at the table
(0x11000). -/
theorem construct_table_overruns :
    Machine.boot_8m.shared_size / PAGE_SIZE = 2048 ∧
    ∃ st1, construct (handle_fault 0) Machine.boot_8m
        = Outcome.ok { page_directory := 0x12000 } st1 ∧
      st1.mem (0x11000 + 4 * 1024) = PAGE_SIZE * 1024 ||| 0b11 ∧
      st1.mem 0x12000 = 0x400003 ∧ entry_frame (st1.mem 0x12000) ≠ 0x11000 :=
  ⟨by decide, _, Machine.boot_8m_construct _, by decide, by decide, by decide⟩

/-- Witness of C16 (amended): the machine `boot`, shared region 4 MiB, directory frame 9,
table frame 17. -/
theorem construct_identity_map_witness :
    (Machine.boot.cr0 &&& 0x80000000 = 0 ∧ PAGE_SIZE ≤ Machine.boot.shared_size ∧
      Machine.boot.shared_size < WORD ∧
      9 * PAGE_SIZE + 4 * (Machine.boot.shared_size / PAGE_SIZE) ≤ WORD ∧
      17 * PAGE_SIZE + 4 * (Machine.boot.shared_size / PAGE_SIZE) ≤ WORD) ∧
    ∃ st1, construct (handle_fault 0) Machine.boot
        = Outcome.ok { page_directory := 9 * PAGE_SIZE } st1 ∧
      (∀ i, i < Machine.boot.shared_size / PAGE_SIZE →
        st1.mem (17 * PAGE_SIZE + 4 * i) = PAGE_SIZE * i ||| 0b11 ∧
        entry_frame (st1.mem (17 * PAGE_SIZE + 4 * i)) = PAGE_SIZE * i ∧
        entry_present (st1.mem (17 * PAGE_SIZE + 4 * i)) ∧
        entry_writable (st1.mem (17 * PAGE_SIZE + 4 * i)) ∧
        ¬ entry_user (st1.mem (17 * PAGE_SIZE + 4 * i))) ∧
      st1.mem (9 * PAGE_SIZE) = 17 * PAGE_SIZE ||| 0b11 ∧
      entry_frame (st1.mem (9 * PAGE_SIZE)) = 17 * PAGE_SIZE ∧
      entry_present (st1.mem (9 * PAGE_SIZE)) ∧
      entry_writable (st1.mem (9 * PAGE_SIZE)) :=
  ⟨⟨by decide, by decide, by decide, by decide, by decide⟩,
    construct_identity_map (handle_fault 0) Machine.boot Machine.kpool Machine.kpool1
      Machine.ppool Machine.ppool1 9 17 (by decide) rfl rfl rfl rfl (by decide) (by decide)
      (by decide) (by decide) (Or.inl (by decide))⟩

/-- C17 (code defect): the constructor marks the other directory entries with `|= 0b10`, which
keeps whatever the frame held.  On the machine `boot_dirty` the word of directory entry 5
holds 0x00ABC001 before the call; the constructor returns, and entry 5, which covers neither
the shared 4 MiB (entry 0) nor the self-map slot (entry 1023), is 0x00ABC003 afterwards,
present bit set. -/
theorem construct_keeps_stale_present :
    Machine.boot_dirty.mem (0x9000 + 4 * 5) = 0x00ABC001 ∧
    ∃ st1, construct (handle_fault 0) Machine.boot_dirty
        = Outcome.ok { page_directory := 0x9000 } st1 ∧
      st1.mem (0x9000 + 4 * 5) = 0x00ABC003 ∧ entry_present (st1.mem (0x9000 + 4 * 5)) :=
  ⟨by decide, _, Machine.boot_dirty_construct _, by decide, by decide⟩

/-- C18 (code defect): the constructor writes the self-map entry at index
`no_shared_frames - 1`, while `handle_fault` and `free_page` reach the directory through slot
1023.  On the machine `boot_2m` (shared region 2 MiB) the constructor returns with the
directory's address 0x9000 in slot 511 and slot 1023 left 0, not present; once that
directory is loaded and paging enabled, the directory window 0xFFFFF000 does not resolve,
and a fault at 1 GiB halts the kernel inside the handler. -/
theorem construct_self_map_slot :
    Machine.boot_2m.shared_size / PAGE_SIZE - 1 = 511 ∧
    ∃ st1, construct (handle_fault 0) Machine.boot_2m
        = Outcome.ok { page_directory := 0x9000 } st1 ∧
      st1.mem (0x9000 + 4 * 511) = 0x9003 ∧
      st1.mem (0x9000 + 4 * 1023) = 0 ∧ ¬ entry_present (st1.mem (0x9000 + 4 * 1023)) ∧
      (enable_paging (load { page_directory := 0x9000 } st1)).translate 0xFFFFF000 = none ∧
      (handle_fault 0 (enable_paging (load { page_directory := 0x9000 } st1)) 2
        0x40000000).isFatal = true :=
  ⟨by decide, _, Machine.boot_2m_construct _, by decide, by decide, by decide, by decide,
    by decide⟩

end PageTable

theorem or_and_paging_bit (x : Nat) : (x ||| 0x80000000) &&& 0x80000000 ≠ 0 := by
  intro h
  have h1 := congrArg (fun n => Nat.testBit n 31) h
  have h2 : Nat.testBit 2147483648 31 = true := by decide
  simp [Nat.testBit_and, Nat.testBit_or, h2] at h1

namespace Outcome

theorem bind_eq_ok {σ α β : Type} (o : Outcome σ α) (k : α → σ → Outcome σ β) (v : β) (s : σ)
    (h : o.bind k = Outcome.ok v s) :
    ∃ v1 s1, o = Outcome.ok v1 s1 ∧ k v1 s1 = Outcome.ok v s := by
  cases o with
  | ok v1 s1 => exact ⟨v1, s1, rfl, h⟩
  | fatal s1 => cases h

end Outcome

namespace PageTable

/-- Whenever the constructor returns, the flag `paging_enabled` is 0. -/
theorem construct_flag (h : Handler) (st st1 : Machine) (pt : PageTable)
    (hc : construct h st = Outcome.ok pt st1) : st1.paging_enabled = 0 := by
  unfold construct at hc
  obtain ⟨_, _, _, hc⟩ := Outcome.bind_eq_ok _ _ _ _ hc
  obtain ⟨_, _, _, hc⟩ := Outcome.bind_eq_ok _ _ _ _ hc
  obtain ⟨_, _, _, hc⟩ := Outcome.bind_eq_ok _ _ _ _ hc
  obtain ⟨_, _, _, hc⟩ := Outcome.bind_eq_ok _ _ _ _ hc
  obtain ⟨_, _, _, hc⟩ := Outcome.bind_eq_ok _ _ _ _ hc
  obtain ⟨_, _, _, hc⟩ := Outcome.bind_eq_ok _ _ _ _ hc
  cases hc
  rfl

/-- C19 (counterexample): on the machine `paged_s`, which `enable_paging` has left with the
flag `paging_enabled` 1 and the paging bit of CR0 set, constructing another `PageTable`
returns with the flag `paging_enabled` 0. -/
theorem construct_resets_paging_enabled :
    (Machine.paged_s.paging_enabled = 1 ∧ Machine.paged_s.paging_on) ∧
    (construct (handle_fault 0) Machine.paged_s).isFatal = false ∧
    (construct (handle_fault 0) Machine.paged_s).state.paging_enabled = 0 :=
  ⟨⟨by decide, by decide⟩, by decide, by decide⟩

/-- C19 (amended): `enable_paging` sets the flag `paging_enabled` and the paging bit of CR0.
From any state with the flag set, `load`, `handle_fault`, `register_pool` and `free_page`
leave the flag set, whether they return or halt; and from any state with the paging bit of
CR0 set, these four operations and the constructor of another `PageTable` leave that bit
set, so that hardware translation, once active, stays active.  The constructor alone
writes the flag: whenever it returns, the flag is 0. -/
theorem paging_enabled_kept (d : Nat) (this : PageTable) (st : Machine) (pool : VMPool)
    (err a page : Nat) (hflag : st.paging_enabled = 1) (hon : st.paging_on) :
    ((enable_paging st).paging_enabled = 1 ∧ (enable_paging st).paging_on) ∧
    ((load this st).paging_enabled = 1 ∧
      (handle_fault d st err a).state.paging_enabled = 1 ∧
      (register_pool st pool).paging_enabled = 1 ∧
      (free_page d this st page).state.paging_enabled = 1) ∧
    ((construct (handle_fault d) st).state.paging_on ∧
      (load this st).paging_on ∧
      (handle_fault d st err a).state.paging_on ∧
      (register_pool st pool).paging_on ∧
      (free_page d this st page).state.paging_on) ∧
    (∀ pt st1, construct (handle_fault d) st = Outcome.ok pt st1 → st1.paging_enabled = 0) := by
  have hcr0 : ∀ s : Machine, s.cr0 = st.cr0 → s.paging_on := by
    intro s hs
    unfold Machine.paging_on
    rw [hs]
    exact hon
  refine ⟨⟨rfl, or_and_paging_bit st.cr0⟩, ⟨hflag, ?_, hflag, ?_⟩, ⟨?_, hon, ?_, hon, ?_⟩,
    fun pt st1 hc => construct_flag _ st st1 pt hc⟩
  · exact (handle_fault_keeps _ keeps_paging_enabled d st err a).trans hflag
  · exact (free_page_keeps _ keeps_paging_enabled (fun _ _ => rfl) d this st page).trans hflag
  · exact hcr0 _ (construct_keeps _ keeps_cr0 (fun _ _ => rfl) _
      (handle_fault_keeps _ keeps_cr0 d) st)
  · exact hcr0 _ (handle_fault_keeps _ keeps_cr0 d st err a)
  · exact hcr0 _ (free_page_keeps _ keeps_cr0 (fun _ _ => rfl) d this st page)

/-- Witness of C19 (amended): the machine `paged_a`, a fault at 1 GiB, the pool `pool_a`. -/
theorem paging_enabled_kept_witness :
    (Machine.paged_a.paging_enabled = 1 ∧ Machine.paged_a.paging_on) ∧
    ((load { page_directory := 0x9000 } Machine.paged_a).paging_enabled = 1 ∧
      (handle_fault 0 Machine.paged_a 2 0x40000000).state.paging_enabled = 1 ∧
      (register_pool Machine.paged_a Machine.pool_a).paging_enabled = 1 ∧
      (free_page 0 { page_directory := 0x9000 } Machine.paged_a 0x40000000).state.paging_enabled
        = 1) ∧
    (construct (handle_fault 0) Machine.paged_a).state.paging_on :=
  have h := paging_enabled_kept 0 { page_directory := 0x9000 } Machine.paged_a Machine.pool_a
    2 0x40000000 0x40000000 (by decide) (by decide)
  ⟨⟨by decide, by decide⟩, h.2.1, h.2.2.1.1⟩

end PageTable

namespace VMPool

/-- C20 (code defect): the constructor computes `free_memory -= PAGE_SIZE` on a member that
it never assigns.  On the machine `paged`, `VMPool(0x40000000, 1 MiB, process pool, page
table)` built in storage that holds zeros returns, at any depth of re-entry of the handler;
the pool is the last element of the registry, its region count is 1 and `region[0]`, read
through the window, is `{0x40000000, PAGE_SIZE}`, but `free_memory` is `0 - 4096` wrapped,
4294963200, in the object and in the registry, where `size - PAGE_SIZE` is 0xFF000. -/
theorem construct_free_memory_uninitialised (d : Nat) :
    construct d Machine.raw_pool Machine.paged 0x40000000 0x100000 1
        { page_directory := 0x9000 } = Outcome.ok Machine.pool_a Machine.backed ∧
    (Machine.raw_pool.free_memory = 0 ∧ Machine.pool_a.free_memory = 4294963200 ∧
      0x100000 - PAGE_SIZE = 0xFF000) ∧
    (Machine.pool_a.base_address = 0x40000000 ∧ Machine.pool_a.size = 0x100000 ∧
      Machine.pool_a.allocated_regions = 1) ∧
    (Machine.backed.vm_pool_list.getLast?.map
        (fun v => (v.base_address, v.size, v.free_memory)))
      = some (0x40000000, 0x100000, 4294963200) ∧
    (Machine.backed.translate Machine.pool_a.vmpool_regions = some 0x13000 ∧
      Machine.backed.mem 0x13000 = 0x40000000 ∧
      Machine.backed.translate (Machine.pool_a.vmpool_regions + 4) = some 0x13004 ∧
      Machine.backed.mem 0x13004 = PAGE_SIZE) :=
  ⟨Machine.paged_vmpool_construct d, ⟨by decide, by decide, by decide⟩,
    ⟨by decide, by decide, by decide⟩, by decide,
    by decide, by decide, by decide, by decide⟩

end VMPool

/-! ## Accesses to a backed page -/

namespace Machine

@[simp] theorem set_vm_pool_mem (st : Machine) (k : Nat) (p : VMPool) :
    (st.set_vm_pool k p).mem = st.mem := rfl

theorem set_vm_pool_translate (st : Machine) (k : Nat) (p : VMPool) (v : Nat) :
    (st.set_vm_pool k p).translate v = st.translate v := rfl

theorem resident_set_vm_pool (st : Machine) (V P k : Nat) (p : VMPool)
    (h : st.resident V P) : (st.set_vm_pool k p).resident V P := h

/-- An address inside a page-aligned page below 4 GiB does not wrap. -/
theorem u32_in_page (V k : Nat) (hV : V % 4096 = 0) (hw : V < WORD) (hk : k < 4096) :
    u32 (V + k) = V + k :=
  ContFramePool.u32_of_lt _ (by unfold WORD at hw ⊢; omega)

/-- Every word of a backed page resolves to the word of the frame at the same offset. -/
theorem resident_translate (st : Machine) (V P j : Nat) (h : st.resident V P)
    (hj : j < 1024) : st.translate (V + 4 * j) = some (P + 4 * j) := by
  obtain ⟨hon, hV, _, h1, h2, hP, _, _⟩ := h
  rw [translate_page st V j _ _ hV hj hon rfl h1 rfl h2, hP]

/-- The frame of a backed page is page-aligned and below 4 GiB. -/
theorem resident_frame (st : Machine) (V P : Nat) (h : st.resident V P) :
    P % 4096 = 0 ∧ P < WORD := by
  obtain ⟨_, _, _, _, _, hP, _, _⟩ := h
  rw [← hP, entry_frame_eq]
  unfold WORD
  omega

/-- A write into the frame of a backed page leaves the page backed by that frame. -/
theorem resident_write (st : Machine) (V P a x : Nat) (h : st.resident V P)
    (ha : P ≤ a ∧ a < P + 4096) : (st.write a x).resident V P := by
  obtain ⟨hon, hV, hw, h1, h2, hP, hs1, hs2⟩ := h
  have e1 : (st.write a x).mem (st.pde_addr V) = st.mem (st.pde_addr V) :=
    write_mem_other _ _ _ _ (by omega)
  have e2 : (st.write a x).mem (pte_addr (st.mem (st.pde_addr V)) V)
      = st.mem (pte_addr (st.mem (st.pde_addr V)) V) :=
    write_mem_other _ _ _ _ (by omega)
  refine ⟨hon, hV, hw, ?_, ?_, ?_, ?_, ?_⟩
  · rw [write_pde_addr, e1]; exact h1
  · rw [write_pde_addr, e1, e2]; exact h2
  · rw [write_pde_addr, e1, e2]; exact hP
  · rw [write_pde_addr]; exact hs1
  · rw [write_pde_addr, e1]; exact hs2

theorem load_resident (h : Handler) (st : Machine) (V P k : Nat) (hr : st.resident V P)
    (hk : k < 4096) (h4 : k % 4 = 0) :
    st.load h (u32 (V + k)) = Outcome.ok (st.mem (P + k)) st := by
  have ht := resident_translate st V P (k / 4) hr (by omega)
  have e : 4 * (k / 4) = k := by omega
  rw [e] at ht
  rw [u32_in_page V k hr.2.1 hr.2.2.1 hk, load_of_translate h st _ _ ht]

theorem store_resident (h : Handler) (st : Machine) (V P k x : Nat) (hr : st.resident V P)
    (hk : k < 4096) (h4 : k % 4 = 0) :
    st.store h (u32 (V + k)) x = Outcome.ok () (st.write (P + k) x) := by
  have ht := resident_translate st V P (k / 4) hr (by omega)
  have e : 4 * (k / 4) = k := by omega
  rw [e] at ht
  rw [u32_in_page V k hr.2.1 hr.2.2.1 hk, store_of_translate h st _ _ _ ht]

end Machine

/-! ## Source function `VMPool::allocate` on a backed region table -/

namespace VMPool

/-- The number of pages `allocate` computes is the size rounded up to whole pages. -/
theorem pages_count_eq (s : Nat) (hs : s < WORD) :
    u32 (s / PAGE_SIZE + (if s % PAGE_SIZE > 0 then 1 else 0)) = (s + PAGE_SIZE - 1) / PAGE_SIZE := by
  unfold PAGE_SIZE
  unfold WORD at hs
  have h : s / 4096 + (if s % 4096 > 0 then 1 else 0) = (s + 4096 - 1) / 4096 := by
    split <;> omega
  rw [h]
  exact ContFramePool.u32_of_lt _ (by unfold WORD; omega)

/-- A request above `free_memory` fails the assertion: the kernel halts with nothing
changed. -/
theorem allocate_fatal (d k : Nat) (st : Machine) (p : VMPool) (s : Nat)
    (hp : st.vm_pool_list[k]? = some p) (hs : ¬ s ≤ p.free_memory) :
    allocate d k st s = Outcome.fatal st := by
  simp only [allocate, hp, if_neg hs]

/-- What `allocate` does when the region table's page is backed by the frame at `P` and the
new record fits that page: two words of the frame are written, the object's two counters
change, and the value returned is the `base_addr` just stored. -/
theorem allocate_resident (d k : Nat) (st : Machine) (p : VMPool) (P s : Nat)
    (hp : st.vm_pool_list[k]? = some p) (hr : st.resident p.vmpool_regions P)
    (h1 : 1 ≤ p.allocated_regions) (h2 : p.allocated_regions < 512)
    (hs : s ≤ p.free_memory) (hw : s < WORD) :
    allocate d k st s
      = Outcome.ok
        (u32 (st.region_base P (p.allocated_regions - 1)
          + st.region_size P (p.allocated_regions - 1)))
        (((st.write (P + 8 * p.allocated_regions)
            (u32 (st.region_base P (p.allocated_regions - 1)
              + st.region_size P (p.allocated_regions - 1)))).write
            (P + 8 * p.allocated_regions + 4)
            (u32 ((s + PAGE_SIZE - 1) / PAGE_SIZE * PAGE_SIZE))).set_vm_pool k
          { p with
            free_memory := sub32 p.free_memory
              (u32 ((s + PAGE_SIZE - 1) / PAGE_SIZE * PAGE_SIZE))
            allocated_regions := p.allocated_regions + 1 }) := by
  have hsub : sub32 p.allocated_regions 1 = p.allocated_regions - 1 :=
    ContFramePool.sub32_of_le _ _ h1
  have hadd : u32 (p.allocated_regions + 1) = p.allocated_regions + 1 :=
    ContFramePool.u32_of_lt _ (by unfold WORD; omega)
  have hsub2 : sub32 (p.allocated_regions + 1) 1 = p.allocated_regions :=
    ContFramePool.sub32_of_le _ _ (by omega)
  have hPf := Machine.resident_frame st _ P hr
  unfold Machine.region_base Machine.region_size
  generalize hb : st.mem (P + 8 * (p.allocated_regions - 1)) = b
  generalize hsz : st.mem (P + 8 * (p.allocated_regions - 1) + 4) = sz
  generalize hx : u32 ((s + PAGE_SIZE - 1) / PAGE_SIZE * PAGE_SIZE) = x
  have hr1 := Machine.resident_write st _ P (P + 8 * p.allocated_regions) (u32 (b + sz)) hr
    (by omega)
  have hr2 := Machine.resident_write _ _ P (P + 8 * p.allocated_regions + 4) x hr1 (by omega)
  have hl1 := Machine.load_resident (PageTable.handle_fault d) st _ P
    (8 * (p.allocated_regions - 1)) hr (by omega) (by omega)
  have hl2 := Machine.load_resident (PageTable.handle_fault d) st _ P
    (8 * (p.allocated_regions - 1) + 4) hr (by omega) (by omega)
  have hs1 := Machine.store_resident (PageTable.handle_fault d) st _ P
    (8 * p.allocated_regions) (u32 (b + sz)) hr (by omega) (by omega)
  have hs2 := Machine.store_resident (PageTable.handle_fault d) _ _ P
    (8 * p.allocated_regions + 4) x hr1 (by omega) (by omega)
  have hl3 := Machine.load_resident (PageTable.handle_fault d)
    (((st.write (P + 8 * p.allocated_regions) (u32 (b + sz))).write
        (P + 8 * p.allocated_regions + 4) x).set_vm_pool k
      { p with
        free_memory := sub32 p.free_memory x
        allocated_regions := p.allocated_regions + 1 })
    _ P (8 * p.allocated_regions) (Machine.resident_set_vm_pool _ _ _ _ _ hr2)
    (by omega) (by omega)
  rw [Machine.set_vm_pool_mem, Machine.write_mem_other _ _ _ _ (by omega),
    Machine.write_mem_same] at hl3
  simp only [← Nat.add_assoc] at hl2 hs2
  rw [hsz] at hl2
  rw [hb] at hl1
  simp only [allocate, hp, if_pos hs, hsub, hadd, hsub2, pages_count_eq s hw, hx]
  rw [hl1, Outcome.bind_ok, hl2, Outcome.bind_ok, hs1, Outcome.bind_ok, hs2, Outcome.bind_ok,
    hl3, Outcome.bind_ok]

end VMPool

/-! ## Source function `PageTable::free_page` without a page fault -/

theorem or_two_and_one (e : Nat) : (e ||| 0b10) &&& 1 = e &&& 1 := by
  rw [Nat.and_distrib_right]
  show e &&& 1 ||| 0 = e &&& 1
  rw [Nat.or_zero]

theorem or_two_and_hi (e : Nat) : (e ||| 0b10) &&& 0xFFFFF000 = e &&& 0xFFFFF000 := by
  rw [Nat.and_distrib_right]
  show e &&& 0xFFFFF000 ||| 0 = e &&& 0xFFFFF000
  rw [Nat.or_zero]

theorem or_two_idem (e : Nat) : (e ||| 0b10) ||| 0b10 = e ||| 0b10 := by
  rw [Nat.or_assoc, Nat.or_self]

namespace Machine

theorem marked_refl (st : Machine) (P : Nat) : st.marked st P :=
  ⟨rfl, rfl, rfl, fun _ => Or.inl rfl, fun _ _ _ => rfl⟩

theorem marked_trans (st st1 st2 : Machine) (P : Nat) (h1 : st.marked st1 P)
    (h2 : st1.marked st2 P) : st.marked st2 P := by
  obtain ⟨a1, b1, c1, d1, e1⟩ := h1
  obtain ⟨a2, b2, c2, d2, e2⟩ := h2
  refine ⟨a2.trans a1, b2.trans b1, c2.trans c1, ?_, ?_⟩
  · intro x
    rcases d2 x with h | h <;> rcases d1 x with g | g
    · exact Or.inl (h.trans g)
    · exact Or.inr (h.trans g)
    · right; rw [h, g]
    · right; rw [h, g, or_two_idem]
  · intro x hx1 hx2
    rw [e2 x hx1 hx2, e1 x hx1 hx2]

/-- Setting bit 1 changes neither the present bit nor the frame of an entry. -/
theorem marked_present (st st1 : Machine) (P x : Nat) (h : st.marked st1 P) :
    st1.mem x &&& 1 = st.mem x &&& 1 := by
  rcases h.2.2.2.1 x with g | g
  · rw [g]
  · rw [g, or_two_and_one]

theorem marked_frame (st st1 : Machine) (P x : Nat) (h : st.marked st1 P) :
    st1.mem x &&& 0xFFFFF000 = st.mem x &&& 0xFFFFF000 := by
  rcases h.2.2.2.1 x with g | g
  · rw [g]
  · rw [g, or_two_and_hi]

theorem marked_pde_addr (st st1 : Machine) (P v : Nat) (h : st.marked st1 P) :
    st1.pde_addr v = st.pde_addr v := by
  unfold pde_addr
  rw [h.2.1]

theorem marked_pte_addr (st st1 : Machine) (P v : Nat) (h : st.marked st1 P) :
    pte_addr (st1.mem (st1.pde_addr v)) v = pte_addr (st.mem (st.pde_addr v)) v := by
  unfold pte_addr
  rw [marked_pde_addr st st1 P v h, marked_frame st st1 P _ h]

/-- The hardware walk does not see bit 1 of the entries. -/
theorem marked_translate (st st1 : Machine) (P v : Nat) (h : st.marked st1 P) :
    st1.translate v = st.translate v := by
  have hp := marked_pte_addr st st1 P v h
  have h1 := marked_present st st1 P (st.pde_addr v) h
  have h2 := marked_present st st1 P (pte_addr (st.mem (st.pde_addr v)) v) h
  have h3 := marked_frame st st1 P (pte_addr (st.mem (st.pde_addr v)) v) h
  unfold translate
  rw [h.1, hp, marked_pde_addr st st1 P v h, h1, h2, h3]

theorem marked_window_ok (st st1 : Machine) (P : Nat) (h : st.marked st1 P)
    (hw : st.window_ok) : st1.window_ok := by
  obtain ⟨hon, h1, h2⟩ := hw
  refine ⟨?_, ?_, ?_⟩
  · unfold paging_on; rw [h.1]; exact hon
  · unfold entry_present
    rw [marked_pde_addr st st1 P _ h, marked_present st st1 P _ h]
    exact h1
  · unfold entry_frame
    rw [marked_pde_addr st st1 P _ h, marked_frame st st1 P _ h, h.2.1]
    exact h2

theorem marked_resident (st st1 : Machine) (V P : Nat) (h : st.marked st1 P)
    (hr : st.resident V P) : st1.resident V P := by
  obtain ⟨hon, hV, hw, h1, h2, hP, hs1, hs2⟩ := hr
  have hpte := marked_pte_addr st st1 P V h
  refine ⟨?_, hV, hw, ?_, ?_, ?_, ?_, ?_⟩
  · unfold paging_on; rw [h.1]; exact hon
  · unfold entry_present
    rw [marked_pde_addr st st1 P _ h, marked_present st st1 P _ h]
    exact h1
  · unfold entry_present
    rw [hpte, marked_present st st1 P _ h]
    exact h2
  · unfold entry_frame
    rw [hpte, marked_frame st st1 P _ h]
    exact hP
  · rw [marked_pde_addr st st1 P _ h]; exact hs1
  · rw [hpte]; exact hs2

theorem marked_pages_tabled (st st1 : Machine) (P a n : Nat) (h : st.marked st1 P)
    (hp : st.pages_tabled P a n) : st1.pages_tabled P a n := by
  refine ⟨hp.1, ?_⟩
  intro t ht
  obtain ⟨h1, h2⟩ := hp.2 t ht
  refine ⟨?_, ?_⟩
  · unfold entry_present
    rw [marked_pde_addr st st1 P _ h, marked_present st st1 P _ h]
    exact h1
  · rw [marked_pte_addr st st1 P _ h]; exact h2

/-- The address `free_page` forms for the leaf entry of `a`. -/
theorem free_vaddr_eq (a : Nat) (ha : a < WORD) :
    u32 ((u32 (0x000003FF <<< 22) ||| u32 (((a &&& 0xFFC00000) >>> 22) <<< 12))
        + 4 * ((a &&& 0x003FF000) >>> 12))
      = 0xFFC00000 + a / 4194304 * 4096 + 4 * (a / 4096 % 1024) := by
  unfold WORD at ha
  have h1 : u32 (0x000003FF <<< 22) = 0xFFC00000 := by decide
  have h2 : u32 (((a &&& 0xFFC00000) >>> 22) <<< 12) = a / 4194304 * 4096 := by
    rw [and_top, Nat.shiftLeft_eq, Nat.mod_eq_of_lt (by omega)]
    exact ContFramePool.u32_of_lt _ (by unfold WORD; omega)
  rw [h1, h2, and_mid_lit, or_window _ (by omega)]
  exact ContFramePool.u32_of_lt _ (by unfold WORD; omega)

end Machine

namespace PageTable

/-- A call of `free_page` for a page whose directory entry is present, through a working
window, by the loaded page table: if it returns, it has set bit 1 of the page's table entry
and changed pool objects, nothing else. -/
theorem free_page_marked (d : Nat) (this : PageTable) (st st1 : Machine) (P a : Nat)
    (ha : a < WORD) (hw : st.window_ok) (hcr3 : this.page_directory = st.cr3)
    (hpde : entry_present (st.mem (st.pde_addr a)))
    (hX : Machine.pte_addr (st.mem (st.pde_addr a)) a < P ∨
      P + 4096 ≤ Machine.pte_addr (st.mem (st.pde_addr a)) a)
    (hret : free_page d this st a = Outcome.ok () st1) : st.marked st1 P := by
  obtain ⟨hon, hself1, hself2⟩ := hw
  have ht := Machine.translate_leaf_window st a ha hon hself1 hself2 hpde
  unfold free_page at hret
  rw [Machine.free_vaddr_eq a ha, Machine.load_of_translate _ st _ _ ht, Outcome.bind_ok]
    at hret
  unfold Machine.pool_release_frames at hret
  split at hret
  case isFalse => cases hret
  generalize hrel : ContFramePool.release_frames st.frame_pools
    ((st.mem (Machine.pte_addr (st.mem (st.pde_addr a)) a) &&& 0xFFFFF000) / PAGE_SIZE) = o
    at hret
  cases o with
  | fatal pools => cases hret
  | ok u pools =>
    have ht2 : Machine.translate { st with frame_pools := pools }
        (0xFFC00000 + a / 4194304 * 4096 + 4 * (a / 4096 % 1024))
        = some (Machine.pte_addr (st.mem (st.pde_addr a)) a) := ht
    simp only [Outcome.bind_ok] at hret
    rw [Machine.load_of_translate _ _ _ _ ht2, Outcome.bind_ok,
      Machine.store_of_translate _ _ _ _ _ ht2, Outcome.bind_ok] at hret
    cases hret
    refine ⟨rfl, hcr3, rfl, ?_, ?_⟩
    · intro x
      by_cases hx : x = Machine.pte_addr (st.mem (st.pde_addr a)) a
      · right
        subst hx
        exact Machine.write_mem_same _ _ _
      · left
        exact Machine.write_mem_other _ _ _ _ hx
    · intro x hx1 hx2
      exact Machine.write_mem_other _ _ _ _ (by omega)

end PageTable

namespace VMPool

/-- The page-freeing loop of `release`, when no call of `free_page` takes a page fault: if it
returns, it has set bit 1 of table entries and changed pool objects, nothing else. -/
theorem release_pages_marked (d : Nat) (pt : PageTable) (P : Nat) :
    ∀ n a st st1, st.window_ok → pt.page_directory = st.cr3 → st.pages_tabled P a n →
      release_pages d pt n a st = Outcome.ok () st1 → st.marked st1 P := by
  intro n
  induction n with
  | zero =>
    intro a st st1 _ _ _ hret
    cases hret
    exact Machine.marked_refl st P
  | succ n ih =>
    intro a st st1 hw hcr3 hp hret
    obtain ⟨hfit, hall⟩ := hp
    have h0 := hall 0 (by omega)
    rw [Nat.zero_mul, Nat.add_zero] at h0
    have ha : a < WORD := by unfold PAGE_SIZE at hfit; omega
    rw [release_pages] at hret
    obtain ⟨_, s1, hfp, hret⟩ := Outcome.bind_eq_ok _ _ _ _ hret
    have hm := PageTable.free_page_marked d pt st s1 P a ha hw hcr3 h0.1 h0.2 hfp
    cases n with
    | zero =>
      cases hret
      exact hm
    | succ m =>
      have hu : u32 (a + PAGE_SIZE) = a + PAGE_SIZE :=
        ContFramePool.u32_of_lt _ (by unfold PAGE_SIZE at hfit ⊢; omega)
      rw [hu] at hret
      have hp1 : st.pages_tabled P (a + PAGE_SIZE) (m + 1) := by
        refine ⟨by unfold PAGE_SIZE at hfit ⊢; omega, ?_⟩
        intro t ht
        have := hall (t + 1) (by omega)
        have e : a + (t + 1) * PAGE_SIZE = a + PAGE_SIZE + t * PAGE_SIZE := by
          unfold PAGE_SIZE; omega
        rw [e] at this
        exact this
      exact Machine.marked_trans st s1 st1 P hm
        (ih (a + PAGE_SIZE) s1 st1 (Machine.marked_window_ok st s1 P hm hw)
          (hcr3.trans hm.2.1.symm) (Machine.marked_pages_tabled st s1 P _ _ hm hp1) hret)

end VMPool

/-! ## Source function `VMPool::release` on a backed region table -/

namespace Machine

/-- What the scan computes: the start index given, when no record of the range matches, or
else the index of a matching record of the range. -/
theorem scan_index_spec (st : Machine) (P a : Nat) :
    ∀ k i idx,
      (st.scan_index P a k i idx = idx ∧ ∀ j, i ≤ j → j < i + k → st.region_base P j ≠ a) ∨
      (i ≤ st.scan_index P a k i idx ∧ st.scan_index P a k i idx < i + k ∧
        st.region_base P (st.scan_index P a k i idx) = a) := by
  intro k
  induction k with
  | zero =>
    intro i idx
    exact Or.inl ⟨rfl, fun j h1 h2 => absurd h2 (by omega)⟩
  | succ k ih =>
    intro i idx
    rw [scan_index]
    rcases ih (i + 1) (if st.region_base P i = a then i else idx) with ⟨h1, h2⟩ | ⟨h1, h2, h3⟩
    · by_cases hm : st.region_base P i = a
      · right
        rw [h1, if_pos hm]
        exact ⟨Nat.le_refl _, by omega, hm⟩
      · left
        rw [h1, if_neg hm]
        refine ⟨rfl, ?_⟩
        intro j hj1 hj2
        rcases Nat.eq_or_lt_of_le hj1 with e | e
        · rw [← e]; exact hm
        · exact h2 j e (by omega)
    · right
      exact ⟨by omega, by omega, h3⟩

theorem shift_down_succ (st : Machine) (P i k : Nat) :
    ((st.write (P + 8 * i) (st.mem (P + 8 * (i + 1)))).write (P + 8 * i + 4)
        (st.mem (P + 8 * (i + 1) + 4))).shift_down P (i + 1) k
      = st.shift_down P i (k + 1) := by
  cases st
  simp only [shift_down, write]
  congr 1
  funext a
  by_cases h1 : a = P + 8 * i
  · subst h1
    rw [if_neg (by omega), if_neg (by omega), if_pos rfl, if_pos (by omega)]
    congr 1
  · by_cases h2 : a = P + 8 * i + 4
    · subst h2
      rw [if_neg (by omega), if_pos rfl, if_pos (by omega)]
      congr 1
    · by_cases h3 : P + 8 * (i + 1) ≤ a ∧ a < P + 8 * (i + 1 + k) ∧ (a - P) % 4 = 0
      · rw [if_pos h3, if_neg (by omega), if_neg (by omega), if_pos (by omega)]
      · rw [if_neg h3, if_neg h2, if_neg h1, if_neg (by omega)]

theorem shift_down_zero (st : Machine) (P i : Nat) : st.shift_down P i 0 = st := by
  cases st
  simp only [shift_down]
  congr 1
  funext a
  rw [if_neg (by omega)]

@[simp] theorem shift_down_vm_pool_list (st : Machine) (P i k : Nat) :
    (st.shift_down P i k).vm_pool_list = st.vm_pool_list := rfl

theorem shift_down_mem_in (st : Machine) (P i k j : Nat) (h1 : i ≤ j) (h2 : j < i + k) :
    (st.shift_down P i k).mem (P + 8 * j) = st.mem (P + 8 * (j + 1)) ∧
    (st.shift_down P i k).mem (P + 8 * j + 4) = st.mem (P + 8 * (j + 1) + 4) := by
  simp only [shift_down]
  rw [if_pos (by omega), if_pos (by omega)]
  exact ⟨rfl, by congr 1⟩

theorem shift_down_mem_out (st : Machine) (P i k a : Nat)
    (h : a < P + 8 * i ∨ P + 8 * (i + k) ≤ a) : (st.shift_down P i k).mem a = st.mem a := by
  simp only [shift_down]
  rw [if_neg (by omega)]

/-- The shift within the frame of a backed page leaves the page backed by that frame. -/
theorem resident_shift_down (st : Machine) (V P i k : Nat) (h : st.resident V P)
    (hk : i + k ≤ 512) : (st.shift_down P i k).resident V P := by
  obtain ⟨hon, hV, hw, h1, h2, hP, hs1, hs2⟩ := h
  have e1 : (st.shift_down P i k).mem (st.pde_addr V) = st.mem (st.pde_addr V) := by
    simp only [shift_down]
    rw [if_neg (by omega)]
  have e2 : (st.shift_down P i k).mem (pte_addr (st.mem (st.pde_addr V)) V)
      = st.mem (pte_addr (st.mem (st.pde_addr V)) V) := by
    simp only [shift_down]
    rw [if_neg (by omega)]
  have e0 : (st.shift_down P i k).pde_addr V = st.pde_addr V := rfl
  refine ⟨hon, hV, hw, ?_, ?_, ?_, ?_, ?_⟩
  · rw [e0, e1]; exact h1
  · rw [e0, e1, e2]; exact h2
  · rw [e0, e1, e2]; exact hP
  · rw [e0]; exact hs1
  · rw [e0, e1]; exact hs2

end Machine

namespace VMPool

/-- The scan of a backed region table reads the frame and changes nothing. -/
theorem release_scan_resident (h : Handler) (st : Machine) (V P a : Nat)
    (hr : st.resident V P) :
    ∀ k i idx, i + k ≤ 512 →
      release_scan h V a k i idx st = Outcome.ok (st.scan_index P a k i idx) st := by
  intro k
  induction k with
  | zero => intro i idx _; rfl
  | succ k ih =>
    intro i idx hk
    rw [release_scan, Machine.load_resident h st V P (8 * i) hr (by omega) (by omega),
      Outcome.bind_ok, ih (i + 1) _ (by omega)]
    rfl

/-- The shift loop on a backed region table moves the records down within the frame. -/
theorem release_shift_resident (h : Handler) (V P : Nat) :
    ∀ k i st, st.resident V P → i + k ≤ 511 →
      release_shift h V k i st = Outcome.ok () (st.shift_down P i k) := by
  intro k
  induction k with
  | zero =>
    intro i st _ _
    rw [release_shift, Machine.shift_down_zero]
  | succ k ih =>
    intro i st hr hk
    have hr1 := Machine.resident_write st V P (P + 8 * i) (st.mem (P + 8 * (i + 1))) hr
      (by omega)
    have hr2 := Machine.resident_write _ V P (P + 8 * i + 4) (st.mem (P + 8 * (i + 1) + 4))
      hr1 (by omega)
    have hl1 := Machine.load_resident h st V P (8 * (i + 1)) hr (by omega) (by omega)
    have hl2 := Machine.load_resident h st V P (8 * (i + 1) + 4) hr (by omega) (by omega)
    have hs1 := Machine.store_resident h st V P (8 * i) (st.mem (P + 8 * (i + 1))) hr
      (by omega) (by omega)
    have hs2 := Machine.store_resident h _ V P (8 * i + 4) (st.mem (P + 8 * (i + 1) + 4)) hr1
      (by omega) (by omega)
    simp only [← Nat.add_assoc] at hl2 hs2
    rw [release_shift, hl1, Outcome.bind_ok, hl2, Outcome.bind_ok, hs1, Outcome.bind_ok, hs2,
      Outcome.bind_ok, ih (i + 1) _ hr2 (by omega), Machine.shift_down_succ]

end VMPool

namespace VMPool

/-- What a returning `release` has done, when the region table's page is backed by the frame
at `P`, a live record `j ≥ 1` has the base `a`, and no `free_page` takes a page fault: the
index `idx` found is that of a live record with base `a`; the frame holds the table with
records `idx`, ..., `allocated_regions - 1` replaced by their upper neighbours;
`free_memory` has grown by the `size` member that record `idx + 1` had; the count is one
less; outside the frame, bit 1 of table entries and pool objects may have changed. -/
theorem release_found (d k : Nat) (st st1 : Machine) (p : VMPool) (P a : Nat)
    (hp : st.vm_pool_list[k]? = some p) (hr : st.resident p.vmpool_regions P)
    (har : p.allocated_regions ≤ 511)
    (hfound : ∃ j, 1 ≤ j ∧ j < p.allocated_regions ∧ st.region_base P j = a)
    (hw : st.window_ok) (hcr3 : p.page_table.page_directory = st.cr3)
    (hpages : ∀ j, 1 ≤ j → j < p.allocated_regions → st.region_base P j = a →
      st.pages_tabled P a (st.region_size P j / PAGE_SIZE))
    (hret : release d k st a = Outcome.ok () st1) :
    (1 ≤ st.scan_index P a (p.allocated_regions - 1) 1 (WORD - 1) ∧
      st.scan_index P a (p.allocated_regions - 1) 1 (WORD - 1) < p.allocated_regions ∧
      st.region_base P (st.scan_index P a (p.allocated_regions - 1) 1 (WORD - 1)) = a) ∧
    ∃ s3, st.marked s3 P ∧
      st1 = ((s3.shift_down P (st.scan_index P a (p.allocated_regions - 1) 1 (WORD - 1))
          (p.allocated_regions
            - st.scan_index P a (p.allocated_regions - 1) 1 (WORD - 1))).set_vm_pool k
        { p with
          free_memory := u32 (p.free_memory + st.region_size P
            (st.scan_index P a (p.allocated_regions - 1) 1 (WORD - 1) + 1))
          allocated_regions := p.allocated_regions - 1 }) := by
  obtain ⟨j, hj1, hj2, hj3⟩ := hfound
  have hidx : 1 ≤ st.scan_index P a (p.allocated_regions - 1) 1 (WORD - 1) ∧
      st.scan_index P a (p.allocated_regions - 1) 1 (WORD - 1) < p.allocated_regions ∧
      st.region_base P (st.scan_index P a (p.allocated_regions - 1) 1 (WORD - 1)) = a := by
    rcases Machine.scan_index_spec st P a (p.allocated_regions - 1) 1 (WORD - 1) with
      ⟨_, h2⟩ | ⟨h1, h2, h3⟩
    · exact absurd hj3 (h2 j hj1 (by omega))
    · exact ⟨h1, by omega, h3⟩
  refine ⟨hidx, ?_⟩
  have hscan := release_scan_resident (PageTable.handle_fault d) st p.vmpool_regions P a hr
    (p.allocated_regions - 1) 1 (WORD - 1) (by omega)
  simp only [release, hp] at hret
  rw [hscan, Outcome.bind_ok] at hret
  generalize st.scan_index P a (p.allocated_regions - 1) 1 (WORD - 1) = idx at hidx hret ⊢
  obtain ⟨hi1, hi2, hi3⟩ := hidx
  have hl := Machine.load_resident (PageTable.handle_fault d) st p.vmpool_regions P
    (8 * idx + 4) hr (by omega) (by omega)
  simp only [← Nat.add_assoc] at hl
  rw [hl, Outcome.bind_ok] at hret
  obtain ⟨_, s3, hpg, hret⟩ := Outcome.bind_eq_ok _ _ _ _ hret
  have hm := release_pages_marked d p.page_table P _ a st s3 hw hcr3
    (hpages idx hi1 hi2 hi3) hpg
  have hr3 := Machine.marked_resident st s3 p.vmpool_regions P hm hr
  rw [release_shift_resident _ p.vmpool_regions P (p.allocated_regions - idx) idx s3 hr3
    (by omega), Outcome.bind_ok] at hret
  have hr4 := Machine.resident_shift_down s3 p.vmpool_regions P idx
    (p.allocated_regions - idx) hr3 (by omega)
  have hl2 := Machine.load_resident (PageTable.handle_fault d) _ p.vmpool_regions P
    (8 * idx + 4) hr4 (by omega) (by omega)
  simp only [← Nat.add_assoc] at hl2
  rw [hl2, Outcome.bind_ok] at hret
  have hval : (s3.shift_down P idx (p.allocated_regions - idx)).mem (P + 8 * idx + 4)
      = st.region_size P (idx + 1) := by
    rw [(Machine.shift_down_mem_in s3 P idx (p.allocated_regions - idx) idx (Nat.le_refl _)
      (by omega)).2]
    exact hm.2.2.2.2 _ (by omega) (by omega)
  rw [hval, ContFramePool.sub32_of_le _ _ (by omega)] at hret
  cases hret
  exact ⟨s3, hm, rfl⟩

end VMPool

/-! ## The region table under construction, `allocate` and `release` -/

namespace Machine

theorem set_vm_pool_get (st : Machine) (k : Nat) (p q : VMPool)
    (hp : st.vm_pool_list[k]? = some p) : (st.set_vm_pool k q).vm_pool_list[k]? = some q := by
  have hlt : k < st.vm_pool_list.length := by
    rcases Nat.lt_or_ge k st.vm_pool_list.length with h | h
    · exact h
    · rw [List.getElem?_eq_none h] at hp
      cases hp
  simp [set_vm_pool, hlt]

end Machine

namespace VMPool

/-- The constructor, when the first page of the window is backed by the frame at `P` once
its first store has been served (`sH` is the machine at that moment: the machine after
registration if the page was backed already, or what the fault handler leaves): it returns,
the two words of record 0 are in the frame, and the object is the last of the registry. -/
theorem construct_resident (d : Nat) (raw : VMPool) (st sH : Machine) (b sz fp P : Nat)
    (pt : PageTable)
    (hsH : sH = PageTable.register_pool st
          { raw with base_address := b, size := sz, frame_pool := fp, page_table := pt } ∨
      ((PageTable.register_pool st
          { raw with base_address := b, size := sz, frame_pool := fp,
                     page_table := pt }).translate b = none ∧
        PageTable.handle_fault d (PageTable.register_pool st
          { raw with base_address := b, size := sz, frame_pool := fp, page_table := pt }) 2 b
          = Outcome.ok () sH))
    (hres : sH.resident b P) :
    construct d raw st b sz fp pt
      = Outcome.ok
        { base_address := b, size := sz, frame_pool := fp, page_table := pt,
          vmpool_regions := b, allocated_regions := 1,
          free_memory := sub32 raw.free_memory PAGE_SIZE }
        (((sH.write P b).write (P + 4) PAGE_SIZE).with_vm_pools
          (st.vm_pool_list ++
            [{ base_address := b, size := sz, frame_pool := fp, page_table := pt,
               vmpool_regions := b, allocated_regions := 1,
               free_memory := sub32 raw.free_memory PAGE_SIZE }])) := by
  have hPf := Machine.resident_frame sH b P hres
  have hu0 : u32 (b + 8 * 0) = b := by
    have := Machine.u32_in_page b 0 hres.2.1 hres.2.2.1 (by decide)
    rwa [Nat.add_zero] at this
  have hu4 : u32 (b + 8 * 0 + 4) = u32 (b + 4) := rfl
  have ht0 : sH.translate b = some P := by
    have := Machine.resident_translate sH b P 0 hres (by decide)
    rwa [Nat.mul_zero, Nat.add_zero, Nat.add_zero] at this
  have hlist : sH.vm_pool_list = st.vm_pool_list ++
      [{ raw with base_address := b, size := sz, frame_pool := fp, page_table := pt }] := by
    rcases hsH with h | ⟨_, h⟩
    · rw [h]; rfl
    · have := PageTable.handle_fault_keeps _ PageTable.keeps_vm_pool_list d
        (PageTable.register_pool st
          { raw with base_address := b, size := sz, frame_pool := fp, page_table := pt }) 2 b
      rw [h] at this
      exact this
  have h1 : (PageTable.register_pool st
        { raw with base_address := b, size := sz, frame_pool := fp, page_table := pt }).store
        (PageTable.handle_fault d) (u32 (b + 8 * 0)) b = Outcome.ok () (sH.write P b) := by
    rw [hu0]
    rcases hsH with h | ⟨hn, h⟩
    · rw [← h]
      exact Machine.store_of_translate _ sH b P b ht0
    · exact Machine.store_fault _ _ sH b b P hn h ht0
  have hr1 := Machine.resident_write sH b P P b hres (by omega)
  have h2 : (sH.write P b).store (PageTable.handle_fault d) (u32 (b + 8 * 0 + 4)) PAGE_SIZE
      = Outcome.ok () ((sH.write P b).write (P + 4) PAGE_SIZE) := by
    rw [hu4]
    exact Machine.store_resident _ _ b P 4 PAGE_SIZE hr1 (by decide) (by decide)
  rw [construct_of_stores d raw st _ _ b sz fp pt h1 h2]
  congr 1
  show Machine.with_vm_pools _ _ = _
  congr 1
  show sH.vm_pool_list.dropLast ++ _ = _
  rw [hlist, List.dropLast_concat]

end VMPool

namespace Machine

/-- The records of the table after the two writes of `allocate`. -/
theorem allocate_table (st : Machine) (P n v1 v2 k : Nat) (q : VMPool) :
    (∀ i, i < n →
      (((st.write (P + 8 * n) v1).write (P + 8 * n + 4) v2).set_vm_pool k q).region_base P i
        = st.region_base P i ∧
      (((st.write (P + 8 * n) v1).write (P + 8 * n + 4) v2).set_vm_pool k q).region_size P i
        = st.region_size P i) ∧
    (((st.write (P + 8 * n) v1).write (P + 8 * n + 4) v2).set_vm_pool k q).region_base P n = v1 ∧
    (((st.write (P + 8 * n) v1).write (P + 8 * n + 4) v2).set_vm_pool k q).region_size P n = v2 := by
  unfold region_base region_size
  refine ⟨fun i hi => ⟨?_, ?_⟩, ?_, ?_⟩
  · rw [set_vm_pool_mem, write_mem_other _ _ _ _ (by omega), write_mem_other _ _ _ _ (by omega)]
  · rw [set_vm_pool_mem, write_mem_other _ _ _ _ (by omega), write_mem_other _ _ _ _ (by omega)]
  · rw [set_vm_pool_mem, write_mem_other _ _ _ _ (by omega), write_mem_same]
  · rw [set_vm_pool_mem, write_mem_same]

/-- The records of the table after the shift of `release`, in a machine `s3` whose frame at
`P` holds what it held in `st`. -/
theorem release_table (st s3 : Machine) (P idx n k : Nat) (q : VMPool)
    (hm : st.marked s3 P) (hn : n ≤ 511) (hidx : idx < n) :
    (∀ i, i < idx →
      ((s3.shift_down P idx (n - idx)).set_vm_pool k q).region_base P i = st.region_base P i ∧
      ((s3.shift_down P idx (n - idx)).set_vm_pool k q).region_size P i
        = st.region_size P i) ∧
    (∀ i, idx ≤ i → i < n →
      ((s3.shift_down P idx (n - idx)).set_vm_pool k q).region_base P i
        = st.region_base P (i + 1) ∧
      ((s3.shift_down P idx (n - idx)).set_vm_pool k q).region_size P i
        = st.region_size P (i + 1)) := by
  unfold region_base region_size
  refine ⟨fun i hi => ⟨?_, ?_⟩, fun i h1 h2 => ?_⟩
  · rw [set_vm_pool_mem, shift_down_mem_out _ _ _ _ _ (by omega)]
    exact hm.2.2.2.2 _ (by omega) (by omega)
  · rw [set_vm_pool_mem, shift_down_mem_out _ _ _ _ _ (by omega)]
    exact hm.2.2.2.2 _ (by omega) (by omega)
  · have h := shift_down_mem_in s3 P idx (n - idx) i h1 (by omega)
    rw [set_vm_pool_mem, h.1, h.2]
    exact ⟨hm.2.2.2.2 _ (by omega) (by omega), hm.2.2.2.2 _ (by omega) (by omega)⟩

end Machine

/-! ## The sequential file: closed forms of the two loops -/

namespace File

/-- The loop of `File::Write` from `len`, with the position at most the size: it makes
`min k (min (_n - len) (size - pos))` iterations. -/
theorem Write_loop_spec (_n : Nat) (_buf : Nat → Nat) :
    ∀ (k len : Nat) (f : File), f.pos ≤ f.size → f.size < WORD →
      (Write_loop _n _buf k len f).1 = len + min k (min (_n - len) (f.size - f.pos)) ∧
      (Write_loop _n _buf k len f).2.size = f.size ∧
      (Write_loop _n _buf k len f).2.pos
        = f.pos + min k (min (_n - len) (f.size - f.pos)) ∧
      ∀ j, (Write_loop _n _buf k len f).2.block_cache j
        = if f.pos ≤ j ∧ j < f.pos + min k (min (_n - len) (f.size - f.pos)) then
            _buf (len + (j - f.pos)) % 256
          else f.block_cache j := by
  intro k
  induction k with
  | zero =>
    intro len f _ _
    refine ⟨by simp [Write_loop], rfl, by simp [Write_loop], fun j => ?_⟩
    rw [if_neg (by omega)]
    rfl
  | succ k ih =>
    intro len f hp hs
    by_cases hc : ¬ EoF f ∧ len < _n
    · have hne : f.pos ≠ f.size := by
        have := hc.1
        simpa [EoF] using this
      have hu : u32 (f.pos + 1) = f.pos + 1 := by
        unfold u32
        exact Nat.mod_eq_of_lt (by omega)
      have h := ih (len + 1)
        { f with
          block_cache := fun j => if j = f.pos then _buf len % 256 else f.block_cache j
          pos := u32 (f.pos + 1) } (by show u32 (f.pos + 1) ≤ f.size; omega) hs
      rw [Write_loop, if_pos hc]
      obtain ⟨h1, h2, h3, h4⟩ := h
      simp only [hu] at h1 h2 h3 h4 ⊢
      refine ⟨by rw [h1]; omega, h2, by rw [h3]; omega, fun j => ?_⟩
      rw [h4 j]
      by_cases hj : j = f.pos
      · subst hj
        rw [if_neg (by omega), if_pos rfl, if_pos (by omega), Nat.sub_self, Nat.add_zero]
      · by_cases hj2 : f.pos + 1 ≤ j ∧ j < f.pos + 1 + min k (min (_n - (len + 1)) (f.size - (f.pos + 1)))
        · rw [if_pos hj2, if_pos (by omega)]
          congr 2
          omega
        · rw [if_neg hj2, if_neg hj, if_neg (by omega)]
    · rw [Write_loop, if_neg hc]
      have hz : min (k + 1) (min (_n - len) (f.size - f.pos)) = 0 := by
        have : f.pos = f.size ∨ ¬ len < _n := by
          by_cases he : f.pos = f.size
          · exact Or.inl he
          · refine Or.inr fun hl => hc ⟨?_, hl⟩
            simpa [EoF] using he
        omega
      rw [hz]
      refine ⟨rfl, rfl, rfl, fun j => ?_⟩
      rw [if_neg (by omega)]

/-- The loop of `File::Read` from `len`, with the position at most the size. -/
theorem Read_loop_spec (_n : Nat) :
    ∀ (k len : Nat) (_buf : Nat → Nat) (f : File), f.pos ≤ f.size → f.size < WORD →
      (Read_loop _n k len _buf f).1 = len + min k (min (_n - len) (f.size - f.pos)) ∧
      ∀ j, (Read_loop _n k len _buf f).2.1 j
        = if len ≤ j ∧ j < len + min k (min (_n - len) (f.size - f.pos)) then
            f.block_cache (f.pos + (j - len)) % 256
          else _buf j := by
  intro k
  induction k with
  | zero =>
    intro len _buf f _ _
    refine ⟨by simp [Read_loop], fun j => ?_⟩
    rw [if_neg (by omega)]
    rfl
  | succ k ih =>
    intro len _buf f hp hs
    by_cases hc : ¬ EoF f ∧ len < _n
    · have hne : f.pos ≠ f.size := by
        have := hc.1
        simpa [EoF] using this
      have hu : u32 (f.pos + 1) = f.pos + 1 := by
        unfold u32
        exact Nat.mod_eq_of_lt (by omega)
      have h := ih (len + 1) (fun j => if j = len then f.block_cache f.pos % 256 else _buf j)
        { f with pos := u32 (f.pos + 1) } (by show u32 (f.pos + 1) ≤ f.size; omega) hs
      rw [Read_loop, if_pos hc]
      obtain ⟨h1, h4⟩ := h
      simp only [hu] at h1 h4 ⊢
      refine ⟨by rw [h1]; omega, fun j => ?_⟩
      rw [h4 j]
      by_cases hj : j = len
      · subst hj
        rw [if_neg (by omega), if_pos rfl, if_pos (by omega), Nat.sub_self, Nat.add_zero]
      · by_cases hj2 : len + 1 ≤ j ∧ j < len + 1 + min k (min (_n - (len + 1)) (f.size - (f.pos + 1)))
        · rw [if_pos hj2, if_pos (by omega)]
          congr 2
          omega
        · rw [if_neg hj2, if_neg hj, if_neg (by omega)]
    · rw [Read_loop, if_neg hc]
      have hz : min (k + 1) (min (_n - len) (f.size - f.pos)) = 0 := by
        have : f.pos = f.size ∨ ¬ len < _n := by
          by_cases he : f.pos = f.size
          · exact Or.inl he
          · refine Or.inr fun hl => hc ⟨?_, hl⟩
            simpa [EoF] using he
        omega
      rw [hz]
      refine ⟨rfl, fun j => ?_⟩
      rw [if_neg (by omega)]

/-- The size after the two adjustments of `File::Write`, when the sum `pos + _n` does not
wrap. -/
theorem Write_size_eq (f : File) (_n : Nat) (h : f.pos + _n < WORD) :
    Write_size f _n = min (max f.size (f.pos + _n)) DISK_BLOCK_SIZE := by
  have hu : u32 (f.pos + _n) = f.pos + _n := Nat.mod_eq_of_lt h
  unfold Write_size DISK_BLOCK_SIZE
  rw [hu]
  split <;> split <;> omega

end File

/-! ## Five hundred and eleven allocations -/

namespace Machine

/-- A fill that stays inside the frame of a backed page leaves the page backed by that
frame. -/
theorem resident_fill (st : Machine) (V P i k : Nat) (val : Nat → Nat) (h : st.resident V P)
    (hk : i + k ≤ 1024) : (st.fill P i k val).resident V P := by
  obtain ⟨hon, hV, hw, h1, h2, hP, hs1, hs2⟩ := h
  have e1 : (st.fill P i k val).mem (st.pde_addr V) = st.mem (st.pde_addr V) := by
    simp only [fill]
    rw [if_neg (by omega)]
  have e2 : (st.fill P i k val).mem (pte_addr (st.mem (st.pde_addr V)) V)
      = st.mem (pte_addr (st.mem (st.pde_addr V)) V) := by
    simp only [fill]
    rw [if_neg (by omega)]
  have e0 : (st.fill P i k val).pde_addr V = st.pde_addr V := rfl
  refine ⟨hon, hV, hw, ?_, ?_, ?_, ?_, ?_⟩
  · rw [e0, e1]; exact h1
  · rw [e0, e1, e2]; exact h2
  · rw [e0, e1, e2]; exact hP
  · rw [e0]; exact hs1
  · rw [e0, e1]; exact hs2

/-- A fill grows by one word at its upper end. -/
theorem fill_snoc (st : Machine) (P i k : Nat) (val : Nat → Nat) :
    (st.fill P i k val).write (P + 4 * (i + k)) (val (i + k)) = st.fill P i (k + 1) val := by
  cases st
  simp only [fill, write]
  congr 1
  funext a
  by_cases ha : a = P + 4 * (i + k)
  · subst ha
    rw [if_pos rfl, if_pos (by omega)]
    congr 1
    omega
  · by_cases hin : P + 4 * i ≤ a ∧ a < P + 4 * (i + k) ∧ (a - P) % 4 = 0
    · rw [if_neg ha, if_pos hin, if_pos (by omega)]
    · rw [if_neg ha, if_neg hin, if_neg (by omega)]

theorem fill_none (st : Machine) (P i : Nat) (val : Nat → Nat) : st.fill P i 0 val = st := by
  cases st
  simp only [fill]
  congr 1
  funext a
  rw [if_neg (by omega)]

/-- Two writes and a registry update on a machine with a given registry. -/
theorem write_write_set (st : Machine) (l : List VMPool) (a v b w k : Nat) (q : VMPool) :
    (((st.with_vm_pools l).write a v).write b w).set_vm_pool k q
      = ((st.write a v).write b w).with_vm_pools (l.set k q) := rfl

/-- The machine `backed_b` is the closed form at no allocation. -/
theorem filled_zero : filled 0 = backed_b := by
  unfold filled backed_b
  rw [Nat.mul_zero, fill_none]
  rfl

/-- The constructor `VMPool(0x40000000, 4 MiB, process pool, page table)` on the machine
`paged`, in storage whose `free_memory` word holds the size. -/
theorem paged_vmpool_b_construct (d : Nat) :
    VMPool.construct d raw_pool_b paged 0x40000000 0x400000 1 { page_directory := 0x9000 }
      = Outcome.ok pool_b backed_b := by
  have hf : PageTable.handle_fault d
      (PageTable.register_pool paged
        { raw_pool_b with base_address := 0x40000000, size := 0x400000, frame_pool := 1,
                          page_table := { page_directory := 0x9000 } }) 2 0x40000000
      = Outcome.ok () (touched.with_vm_pools
        [{ raw_pool_b with base_address := 0x40000000, size := 0x400000, frame_pool := 1,
                           page_table := { page_directory := 0x9000 } }]) := by
    have h := PageTable.handle_fault_ignores d paged
      [{ raw_pool_b with base_address := 0x40000000, size := 0x400000, frame_pool := 1,
                         page_table := { page_directory := 0x9000 } }] 2 0x40000000
    rw [paged_fault d] at h
    exact h
  rw [VMPool.construct_resident d raw_pool_b paged _ 0x40000000 0x400000 1 0x13000
    { page_directory := 0x9000 } (Or.inr ⟨by decide, hf⟩) (by decide)]
  rfl

theorem region_word_even (i : Nat) : region_word (2 * i) = 0x40000000 + 0x1000 * i := by
  unfold region_word
  rw [if_pos (by omega)]
  congr 2
  omega

theorem region_word_odd (i : Nat) : region_word (2 * i + 1) = 0x1000 := by
  unfold region_word
  rw [if_neg (by omega)]

/-- The records of the closed form. -/
theorem filled_records (m i : Nat) (hi : i ≤ m) :
    (filled m).region_base 0x13000 i = 0x40000000 + 0x1000 * i ∧
      (filled m).region_size 0x13000 i = 0x1000 := by
  have e1 : (filled m).region_base 0x13000 i
      = (backed.fill 0x13000 2 (2 * m) region_word).mem (0x13000 + 4 * (2 * i)) := by
    show (backed.fill 0x13000 2 (2 * m) region_word).mem (0x13000 + 8 * i) = _
    congr 1
    omega
  have e2 : (filled m).region_size 0x13000 i
      = (backed.fill 0x13000 2 (2 * m) region_word).mem (0x13000 + 4 * (2 * i + 1)) := by
    show (backed.fill 0x13000 2 (2 * m) region_word).mem (0x13000 + 8 * i + 4) = _
    congr 1
    omega
  rw [e1, e2]
  rcases Nat.eq_zero_or_pos i with h0 | h0
  · subst h0
    rw [fill_mem_out _ _ _ _ _ _ (by omega), fill_mem_out _ _ _ _ _ _ (by omega)]
    exact ⟨rfl, rfl⟩
  · rw [fill_mem_in _ _ _ _ _ _ (by omega) (by omega),
      fill_mem_in _ _ _ _ _ _ (by omega) (by omega), region_word_even, region_word_odd]
    exact ⟨rfl, rfl⟩

theorem filled_resident (m : Nat) (hm : m ≤ 511) :
    (filled m).resident 0x40000000 0x13000 := by
  have h : (backed.fill 0x13000 2 (2 * m) region_word).resident 0x40000000 0x13000 :=
    resident_fill backed 0x40000000 0x13000 2 (2 * m) region_word (by decide) (by omega)
  exact h

/-- One more `allocate(0x1000)` on the closed form. -/
theorem filled_step (d m : Nat) (hm : m < 511) :
    VMPool.allocate d 0 (filled m) 0x1000
      = Outcome.ok (0x40000000 + 0x1000 * (m + 1)) (filled (m + 1)) := by
  have hr := filled_resident m (by omega)
  obtain ⟨hb, hz⟩ := filled_records m m (Nat.le_refl m)
  have h := VMPool.allocate_resident d 0 (filled m)
    { pool_b with allocated_regions := 1 + m, free_memory := 0x3FF000 - 0x1000 * m }
    0x13000 0x1000 rfl hr (by show 1 ≤ 1 + m; omega) (by show 1 + m < 512; omega)
    (by show 0x1000 ≤ 0x3FF000 - 0x1000 * m; omega) (by decide)
  rw [h]
  have e1 : (1 : Nat) + m - 1 = m := by omega
  have hu : u32 (0x40000000 + 0x1000 * m + 0x1000) = 0x40000000 + 0x1000 * (m + 1) := by
    unfold u32 WORD
    rw [Nat.mod_eq_of_lt (by omega)]
    omega
  have hv : u32 ((0x1000 + PAGE_SIZE - 1) / PAGE_SIZE * PAGE_SIZE) = 0x1000 := by decide
  have hs : sub32 (0x3FF000 - 0x1000 * m) 0x1000 = 0x3FF000 - 0x1000 * (m + 1) := by
    rw [ContFramePool.sub32_of_le _ _ (by omega)]
    omega
  have f1 := fill_snoc backed 0x13000 2 (2 * m) region_word
  have f2 := fill_snoc backed 0x13000 2 (2 * m + 1) region_word
  rw [show 2 + 2 * m = 2 * (m + 1) by omega, region_word_even] at f1
  rw [show 2 + (2 * m + 1) = 2 * (m + 1) + 1 by omega, region_word_odd] at f2
  have a1 : 0x13000 + 8 * (1 + m) = 0x13000 + 4 * (2 * (m + 1)) := by omega
  have a2 : 0x13000 + 8 * (1 + m) + 4 = 0x13000 + 4 * (2 * (m + 1) + 1) := by omega
  have hfill : ((backed.fill 0x13000 2 (2 * m) region_word).write (0x13000 + 8 * (1 + m))
          (0x40000000 + 0x1000 * (m + 1))).write (0x13000 + 8 * (1 + m) + 4) 0x1000
      = backed.fill 0x13000 2 (2 * (m + 1)) region_word := by
    rw [a2, a1, f1, f2, show 2 * m + 1 + 1 = 2 * (m + 1) by omega]
  refine congrArg₂ Outcome.ok ?_ ?_
  · show u32 ((filled m).region_base 0x13000 (1 + m - 1)
        + (filled m).region_size 0x13000 (1 + m - 1)) = _
    rw [e1, hb, hz, hu]
  · show (((filled m).write (0x13000 + 8 * (1 + m))
        (u32 ((filled m).region_base 0x13000 (1 + m - 1)
          + (filled m).region_size 0x13000 (1 + m - 1)))).write (0x13000 + 8 * (1 + m) + 4)
        (u32 ((0x1000 + PAGE_SIZE - 1) / PAGE_SIZE * PAGE_SIZE))).set_vm_pool 0
        { base_address := 0x40000000, size := 0x400000, frame_pool := 1,
          page_table := { page_directory := 0x9000 }, vmpool_regions := 0x40000000,
          allocated_regions := 1 + m + 1,
          free_memory := sub32 (0x3FF000 - 0x1000 * m)
            (u32 ((0x1000 + PAGE_SIZE - 1) / PAGE_SIZE * PAGE_SIZE)) } = _
    rw [e1, hb, hz, hu, hv, hs]
    unfold filled
    rw [write_write_set, hfill, show 1 + m + 1 = 1 + (m + 1) by omega]
    rfl

/-- The closed form is what the calls leave. -/
theorem allocate_run_filled (d : Nat) :
    ∀ n m, m + n ≤ 511 → VMPool.allocate_run d 0 0x1000 n (filled m) = filled (m + n) := by
  intro n
  induction n with
  | zero => intro m _; rfl
  | succ n ih =>
    intro m h
    rw [VMPool.allocate_run, filled_step d m (by omega)]
    show VMPool.allocate_run d 0 0x1000 n (filled (m + 1)) = _
    rw [ih (m + 1) (by omega)]
    congr 1
    omega

/-- The machine `full` is `backed_b` after 511 calls `allocate(0x1000)`. -/
theorem full_reached (d : Nat) : VMPool.allocate_run d 0 0x1000 511 backed_b = full := by
  rw [← filled_zero, allocate_run_filled d 511 0 (by omega)]
  rfl

end Machine

/-! ## What `allocate` and `release` do to the region table -/

namespace VMPool

/-- The effect of a call `allocate(s)` that passes the assertion, on a pool whose region
table is backed by the frame at `P` and holds fewer than 512 records. -/
theorem allocate_effect (d k : Nat) (st : Machine) (p : VMPool) (P s : Nat)
    (hp : st.vm_pool_list[k]? = some p) (hr : st.resident p.vmpool_regions P)
    (h1 : 1 ≤ p.allocated_regions) (h2 : p.allocated_regions < 512)
    (hs : s ≤ p.free_memory) (hw : s < WORD) :
    ∃ st1,
      allocate d k st s
        = Outcome.ok
          (u32 (st.region_base P (p.allocated_regions - 1)
            + st.region_size P (p.allocated_regions - 1))) st1 ∧
      st1.vm_pool_list[k]? = some
        { p with
          free_memory := sub32 p.free_memory
            (u32 ((s + PAGE_SIZE - 1) / PAGE_SIZE * PAGE_SIZE))
          allocated_regions := p.allocated_regions + 1 } ∧
      (∀ i, i < p.allocated_regions →
        st1.region_base P i = st.region_base P i ∧
        st1.region_size P i = st.region_size P i) ∧
      st1.region_base P p.allocated_regions
        = u32 (st.region_base P (p.allocated_regions - 1)
            + st.region_size P (p.allocated_regions - 1)) ∧
      st1.region_size P p.allocated_regions
        = u32 ((s + PAGE_SIZE - 1) / PAGE_SIZE * PAGE_SIZE) ∧
      st1.frame_pools = st.frame_pools ∧ st1.cr0 = st.cr0 ∧ st1.cr3 = st.cr3 ∧
      (∀ a, a ≠ P + 8 * p.allocated_regions → a ≠ P + 8 * p.allocated_regions + 4 →
        st1.mem a = st.mem a) ∧
      st1.resident p.vmpool_regions P := by
  refine ⟨_, allocate_resident d k st p P s hp hr h1 h2 hs hw,
    Machine.set_vm_pool_get _ k p _ hp, ?_⟩
  obtain ⟨t1, t2, t3⟩ := Machine.allocate_table st P p.allocated_regions
    (u32 (st.region_base P (p.allocated_regions - 1)
      + st.region_size P (p.allocated_regions - 1)))
    (u32 ((s + PAGE_SIZE - 1) / PAGE_SIZE * PAGE_SIZE)) k
    { p with
      free_memory := sub32 p.free_memory (u32 ((s + PAGE_SIZE - 1) / PAGE_SIZE * PAGE_SIZE))
      allocated_regions := p.allocated_regions + 1 }
  refine ⟨t1, t2, t3, rfl, rfl, rfl, fun a ha1 ha2 => ?_, ?_⟩
  · rw [Machine.set_vm_pool_mem, Machine.write_mem_other _ _ _ _ ha2,
      Machine.write_mem_other _ _ _ _ ha1]
  · refine Machine.resident_set_vm_pool _ _ _ _ _ ?_
    refine Machine.resident_write _ _ _ _ _ ?_ (by omega)
    exact Machine.resident_write _ _ _ _ _ hr (by omega)

end VMPool

namespace Machine

/-- In a gapless table every live record starts at or after the base of the window. -/
theorem contiguous_lower (st : Machine) (P : Nat) (p : VMPool)
    (hc : st.regions_contiguous P p) :
    ∀ i, i < p.allocated_regions → p.base_address ≤ st.region_base P i := by
  intro i
  induction i with
  | zero => intro _; rw [hc.1]
  | succ i ih =>
    intro hi
    have := ih (by omega)
    rw [hc.2.2 i (by omega)]
    omega

/-- In a gapless table every live record ends at or before the end of the last one. -/
theorem contiguous_upper (st : Machine) (P : Nat) (p : VMPool)
    (hc : st.regions_contiguous P p) :
    ∀ n i, i + n = p.allocated_regions - 1 →
      st.region_base P i + st.region_size P i
        ≤ st.region_base P (p.allocated_regions - 1)
          + st.region_size P (p.allocated_regions - 1) := by
  intro n
  induction n with
  | zero =>
    intro i hi
    rw [show p.allocated_regions - 1 = i by omega]
  | succ n ih =>
    intro i hi
    have h1 := ih (i + 1) (by omega)
    have h2 := hc.2.2 i (by omega)
    omega

/-- With a gapless table and exact accounting every live region lies inside the window. -/
theorem regions_inside (st : Machine) (P : Nat) (p : VMPool)
    (hc : st.regions_contiguous P p) (ha : st.accounted P p) :
    ∀ i, i < p.allocated_regions →
      p.base_address ≤ st.region_base P i ∧
      st.region_base P i + st.region_size P i ≤ p.base_address + p.size := by
  intro i hi
  have h1 := contiguous_lower st P p hc i hi
  have h2 := contiguous_upper st P p hc (p.allocated_regions - 1 - i) i (by omega)
  have h3 := ha.2.2
  exact ⟨h1, by omega⟩

/-- A gapless table is in order. -/
theorem contiguous_ordered (st : Machine) (P : Nat) (p : VMPool)
    (hc : st.regions_contiguous P p) : st.regions_ordered P p :=
  ⟨hc.1, hc.2.1, fun i hi => by rw [hc.2.2 i hi]⟩

end Machine

namespace VMPool

/-- A call `allocate(s)` that passes the assertion keeps the table in order, and gapless if
it was, when the last region ends below 4 GiB. -/
theorem allocate_ordered (d k : Nat) (st : Machine) (p : VMPool) (P s : Nat)
    (hp : st.vm_pool_list[k]? = some p) (hr : st.resident p.vmpool_regions P)
    (h1 : 1 ≤ p.allocated_regions) (h2 : p.allocated_regions < 512)
    (hs : s ≤ p.free_memory) (hw : s < WORD)
    (hend : st.region_base P (p.allocated_regions - 1)
      + st.region_size P (p.allocated_regions - 1) < WORD)
    (ho : st.regions_ordered P p) :
    ∃ a st1 p1, allocate d k st s = Outcome.ok a st1 ∧ st1.vm_pool_list[k]? = some p1 ∧
      p1.base_address = p.base_address ∧ p1.allocated_regions = p.allocated_regions + 1 ∧
      st1.resident p1.vmpool_regions P ∧
      st1.regions_ordered P p1 ∧ (st.regions_contiguous P p → st1.regions_contiguous P p1) := by
  obtain ⟨st1, e1, e2, e3, e4, e5, _, _, _, _, e6⟩ := allocate_effect d k st p P s hp hr h1 h2 hs hw
  refine ⟨_, st1, _, e1, e2, rfl, rfl, e6, ?_, ?_⟩
  · refine ⟨?_, ?_, ?_⟩
    · rw [(e3 0 (by omega)).1]; exact ho.1
    · rw [(e3 0 (by omega)).2]; exact ho.2.1
    · intro i hi
      have hi2 : i < p.allocated_regions := by
        have : i < p.allocated_regions + 1 - 1 := hi
        omega
      rcases Nat.lt_or_ge (i + 1) p.allocated_regions with h | h
      · rw [(e3 i hi2).1, (e3 i hi2).2, (e3 (i + 1) h).1]
        exact ho.2.2 i (by omega)
      · have hi3 : i + 1 = p.allocated_regions := by omega
        rw [(e3 i hi2).1, (e3 i hi2).2, hi3, e4, ContFramePool.u32_of_lt _ hend,
          show p.allocated_regions - 1 = i by omega]
  · intro hc
    refine ⟨?_, ?_, ?_⟩
    · rw [(e3 0 (by omega)).1]; exact hc.1
    · rw [(e3 0 (by omega)).2]; exact hc.2.1
    · intro i hi
      have hi2 : i < p.allocated_regions := by
        have : i < p.allocated_regions + 1 - 1 := hi
        omega
      rcases Nat.lt_or_ge (i + 1) p.allocated_regions with h | h
      · rw [(e3 i hi2).1, (e3 i hi2).2, (e3 (i + 1) h).1]
        exact hc.2.2 i (by omega)
      · have hi3 : i + 1 = p.allocated_regions := by omega
        rw [(e3 i hi2).1, (e3 i hi2).2, hi3, e4, ContFramePool.u32_of_lt _ hend,
          show p.allocated_regions - 1 = i by omega]

/-- A call `allocate(s)` that passes the assertion keeps the accounting exact, on a gapless
table. -/
theorem allocate_accounted (d k : Nat) (st : Machine) (p : VMPool) (P s : Nat)
    (hp : st.vm_pool_list[k]? = some p) (hr : st.resident p.vmpool_regions P)
    (h1 : 1 ≤ p.allocated_regions) (h2 : p.allocated_regions < 512)
    (hs : s ≤ p.free_memory)
    (hc : st.regions_contiguous P p) (ha : st.accounted P p) :
    ∃ a st1 p1, allocate d k st s = Outcome.ok a st1 ∧ st1.vm_pool_list[k]? = some p1 ∧
      p1.base_address = p.base_address ∧ p1.size = p.size ∧
      p1.allocated_regions = p.allocated_regions + 1 ∧
      st1.resident p1.vmpool_regions P ∧
      st1.regions_contiguous P p1 ∧ st1.accounted P p1 ∧
      a = st1.region_base P p.allocated_regions ∧
      st1.region_size P p.allocated_regions = (s + PAGE_SIZE - 1) / PAGE_SIZE * PAGE_SIZE := by
  obtain ⟨a1, a2, a3⟩ := ha
  have hw : s < WORD := by omega
  have hend : st.region_base P (p.allocated_regions - 1)
      + st.region_size P (p.allocated_regions - 1) < WORD := by omega
  have hpg : (s + PAGE_SIZE - 1) / PAGE_SIZE * PAGE_SIZE ≤ p.free_memory := by
    unfold PAGE_SIZE at a2 ⊢
    omega
  have hv : u32 ((s + PAGE_SIZE - 1) / PAGE_SIZE * PAGE_SIZE)
      = (s + PAGE_SIZE - 1) / PAGE_SIZE * PAGE_SIZE := ContFramePool.u32_of_lt _ (by omega)
  obtain ⟨st1, e1, e2, e3, e4, e5, _, _, _, _, e6⟩ := allocate_effect d k st p P s hp hr h1 h2 hs hw
  obtain ⟨_, st1', p1', e1', e2', _, _, _, _, hc'⟩ :=
    allocate_ordered d k st p P s hp hr h1 h2 hs hw hend (Machine.contiguous_ordered st P p hc)
  rw [e1] at e1'
  cases e1'
  rw [e2] at e2'
  cases e2'
  refine ⟨_, st1, _, e1, e2, rfl, rfl, rfl, e6, hc' hc, ⟨a1, ?_, ?_⟩, e4.symm, by rw [e5, hv]⟩
  · show sub32 p.free_memory (u32 ((s + PAGE_SIZE - 1) / PAGE_SIZE * PAGE_SIZE)) % PAGE_SIZE = 0
    rw [hv, ContFramePool.sub32_of_le _ _ hpg]
    unfold PAGE_SIZE at a2 hpg ⊢
    omega
  · show st1.region_base P (p.allocated_regions + 1 - 1)
        + st1.region_size P (p.allocated_regions + 1 - 1)
        + sub32 p.free_memory (u32 ((s + PAGE_SIZE - 1) / PAGE_SIZE * PAGE_SIZE))
      = p.base_address + p.size
    rw [Nat.add_sub_cancel, e4, e5, hv, ContFramePool.sub32_of_le _ _ hpg,
      ContFramePool.u32_of_lt _ hend]
    omega

/-- A returning `release(a)` of a live region keeps the table in order. -/
theorem release_ordered (d k : Nat) (st st1 : Machine) (p : VMPool) (P a : Nat)
    (hp : st.vm_pool_list[k]? = some p) (hr : st.resident p.vmpool_regions P)
    (har : p.allocated_regions ≤ 511)
    (hfound : ∃ j, 1 ≤ j ∧ j < p.allocated_regions ∧ st.region_base P j = a)
    (hw : st.window_ok) (hcr3 : p.page_table.page_directory = st.cr3)
    (hpages : ∀ j, 1 ≤ j → j < p.allocated_regions → st.region_base P j = a →
      st.pages_tabled P a (st.region_size P j / PAGE_SIZE))
    (ho : st.regions_ordered P p)
    (hret : release d k st a = Outcome.ok () st1) :
    ∃ p1, st1.vm_pool_list[k]? = some p1 ∧ p1.base_address = p.base_address ∧
      p1.allocated_regions = p.allocated_regions - 1 ∧
      st1.resident p1.vmpool_regions P ∧ st1.regions_ordered P p1 := by
  obtain ⟨⟨i1, i2, _⟩, s3, hm, hst⟩ :=
    release_found d k st st1 p P a hp hr har hfound hw hcr3 hpages hret
  generalize st.scan_index P a (p.allocated_regions - 1) 1 (WORD - 1) = idx at i1 i2 hst
  obtain ⟨t1, t2⟩ := Machine.release_table st s3 P idx p.allocated_regions k
    { p with
      free_memory := u32 (p.free_memory + st.region_size P (idx + 1))
      allocated_regions := p.allocated_regions - 1 } hm har i2
  have hp3 : s3.vm_pool_list[k]? = some p := by rw [hm.2.2.1]; exact hp
  subst hst
  refine ⟨_, Machine.set_vm_pool_get _ k p _ ?_, rfl, rfl, ?_, ?_, ?_, ?_⟩
  · rw [Machine.shift_down_vm_pool_list]; exact hp3
  · refine Machine.resident_set_vm_pool _ _ _ _ _ ?_
    exact Machine.resident_shift_down _ _ _ _ _ (Machine.marked_resident st s3 _ P hm hr)
      (by omega)
  · rw [(t1 0 (by omega)).1]; exact ho.1
  · rw [(t1 0 (by omega)).2]; exact ho.2.1
  · intro i hi
    have hi2 : i < p.allocated_regions - 1 - 1 := hi
    have o1 := ho.2.2
    rcases Nat.lt_trichotomy (i + 1) idx with h | h | h
    · rw [(t1 i (by omega)).1, (t1 i (by omega)).2, (t1 (i + 1) h).1]
      exact o1 i (by omega)
    · rw [(t1 i (by omega)).1, (t1 i (by omega)).2, (t2 (i + 1) (by omega) (by omega)).1]
      have q1 := o1 i (by omega)
      have q2 := o1 (i + 1) (by omega)
      omega
    · rw [(t2 i (by omega) (by omega)).1, (t2 i (by omega) (by omega)).2,
        (t2 (i + 1) (by omega) (by omega)).1]
      exact o1 (i + 1) (by omega)

end VMPool

/-! ## The claims on `allocate`, `release`, `is_legitimate`, the file and the bitmap -/

/-- An operation that did not halt returned, with the state it reached. -/
theorem Outcome.eq_ok_of_not_fatal {σ : Type} (o : Outcome σ Unit) (h : o.isFatal = false) :
    o = Outcome.ok () o.state := by
  cases o with
  | ok v s => rfl
  | fatal s => cases h

namespace VMPool

/-- C21 (counterexample): the machine `full` is the machine `backed_b` (the 4 MiB pool at
0x40000000, constructed with 1023 pages free) after 511 calls `allocate(0x1000)`; its region
table holds 512 records, which fill the bookkeeping page, and 512 pages are free.  The next
`allocate(0x1000)` passes the assertion and returns, but record 512 lies on the next page of
the window, the never-touched first page of region 1: the store takes a page fault, the
handler draws a frame from the process pool (its Free frames fall from 12 to 11) and makes
the leaf entry of 0x40001000 present, and the record is written into that frame. -/
theorem allocate_full_table_draws_frame :
    allocate_run 0 0 0x1000 511 Machine.backed_b = Machine.full ∧
    Machine.full.vm_pool_list[0]? = some
      { Machine.pool_b with allocated_regions := 512, free_memory := 0x200000 } ∧
    (0x1000 : Nat) ≤ 0x200000 ∧
    Machine.full.resident 0x40000000 0x13000 ∧
    (allocate 0 0 Machine.full 0x1000).isFatal = false ∧
    Machine.full.free_frames 1 = some 12 ∧
    (allocate 0 0 Machine.full 0x1000).state.free_frames 1 = some 11 ∧
    Machine.full.translate 0x40001000 = none ∧
    (allocate 0 0 Machine.full 0x1000).state.translate 0x40001000 = some 0x14000 ∧
    (allocate 0 0 Machine.full 0x1000).state.mem 0x14000 = 0x40200000 :=
  ⟨Machine.full_reached 0, rfl, by decide, by decide, by decide, by decide, by decide,
    by decide, by decide, by decide⟩

/-- C21 (amended): on a pool whose region table is backed by the frame at `P` and holds
fewer than 512 records, `allocate(s)` halts, changing nothing, if `s` exceeds `free_memory`;
otherwise, with `pages = ceil(s / PAGE_SIZE)`, it returns the end address of the previously
last region, appends the record `{that address, pages * PAGE_SIZE}` to the table (the
records before it unchanged), raises the region count by 1, lowers `free_memory` by
`pages * PAGE_SIZE` (32-bit arithmetic), and changes no frame pool, neither control register
and no word of memory other than the two words of the new record. -/
theorem allocate_appends_record (d k : Nat) (st : Machine) (p : VMPool) (P s : Nat)
    (hp : st.vm_pool_list[k]? = some p) (hr : st.resident p.vmpool_regions P)
    (h1 : 1 ≤ p.allocated_regions) (h2 : p.allocated_regions < 512) (hw : s < WORD) :
    (p.free_memory < s → allocate d k st s = Outcome.fatal st) ∧
    (s ≤ p.free_memory →
      ∃ st1,
        allocate d k st s
          = Outcome.ok
            (u32 (st.region_base P (p.allocated_regions - 1)
              + st.region_size P (p.allocated_regions - 1))) st1 ∧
        st1.vm_pool_list[k]? = some
          { p with
            free_memory := sub32 p.free_memory
              (u32 ((s + PAGE_SIZE - 1) / PAGE_SIZE * PAGE_SIZE))
            allocated_regions := p.allocated_regions + 1 } ∧
        (∀ i, i < p.allocated_regions →
          st1.region_base P i = st.region_base P i ∧
          st1.region_size P i = st.region_size P i) ∧
        st1.region_base P p.allocated_regions
          = u32 (st.region_base P (p.allocated_regions - 1)
              + st.region_size P (p.allocated_regions - 1)) ∧
        st1.region_size P p.allocated_regions
          = u32 ((s + PAGE_SIZE - 1) / PAGE_SIZE * PAGE_SIZE) ∧
        st1.frame_pools = st.frame_pools ∧ st1.cr0 = st.cr0 ∧ st1.cr3 = st.cr3 ∧
        (∀ a, a ≠ P + 8 * p.allocated_regions → a ≠ P + 8 * p.allocated_regions + 4 →
          st1.mem a = st.mem a)) := by
  refine ⟨fun h => allocate_fatal d k st p s hp (by omega), fun hs => ?_⟩
  obtain ⟨st1, e1, e2, e3, e4, e5, e6, e7, e8, e9, _⟩ :=
    allocate_effect d k st p P s hp hr h1 h2 hs hw
  exact ⟨st1, e1, e2, e3, e4, e5, e6, e7, e8, e9⟩

/-- Witness of C21 (amended): the 3-page pool of the machine `built3`, whose table is backed
by frame 20, and `allocate(0x1000)`. -/
theorem allocate_appends_record_witness :
    (Machine.built3.vm_pool_list[1]? = some Machine.pool3 ∧
      Machine.built3.resident Machine.pool3.vmpool_regions 0x14000 ∧
      1 ≤ Machine.pool3.allocated_regions ∧ Machine.pool3.allocated_regions < 512 ∧
      0x1000 < WORD ∧ 0x1000 ≤ Machine.pool3.free_memory) ∧
    ∃ st1,
      allocate 0 1 Machine.built3 0x1000
        = Outcome.ok
          (u32 (Machine.built3.region_base 0x14000 (Machine.pool3.allocated_regions - 1)
            + Machine.built3.region_size 0x14000 (Machine.pool3.allocated_regions - 1)))
          st1 ∧
      st1.vm_pool_list[1]? = some
        { Machine.pool3 with
          free_memory := sub32 Machine.pool3.free_memory
            (u32 ((0x1000 + PAGE_SIZE - 1) / PAGE_SIZE * PAGE_SIZE))
          allocated_regions := Machine.pool3.allocated_regions + 1 } ∧
      (∀ i, i < Machine.pool3.allocated_regions →
        st1.region_base 0x14000 i = Machine.built3.region_base 0x14000 i ∧
        st1.region_size 0x14000 i = Machine.built3.region_size 0x14000 i) ∧
      st1.region_base 0x14000 Machine.pool3.allocated_regions
        = u32 (Machine.built3.region_base 0x14000 (Machine.pool3.allocated_regions - 1)
            + Machine.built3.region_size 0x14000 (Machine.pool3.allocated_regions - 1)) ∧
      st1.region_size 0x14000 Machine.pool3.allocated_regions
        = u32 ((0x1000 + PAGE_SIZE - 1) / PAGE_SIZE * PAGE_SIZE) ∧
      st1.frame_pools = Machine.built3.frame_pools ∧ st1.cr0 = Machine.built3.cr0 ∧
      st1.cr3 = Machine.built3.cr3 ∧
      (∀ a, a ≠ 0x14000 + 8 * Machine.pool3.allocated_regions →
        a ≠ 0x14000 + 8 * Machine.pool3.allocated_regions + 4 →
        st1.mem a = Machine.built3.mem a) :=
  ⟨⟨rfl, by decide, by decide, by decide, by decide, by decide⟩,
    (allocate_appends_record 0 1 Machine.built3 Machine.pool3 0x14000 0x1000 rfl (by decide)
      (by decide) (by decide) (by decide)).2 (by decide)⟩

/-- C22 (the code on the spec's own witness): the 3-page pool of the machine `built3` has
two pages free and one region; `allocate(0x1000)` returns `base + 1 page` and leaves one page
free and two regions.  With the page of region 1 touched, `release(base + 1 page)` returns
and leaves one region, but `free_memory` is still one page, not two: the statement
`free_memory += vmpool_regions[idx_region].size` runs after the shift loop, so it adds the
size member that the next slot held (zero here), not the size of the region released.
With the page never touched the same call halts the kernel. -/
theorem release_free_memory_not_restored :
    (Machine.built3.vm_pool_list[1]?.map fun p =>
      (p.base_address, p.size, p.allocated_regions, p.free_memory))
      = some (0x40100000, 0x3000, 1, 0x2000) ∧
    (allocate 0 1 Machine.built3 0x1000).value = some 0x40101000 ∧
    (Machine.alloc3.vm_pool_list[1]?.map fun p => (p.allocated_regions, p.free_memory))
      = some (2, 0x1000) ∧
    (Machine.alloc3_touched.vm_pool_list[1]?.map fun p =>
      (p.allocated_regions, p.free_memory)) = some (2, 0x1000) ∧
    Machine.alloc3_touched.region_base 0x14000 1 = 0x40101000 ∧
    Machine.alloc3_touched.region_size 0x14000 1 = 0x1000 ∧
    Machine.alloc3_touched.region_size 0x14000 2 = 0 ∧
    (release 0 1 Machine.alloc3_touched 0x40101000).isFatal = false ∧
    ((release 0 1 Machine.alloc3_touched 0x40101000).state.vm_pool_list[1]?.map fun p =>
      (p.allocated_regions, p.free_memory)) = some (1, 0x1000) ∧
    (release 0 1 Machine.alloc3 0x40101000).isFatal = true := by
  refine ⟨by decide, by decide, by decide, by decide, by decide, by decide, by decide,
    by decide, by decide, by decide⟩

/-- C23 (the code on an interior address): in the machine `alloc3` the pool has the regions
`{0x40100000, 0x1000}` and `{0x40101000, 0x1000}`; no record has the base 0x40101004.
`release(0x40101004)` does not halt: `idx_region` stays -1 and is never tested, the size is
read from `vmpool_regions[-1]` (the word at 0x400FFFFC, on a page that the read makes the
handler back with a frame: the process pool's Free frames fall from 11 to 10), and the call
returns with the region count lowered from 2 to 1. -/
theorem release_unmatched_returns :
    (Machine.alloc3.vm_pool_list[1]?.map fun p =>
      (p.base_address, p.allocated_regions, p.free_memory)) = some (0x40100000, 2, 0x1000) ∧
    Machine.alloc3.region_base 0x14000 0 = 0x40100000 ∧
    Machine.alloc3.region_base 0x14000 1 = 0x40101000 ∧
    Machine.alloc3.region_size 0x14000 1 = 0x1000 ∧
    (release 0 1 Machine.alloc3 0x40101004).isFatal = false ∧
    ((release 0 1 Machine.alloc3 0x40101004).state.vm_pool_list[1]?.map fun p =>
      (p.base_address, p.allocated_regions, p.free_memory)) = some (0x40100000, 1, 0x1000) ∧
    Machine.alloc3.free_frames 1 = some 11 ∧
    (release 0 1 Machine.alloc3 0x40101004).state.free_frames 1 = some 10 := by
  refine ⟨by decide, by decide, by decide, by decide, by decide, by decide, by decide,
    by decide⟩

/-- C25 (counterexample): a pool whose window is the last 256 MiB of the address space,
`base_address = 0xF0000000`, `size = 0x10000000`.  The address 0xF0000100 satisfies
`base_address ≤ a ≤ base_address + size` with the sum taken as an integer, but the code
computes the sum in 32 bits, where it is 0, and answers false. -/
theorem is_legitimate_wraps :
    Machine.pool_top.base_address ≤ 0xF0000100 ∧
    0xF0000100 ≤ Machine.pool_top.base_address + Machine.pool_top.size ∧
    0xF0000100 < WORD ∧
    is_legitimate Machine.pool_top 0xF0000100 = false := by
  refine ⟨by decide, by decide, by decide, by decide⟩

/-- C25 (amended): for every pool and every address `a`, `is_legitimate(a)` is true if and
only if `base_address ≤ a ≤ (base_address + size) mod 2^32`; when `base_address + size` is
below 2^32 this is `base_address ≤ a ≤ base_address + size`.  The function is a value
computed from the object and the address: it has no state to change. -/
theorem is_legitimate_iff (this : VMPool) (a : Nat) :
    (is_legitimate this a = true ↔
      this.base_address ≤ a ∧ a ≤ (this.base_address + this.size) % WORD) ∧
    (this.base_address + this.size < WORD →
      (is_legitimate this a = true ↔
        this.base_address ≤ a ∧ a ≤ this.base_address + this.size)) := by
  have h : is_legitimate this a = true ↔
      this.base_address ≤ a ∧ a ≤ (this.base_address + this.size) % WORD := by
    simp [is_legitimate, u32]
  refine ⟨h, fun hlt => ?_⟩
  rw [h, Nat.mod_eq_of_lt hlt]

/-- Witness of C25 (amended): the pool `pool_a`, 1 MiB at 0x40000000, and the address
0x40000800. -/
theorem is_legitimate_iff_witness :
    Machine.pool_a.base_address + Machine.pool_a.size < WORD ∧
    (is_legitimate Machine.pool_a 0x40000800 = true ↔
      Machine.pool_a.base_address ≤ 0x40000800 ∧
        0x40000800 ≤ Machine.pool_a.base_address + Machine.pool_a.size) :=
  ⟨by decide, (is_legitimate_iff Machine.pool_a 0x40000800).2 (by decide)⟩

/-- C26 (counterexample): the 3-page pool of `built3` (size 0x3000, a multiple of
`PAGE_SIZE`) after `allocate(0x1000)`, a store to the region returned, a second
`allocate(0x1000)` and `release` of the first region, every call returning normally: one
page is free again, but the bump pointer is the end of the last region, 0x40103000, the end
of the window.  The next `allocate(0x1000)` passes the assertion and returns 0x40103000: the
region `{0x40103000, 0x1000}` ends beyond `base_address + size`, and `is_legitimate` is
false at its address 0x40103800. -/
theorem allocate_beyond_window :
    (Machine.alloc3_released.vm_pool_list[1]?.map fun p =>
      (p.base_address, p.size, p.allocated_regions, p.free_memory))
      = some (0x40100000, 0x3000, 2, 0x1000) ∧
    0x3000 % PAGE_SIZE = 0 ∧
    (release 0 1 Machine.alloc3_two 0x40101000).isFatal = false ∧
    (allocate 0 1 Machine.alloc3_released 0x1000).value = some 0x40103000 ∧
    (allocate 0 1 Machine.alloc3_released 0x1000).state.region_base 0x14000 2
      = 0x40103000 ∧
    (allocate 0 1 Machine.alloc3_released 0x1000).state.region_size 0x14000 2 = 0x1000 ∧
    ((allocate 0 1 Machine.alloc3_released 0x1000).state.vm_pool_list[1]?.map fun p =>
      (p.allocated_regions, is_legitimate p 0x40103800)) = some (3, false) ∧
    0x40100000 + 0x3000 < 0x40103000 + 0x1000 := by
  refine ⟨by decide, by decide, by decide, by decide, by decide, by decide, by decide,
    by decide⟩

/-- C26 (amended): on a pool whose region table is backed by the frame at `P`, holds fewer
than 512 records and is gapless, and whose accounting is exact (the window ends below 4 GiB,
`free_memory` is a whole number of pages and the last region ends `free_memory` bytes below
the end of the window), a call `allocate(s)` that passes the assertion returns and keeps all
of this; afterwards every live region lies inside the window, and `is_legitimate` is true at
every address of the region returned.  So it is after every sequence of such calls with no
`release` among them. -/
theorem allocate_inside_window (d k : Nat) (st : Machine) (p : VMPool) (P s : Nat)
    (hp : st.vm_pool_list[k]? = some p) (hr : st.resident p.vmpool_regions P)
    (h1 : 1 ≤ p.allocated_regions) (h2 : p.allocated_regions < 512)
    (hs : s ≤ p.free_memory)
    (hc : st.regions_contiguous P p) (ha : st.accounted P p) :
    ∃ a st1 p1, allocate d k st s = Outcome.ok a st1 ∧ st1.vm_pool_list[k]? = some p1 ∧
      p1.base_address = p.base_address ∧ p1.size = p.size ∧
      p1.allocated_regions = p.allocated_regions + 1 ∧
      st1.resident p1.vmpool_regions P ∧
      st1.regions_contiguous P p1 ∧ st1.accounted P p1 ∧
      (∀ i, i < p1.allocated_regions →
        p1.base_address ≤ st1.region_base P i ∧
        st1.region_base P i + st1.region_size P i ≤ p1.base_address + p1.size) ∧
      a = st1.region_base P p.allocated_regions ∧
      st1.region_size P p.allocated_regions = (s + PAGE_SIZE - 1) / PAGE_SIZE * PAGE_SIZE ∧
      (∀ x, a ≤ x → x < a + st1.region_size P p.allocated_regions →
        is_legitimate p1 x = true) := by
  obtain ⟨a, st1, p1, e1, e2, e3, e4, e5, e6, e7, e8, e9, e10⟩ :=
    allocate_accounted d k st p P s hp hr h1 h2 hs hc ha
  have hin := Machine.regions_inside st1 P p1 e7 e8
  refine ⟨a, st1, p1, e1, e2, e3, e4, e5, e6, e7, e8, hin, e9, e10, fun x hx1 hx2 => ?_⟩
  have hb := hin p.allocated_regions (by omega)
  have hlt := e8.1
  rw [← e9] at hb
  simp only [is_legitimate, u32, Nat.mod_eq_of_lt hlt, Bool.and_eq_true, decide_eq_true_eq]
  omega

/-- Witness of C26 (amended): the 3-page pool of the machine `built3`, one region, two pages
free, and `allocate(0x1000)`. -/
theorem allocate_inside_window_witness :
    (Machine.built3.vm_pool_list[1]? = some Machine.pool3 ∧
      Machine.built3.resident Machine.pool3.vmpool_regions 0x14000 ∧
      1 ≤ Machine.pool3.allocated_regions ∧ Machine.pool3.allocated_regions < 512 ∧
      0x1000 ≤ Machine.pool3.free_memory ∧
      Machine.built3.regions_contiguous 0x14000 Machine.pool3 ∧
      Machine.built3.accounted 0x14000 Machine.pool3) ∧
    ∃ a st1 p1, allocate 0 1 Machine.built3 0x1000 = Outcome.ok a st1 ∧
      st1.vm_pool_list[1]? = some p1 ∧
      p1.base_address = Machine.pool3.base_address ∧ p1.size = Machine.pool3.size ∧
      p1.allocated_regions = Machine.pool3.allocated_regions + 1 ∧
      st1.resident p1.vmpool_regions 0x14000 ∧
      st1.regions_contiguous 0x14000 p1 ∧ st1.accounted 0x14000 p1 ∧
      (∀ i, i < p1.allocated_regions →
        p1.base_address ≤ st1.region_base 0x14000 i ∧
        st1.region_base 0x14000 i + st1.region_size 0x14000 i
          ≤ p1.base_address + p1.size) ∧
      a = st1.region_base 0x14000 Machine.pool3.allocated_regions ∧
      st1.region_size 0x14000 Machine.pool3.allocated_regions
        = (0x1000 + PAGE_SIZE - 1) / PAGE_SIZE * PAGE_SIZE ∧
      (∀ x, a ≤ x → x < a + st1.region_size 0x14000 Machine.pool3.allocated_regions →
        is_legitimate p1 x = true) :=
  ⟨⟨rfl, by decide, by decide, by decide, by decide, by decide, by decide⟩,
    allocate_inside_window 0 1 Machine.built3 Machine.pool3 0x14000 0x1000 rfl (by decide)
      (by decide) (by decide) (by decide) (by decide) (by decide)⟩

end VMPool

namespace PageTable

/-- C27 (the code on a page that was never touched): in the machine `alloc3` the page at
0x40101000, the page of region 1, is not mapped, and its leaf entry (word 257 of the table
in frame 18) is 0b100, not present.  `free_page(0x40101000)` does not test the present bit:
it passes the frame number 0 of that entry to `release_frames`, which halts the kernel
(frame 0 is in no pool), and so does `VMPool::release(0x40101000)`.  In the machine
`alloc_e` region 1 starts at 0x40400000, in a 4 MiB region whose directory entry (257) is
absent: `release(0x40400000)` makes `free_page` read the recursive window, the handler backs
that read with a frame from the process pool (Free frames fall from 11 to 10) which it
installs as directory entry 257, and then the kernel halts in the same way. -/
theorem free_page_absent_entry_halts :
    Machine.alloc3.translate 0x40101000 = none ∧
    Machine.alloc3.mem (0x9000 + 4 * 256) = 0x12003 ∧
    Machine.alloc3.mem (0x12000 + 4 * 257) = 0b100 ∧
    entry_present (Machine.alloc3.mem (0x12000 + 4 * 257)) = false ∧
    (free_page 0 { page_directory := 0x9000 } Machine.alloc3 0x40101000).isFatal = true ∧
    Machine.alloc3.region_base 0x14000 1 = 0x40101000 ∧
    (VMPool.release 0 1 Machine.alloc3 0x40101000).isFatal = true ∧
    Machine.alloc_e.region_base 0x14000 1 = 0x40400000 ∧
    Machine.alloc_e.region_size 0x14000 1 = 0x1000 ∧
    entry_present (Machine.alloc_e.mem (0x9000 + 4 * 257)) = false ∧
    Machine.alloc_e.free_frames 1 = some 11 ∧
    (VMPool.release 0 1 Machine.alloc_e 0x40400000).isFatal = true ∧
    (VMPool.release 0 1 Machine.alloc_e 0x40400000).state.free_frames 1 = some 10 ∧
    (VMPool.release 0 1 Machine.alloc_e 0x40400000).state.mem (0x9000 + 4 * 257)
      = 0x15003 := by
  refine ⟨by decide, by decide, by decide, by decide, by decide, by decide, by decide,
    by decide, by decide, by decide, by decide, by decide, by decide, by decide⟩

end PageTable

namespace File

/-- C28: for every file with `size ≤ 512` and every buffer of `n ≤ 512` bytes, `Write(n,
buf)` at position 0 (after `Reset`) returns `n` and leaves the size equal to
`max (old size) n`; a following `Reset` and `Read(n, out)` returns `n` with `out[j]` equal
to `buf[j]` for every `j < n`.  At any position `pos ≤ size`, `Write(n, buf)` returns
`min n (512 - pos)` and leaves the size at most 512. -/
theorem write_then_read (f : File) (n : Nat) (buf out : Nat → Nat)
    (hsize : f.size ≤ DISK_BLOCK_SIZE) (hn : n ≤ DISK_BLOCK_SIZE) (hpos : f.pos ≤ f.size)
    (hbuf : ∀ j, j < n → buf j < 256) :
    ((Write (Reset f) n buf).1 = n ∧
      (Write (Reset f) n buf).2.size = max f.size n ∧
      (Read (Reset (Write (Reset f) n buf).2) n out).1 = n ∧
      ∀ j, j < n → (Read (Reset (Write (Reset f) n buf).2) n out).2.1 j = buf j) ∧
    ((Write f n buf).1 = min n (DISK_BLOCK_SIZE - f.pos) ∧
      (Write f n buf).2.size ≤ DISK_BLOCK_SIZE) := by
  unfold DISK_BLOCK_SIZE at hsize hn
  have hW : ∀ g : File, g.pos ≤ g.size → g.size ≤ 512 →
      (Write g n buf).1 = min n (512 - g.pos) ∧
      (Write g n buf).2.size = min (max g.size (g.pos + n)) 512 ∧
      ∀ j, (Write g n buf).2.block_cache j
        = if g.pos ≤ j ∧ j < g.pos + min n (512 - g.pos) then buf (j - g.pos) % 256
          else g.block_cache j := by
    intro g hg1 hg2
    have hs := Write_size_eq g n (by unfold WORD; omega)
    unfold DISK_BLOCK_SIZE at hs
    obtain ⟨w1, w2, _, w4⟩ := Write_loop_spec n buf n 0 { g with size := Write_size g n }
      (by show g.pos ≤ Write_size g n; omega) (by show Write_size g n < WORD; unfold WORD; omega)
    have hm : min n (min (n - 0) (Write_size g n - g.pos)) = min n (512 - g.pos) := by
      omega
    refine ⟨?_, ?_, fun j => ?_⟩
    · show (Write_loop n buf n 0 { g with size := Write_size g n }).1 = _
      rw [w1]
      show 0 + min n (min (n - 0) (Write_size g n - g.pos)) = _
      omega
    · show (Write_loop n buf n 0 { g with size := Write_size g n }).2.size = _
      rw [w2]
      exact hs
    · show (Write_loop n buf n 0 { g with size := Write_size g n }).2.block_cache j = _
      rw [w4 j]
      show (if g.pos ≤ j ∧ j < g.pos + min n (min (n - 0) (Write_size g n - g.pos)) then
          buf (0 + (j - g.pos)) % 256 else g.block_cache j) = _
      rw [hm, Nat.zero_add]
  obtain ⟨a1, a2, a3⟩ := hW (Reset f) (Nat.zero_le _) hsize
  obtain ⟨b1, b2, _⟩ := hW f hpos hsize
  have a1' : (Write (Reset f) n buf).1 = n := by
    rw [a1]
    show min n (512 - 0) = n
    omega
  have a2' : (Write (Reset f) n buf).2.size = max f.size n := by
    rw [a2]
    show min (max f.size (0 + n)) 512 = max f.size n
    omega
  obtain ⟨r1, r2⟩ := Read_loop_spec n n 0 out (Reset (Write (Reset f) n buf).2)
    (Nat.zero_le _) (by show (Write (Reset f) n buf).2.size < WORD; rw [a2']; unfold WORD; omega)
  have hm : min n (min (n - 0) ((Write (Reset f) n buf).2.size - 0)) = n := by
    rw [a2']
    omega
  refine ⟨⟨a1', a2', ?_, fun j hj => ?_⟩, ?_, ?_⟩
  · show (Read_loop n n 0 out (Reset (Write (Reset f) n buf).2)).1 = n
    rw [r1]
    show 0 + min n (min (n - 0) ((Write (Reset f) n buf).2.size - 0)) = n
    omega
  · show (Read_loop n n 0 out (Reset (Write (Reset f) n buf).2)).2.1 j = buf j
    rw [r2 j]
    show (if 0 ≤ j ∧ j < 0 + min n (min (n - 0) ((Write (Reset f) n buf).2.size - 0)) then
        (Write (Reset f) n buf).2.block_cache (0 + (j - 0)) % 256 else out j) = buf j
    rw [hm, if_pos (by omega), Nat.zero_add, Nat.sub_zero, a3 j]
    show (if 0 ≤ j ∧ j < 0 + min n (512 - 0) then buf (j - 0) % 256
        else f.block_cache j) % 256 = buf j
    rw [if_pos (by omega), Nat.sub_zero, Nat.mod_mod, Nat.mod_eq_of_lt (hbuf j hj)]
  · unfold DISK_BLOCK_SIZE
    exact b1
  · unfold DISK_BLOCK_SIZE
    rw [b2]
    omega

/-- Witness of C28: the 3-byte file `sample` and 5 bytes of the buffer `sample_buf`. -/
theorem write_then_read_witness :
    (sample.size ≤ DISK_BLOCK_SIZE ∧ 5 ≤ DISK_BLOCK_SIZE ∧ sample.pos ≤ sample.size ∧
      ∀ j, j < 5 → sample_buf j < 256) ∧
    ((Write (Reset sample) 5 sample_buf).1 = 5 ∧
      (Write (Reset sample) 5 sample_buf).2.size = max sample.size 5 ∧
      (Read (Reset (Write (Reset sample) 5 sample_buf).2) 5 (fun _ => 0)).1 = 5 ∧
      ∀ j, j < 5 →
        (Read (Reset (Write (Reset sample) 5 sample_buf).2) 5 (fun _ => 0)).2.1 j
          = sample_buf j) ∧
    ((Write sample 5 sample_buf).1 = min 5 (DISK_BLOCK_SIZE - sample.pos) ∧
      (Write sample 5 sample_buf).2.size ≤ DISK_BLOCK_SIZE) :=
  ⟨⟨by decide, by decide, by decide, by decide⟩,
    write_then_read sample 5 sample_buf (fun _ => 0) (by decide) (by decide) (by decide)
      (by decide)⟩

end File

namespace ContFramePool

/-- C29: for every bitmap, every frame index `f` and every state `s`, `get_state(f)` after
`set_state(f, s)` returns `s`, and `get_state(g)` is unchanged for every frame index `g`
other than `f`: the four 2-bit fields of a byte are independent. -/
theorem bitmap_fields_independent (p : ContFramePool) (f g : Nat) (s : FrameState) :
    get_state (set_state p f s) f = s ∧
    (g ≠ f → get_state (set_state p f s) g = get_state p g) :=
  ⟨get_set_same p f s, fun h => get_set_other p f g s h⟩

/-- Witness of C29: frame 5 of the pool `ppool` set to `HeadOfSequence`, and frame 6, whose
two bits are in the same byte. -/
theorem bitmap_fields_independent_witness :
    6 ≠ 5 ∧ 6 / 4 = 5 / 4 ∧
    get_state (set_state Machine.ppool 5 FrameState.HoS) 5 = FrameState.HoS ∧
    get_state (set_state Machine.ppool 5 FrameState.HoS) 6 = get_state Machine.ppool 6 :=
  ⟨by decide, by decide, (bitmap_fields_independent Machine.ppool 5 6 FrameState.HoS).1,
    (bitmap_fields_independent Machine.ppool 5 6 FrameState.HoS).2 (by decide)⟩

end ContFramePool
